import Mathlib

/-!
# aws-efs-manage: the reconciliation engine of `pkg/efsmanage/client.go`

A shallow embedding of `client.go` and theorems about it.

Modelling conventions.

* Go strings are Lean `String`s; `strings.Split` with the one-byte separator
  `":"` is `stringsSplit`, `fmt.Sprintf("%s:%s", m, k)` is `sprintfToken`.
* A Go `map[string]V` is a `GoMap V`: an association list in which `GoMap.set`
  keeps keys unique.  The order in which a `range` statement visits a map is
  not fixed by Go; every `range` site of `ensureFileSystemState` takes its
  order from a `RangeOrder`.
* The AWS services are a `Backend σ`: a state machine over an arbitrary state
  type `σ` with one transition per SDK method used by the program.
* A run is a `Prog σ α`: it maps the backend state to an `Outcome` (normal
  return, `panic`, or `timeout` when a polling loop exhausts its poll budget
  `fuel`), the new backend state and the list of SDK calls issued, each with
  the reply it received (`Event`).
* `panic` aborts the whole run.  Goroutines started in a loop are run to
  completion one after the other, in the order of the loop that starts them.
  `time.Sleep` and `log.Info` have no effect on the backend and are omitted.
* SDK pointer fields (`*string`) are taken to be non-nil.
-/

namespace EfsManage

/-! ## Go runtime: `strings.Split`, `fmt.Sprintf`, maps -/

/-- Scanner behind `stringsSplit`: `cur` holds, reversed, the characters of
the segment being read. -/
def splitFrom (sep : Char) : List Char → List Char → List (List Char)
  | [], cur => [cur.reverse]
  | c :: cs, cur =>
    if c = sep then cur.reverse :: splitFrom sep cs [] else splitFrom sep cs (c :: cur)

/-- Go `strings.Split(s, sep)` for a separator of one character: the segments
of `s` between the occurrences of `sep` (one more than the occurrences). -/
def stringsSplit (s : String) (sep : Char) : List String :=
  (splitFrom sep s.data []).map String.mk

/-- Go `fmt.Sprintf("%s:%s", marker, key)`. -/
def sprintfToken (marker key : String) : String :=
  marker ++ ":" ++ key

def fsTokenMarker : String := "2uasimojo/aws-efs-manage-fs"

def apTokenMarker : String := "2uasimojo/aws-efs-manage-ap"

/-- A Go `map[string]V`. -/
abbrev GoMap (V : Type) := List (String × V)

namespace GoMap

/-- Go `v, ok := m[k]`. -/
def get? {V : Type} : GoMap V → String → Option V
  | [], _ => none
  | (k, v) :: m, key => if k = key then some v else get? m key

/-- Go `_, ok := m[k]`. -/
def has {V : Type} (m : GoMap V) (key : String) : Bool :=
  (m.get? key).isSome

/-- Go `m[k] = v`. -/
def set {V : Type} : GoMap V → String → V → GoMap V
  | [], key, val => [(key, val)]
  | (k, v) :: m, key, val => if k = key then (k, val) :: m else (k, v) :: set m key val

def keys {V : Type} (m : GoMap V) : List String :=
  m.map Prod.fst

end GoMap

/-! ## The program's own types (client.go lines 32-43) -/

/-- Map of an access point key to its AccessPointId. -/
abbrev accessPoints := GoMap String

structure fileSystem where
  fileSystemID : String
  lastLifeCycleState : String
  accessPoints : accessPoints
  deriving DecidableEq

/-- Map of a file system key to its `fileSystem`. -/
abbrev fileSystems := GoMap fileSystem

/-- The iteration order chosen at each `range` over a map in
`ensureFileSystemState`. -/
structure RangeOrder where
  /-- Line 444: `range currentState`. -/
  current : fileSystems → fileSystems
  /-- Line 450: `range currentfs.accessPoints`. -/
  currentAps : accessPoints → accessPoints
  /-- Line 457: `range desired[fskey].accessPoints`. -/
  desiredAps : accessPoints → accessPoints
  /-- Line 473: `range desired`. -/
  desired : fileSystems → fileSystems
  /-- Line 487: `range desiredfs.accessPoints`. -/
  unitAps : accessPoints → accessPoints

/-- An order is valid when each `range` visits every entry exactly once. -/
def RangeOrder.Valid (o : RangeOrder) : Prop :=
  (∀ m, (o.current m).Perm m) ∧ (∀ m, (o.currentAps m).Perm m) ∧
  (∀ m, (o.desiredAps m).Perm m) ∧ (∀ m, (o.desired m).Perm m) ∧
  (∀ m, (o.unitAps m).Perm m)

/-- The order that visits every map in its stored order. -/
def RangeOrder.stored : RangeOrder :=
  ⟨id, id, id, id, id⟩

/-! ## The AWS SDK surface used by the program -/

inductive AwsErr
  | MountTargetConflict
  | MountTargetNotFound
  | FileSystemNotFound
  | AccessPointNotFound
  | FileSystemAlreadyExists
  | AccessPointAlreadyExists
  | FileSystemInUse
  | other (msg : String)
  deriving DecidableEq

/-- Result pair `(output, err)` of an SDK call. -/
inductive Reply (α : Type)
  | ok (a : α)
  | err (e : AwsErr)
  deriving DecidableEq

structure Tag where
  Key : String
  Value : String
  deriving DecidableEq

/-- The fields of `ec2.Instance` the program reads: the group ids of
`SecurityGroups`, the subnet ids of `NetworkInterfaces`, and `Tags`. -/
structure Instance where
  SecurityGroups : List String
  NetworkInterfaces : List String
  Tags : List Tag
  deriving DecidableEq

structure FileSystemDescription where
  CreationToken : String
  FileSystemId : String
  LifeCycleState : String
  deriving DecidableEq

structure AccessPointDescription where
  ClientToken : String
  AccessPointId : String
  LifeCycleState : String
  deriving DecidableEq

structure MountTargetDescription where
  MountTargetId : String
  SubnetId : String
  LifeCycleState : String
  deriving DecidableEq

/-- One SDK call with its inputs and the reply received.  In
`DeleteMountTarget` and `DeleteAccessPoint` the first field is not part of the
SDK input: it is the `fsid` argument of the enclosing `deleteMountTargets`,
respectively `deleteAccessPoint`, call (the value those functions log). -/
inductive Event
  | DescribeInstances (out : Reply (List (List Instance)))
  | DescribeSecurityGroups (sgid : String) (out : Reply (List String))
  | AuthorizeSecurityGroupIngress (sgid : String) (out : Reply Unit)
  | DescribeFileSystems (fsid : Option String) (out : Reply (List FileSystemDescription))
  | DescribeAccessPoints (fsid : String) (out : Reply (List AccessPointDescription))
  | CreateFileSystem (token : String) (tags : List Tag) (out : Reply FileSystemDescription)
  | DescribeMountTargets (fsid : String) (out : Reply (List MountTargetDescription))
  | CreateMountTarget (fsid subnetID sgid : String) (out : Reply MountTargetDescription)
  | CreateAccessPoint (token fsid path : String) (out : Reply AccessPointDescription)
  | DeleteMountTarget (fsid mtid : String) (out : Reply Unit)
  | DeleteFileSystem (fsid : String) (out : Reply Unit)
  | DeleteAccessPoint (fsid apid : String) (out : Reply Unit)
  deriving DecidableEq

/-- The EC2 and EFS services as a state machine over `σ`. -/
structure Backend (σ : Type) where
  DescribeInstances : σ → Reply (List (List Instance)) × σ
  DescribeSecurityGroups : σ → String → Reply (List String) × σ
  AuthorizeSecurityGroupIngress : σ → String → Reply Unit × σ
  DescribeFileSystems : σ → Option String → Reply (List FileSystemDescription) × σ
  DescribeAccessPoints : σ → String → Reply (List AccessPointDescription) × σ
  CreateFileSystem : σ → String → List Tag → Reply FileSystemDescription × σ
  DescribeMountTargets : σ → String → Reply (List MountTargetDescription) × σ
  CreateMountTarget : σ → String → String → String → Reply MountTargetDescription × σ
  CreateAccessPoint : σ → String → String → String → Reply AccessPointDescription × σ
  DeleteMountTarget : σ → String → Reply Unit × σ
  DeleteFileSystem : σ → String → Reply Unit × σ
  DeleteAccessPoint : σ → String → Reply Unit × σ

/-! ## Runs -/

inductive Outcome (α : Type)
  | ok (a : α)
  | panic (msg : String)
  | timeout
  deriving DecidableEq

/-- What a run leaves behind: its outcome, the backend state, and the SDK
calls it issued, oldest first. -/
structure Res (σ α : Type) where
  out : Outcome α
  st : σ
  log : List Event

def Prog (σ α : Type) : Type := σ → Res σ α

namespace Prog

def ret {σ α : Type} (a : α) : Prog σ α :=
  fun s => ⟨.ok a, s, []⟩

def andThen {σ α β : Type} (m : Prog σ α) (f : α → Prog σ β) : Prog σ β :=
  fun s =>
    match m s with
    | ⟨.ok a, s1, t1⟩ => let r := f a s1; ⟨r.out, r.st, t1 ++ r.log⟩
    | ⟨.panic msg, s1, t1⟩ => ⟨.panic msg, s1, t1⟩
    | ⟨.timeout, s1, t1⟩ => ⟨.timeout, s1, t1⟩

instance {σ : Type} : Monad (Prog σ) where
  pure := ret
  bind := andThen

/-- Go `panic(msg)`. -/
def panic {σ α : Type} (msg : String) : Prog σ α :=
  fun s => ⟨.panic msg, s, []⟩

/-- A polling loop has used up its poll budget. -/
def timeout {σ α : Type} : Prog σ α :=
  fun s => ⟨.timeout, s, []⟩

/-- A computation that does not touch the backend. -/
def lift {σ α : Type} : Outcome α → Prog σ α
  | .ok a => ret a
  | .panic msg => panic msg
  | .timeout => timeout

/-- Issue one SDK call: apply the backend transition and record the event. -/
def call {σ α : Type} (step : σ → Reply α × σ) (ev : Reply α → Event) : Prog σ (Reply α) :=
  fun s => ⟨.ok (step s).1, (step s).2, [ev (step s).1]⟩

end Prog

/-! ## client.go -/

section Client

variable {σ : Type} (B : Backend σ)

/-- Lines 59-83. -/
def getWorkers : Prog σ (List Instance) := do
  let res ← Prog.call B.DescribeInstances Event.DescribeInstances
  match res with
  | .err _ => Prog.panic "DescribeInstances"
  | .ok reservations =>
    let ret := reservations.flatten
    if ret.length = 0 then Prog.panic "Could not find any workers." else pure ret

/-- Lines 85-88: `*workers[0].SecurityGroups[0].GroupId`. -/
def getSecurityGroupID (workers : List Instance) : Outcome String :=
  match workers with
  | [] => .panic "index out of range"
  | w :: _ =>
    match w.SecurityGroups with
    | [] => .panic "index out of range"
    | g :: _ => .ok g

/-- Loop of lines 92-94. -/
def getSubnetIDs_loop : List Instance → List String → Outcome (List String)
  | [], ret => .ok ret
  | inst :: rest, ret =>
    match inst.NetworkInterfaces with
    | [] => .panic "index out of range"
    | sub :: _ => getSubnetIDs_loop rest (ret ++ [sub])

/-- Lines 90-99. -/
def getSubnetIDs (workers : List Instance) : Outcome (List String) :=
  match getSubnetIDs_loop workers [] with
  | .ok ret => if ret.length = 0 then .panic "No subnets found." else .ok ret
  | other => other

/-- Lines 101-109. -/
def getOwnedTag (workers : List Instance) : Outcome Tag :=
  match workers with
  | [] => .panic "index out of range"
  | w :: _ =>
    match w.Tags.find? (fun tag => tag.Value = "owned") with
    | some tag => .ok tag
    | none => .panic "Could not find an owned tag."

/-- Lines 111-116. -/
def tagEC2ToEFS (ec2Tag : Tag) : Tag :=
  { Key := ec2Tag.Key, Value := ec2Tag.Value }

/-- Lines 118-149. -/
def ensureNFSIngressRule (sgid : String) : Prog σ Unit := do
  let sgs ← Prog.call (fun s => B.DescribeSecurityGroups s sgid) (Event.DescribeSecurityGroups sgid)
  match sgs with
  | .err _ => Prog.panic "DescribeSecurityGroups"
  | .ok groups =>
    if groups.length ≠ 0 then pure ()
    else do
      let res ← Prog.call (fun s => B.AuthorizeSecurityGroupIngress s sgid)
        (Event.AuthorizeSecurityGroupIngress sgid)
      match res with
      | .err _ => Prog.panic "AuthorizeSecurityGroupIngress"
      | .ok _ => pure ()

/-- Lines 161-165 and 177-181: split the token on ":" and keep `chunks[1]`
unless `len(chunks) != 2 || chunks[0] != marker`. -/
def tokenKey (marker token : String) : Option String :=
  let chunks := stringsSplit token ':'
  if chunks.length ≠ 2 ∨ chunks.head? ≠ some marker then none else chunks.get? 1

/-- Lines 174-182: the loop over the access points listed for one file
system. -/
def getFileSystems_aps : List AccessPointDescription → accessPoints → accessPoints
  | [], aps => aps
  | ap :: rest, aps =>
    match tokenKey apTokenMarker ap.ClientToken with
    | none => getFileSystems_aps rest aps
    | some apKey => getFileSystems_aps rest (aps.set apKey ap.AccessPointId)

/-- Lines 159-188: the loop over the listed file systems. -/
def getFileSystems_loop : List FileSystemDescription → fileSystems → Prog σ fileSystems
  | [], fsmap => pure fsmap
  | fsd :: rest, fsmap =>
    match tokenKey fsTokenMarker fsd.CreationToken with
    | none => getFileSystems_loop rest fsmap
    | some fsKey => do
      let apret ← Prog.call (fun s => B.DescribeAccessPoints s fsd.FileSystemId)
        (Event.DescribeAccessPoints fsd.FileSystemId)
      match apret with
      | .err _ => Prog.panic "DescribeAccessPoints"
      | .ok aplist =>
        getFileSystems_loop rest
          (fsmap.set fsKey
            { fileSystemID := fsd.FileSystemId
              lastLifeCycleState := fsd.LifeCycleState
              accessPoints := getFileSystems_aps aplist [] })

/-- Lines 153-190. -/
def getFileSystems : Prog σ fileSystems := do
  let fsret ← Prog.call (fun s => B.DescribeFileSystems s none) (Event.DescribeFileSystems none)
  match fsret with
  | .err _ => Prog.panic "DescribeFileSystems"
  | .ok fslist => getFileSystems_loop B fslist []

/-- Lines 193-209. -/
def newFileSystem (_subnetIDs : List String) (_sgid : String) (ownedTag : Tag) (key : String) :
    Prog σ String := do
  let token := sprintfToken fsTokenMarker key
  let fsd ← Prog.call (fun s => B.CreateFileSystem s token [ownedTag])
    (Event.CreateFileSystem token [ownedTag])
  match fsd with
  | .err _ => Prog.panic "CreateFileSystem"
  | .ok d => pure d.FileSystemId

/-- Lines 211-227; `fuel` bounds the number of polls. -/
def waitForFSAvailable : Nat → fileSystem → Prog σ Unit
  | 0, fs => if fs.lastLifeCycleState = "available" then pure () else Prog.timeout
  | fuel + 1, fs =>
    if fs.lastLifeCycleState = "available" then pure ()
    else do
      let dfsOutput ← Prog.call (fun s => B.DescribeFileSystems s (some fs.fileSystemID))
        (Event.DescribeFileSystems (some fs.fileSystemID))
      match dfsOutput with
      | .err _ => Prog.panic "DescribeFileSystems"
      | .ok [d] => waitForFSAvailable fuel { fs with lastLifeCycleState := d.LifeCycleState }
      | .ok _ => Prog.panic "Expected exactly one file system"

/-- Lines 229-245; `fuel` bounds the number of polls. -/
def waitForAccessPointsAvailable (fsid : String) : Nat → Prog σ Unit
  | 0 => Prog.timeout
  | fuel + 1 => do
    let dapOutput ← Prog.call (fun s => B.DescribeAccessPoints s fsid)
      (Event.DescribeAccessPoints fsid)
    match dapOutput with
    | .err _ => Prog.panic "DescribeAccessPoints"
    | .ok aps =>
      if aps.all (fun ap => ap.LifeCycleState = "available") then pure ()
      else waitForAccessPointsAvailable fsid fuel

/-- Lines 283-296. -/
def ensureMountTarget (fsid subnetID sgid : String) : Prog σ Unit := do
  let res ← Prog.call (fun s => B.CreateMountTarget s fsid subnetID sgid)
    (Event.CreateMountTarget fsid subnetID sgid)
  match res with
  | .ok _ => pure ()
  | .err .MountTargetConflict => pure ()
  | .err _ => Prog.panic "CreateMountTarget"

/-- Lines 251-262: one `ensureMountTarget` per subnet id not yet in `seen`. -/
def ensureMountTargets_spawn (fsid sgid : String) : List String → List String → Prog σ Unit
  | [], _ => pure ()
  | subnetID :: rest, seen =>
    if subnetID ∈ seen then ensureMountTargets_spawn fsid sgid rest seen
    else do
      ensureMountTarget B fsid subnetID sgid
      ensureMountTargets_spawn fsid sgid rest (subnetID :: seen)

/-- Lines 265-280; `fuel` bounds the number of polls. -/
def ensureMountTargets_poll (fsid : String) : Nat → Prog σ Unit
  | 0 => Prog.timeout
  | fuel + 1 => do
    let dmtOutput ← Prog.call (fun s => B.DescribeMountTargets s fsid)
      (Event.DescribeMountTargets fsid)
    match dmtOutput with
    | .err _ => Prog.panic "DescribeMountTargets"
    | .ok mts =>
      if mts.all (fun mt => mt.LifeCycleState = "available") then pure ()
      else ensureMountTargets_poll fsid fuel

/-- Lines 247-281. -/
def ensureMountTargets (fuel : Nat) (fsid : String) (subnetIDs : List String) (sgid : String) :
    Prog σ Unit := do
  ensureMountTargets_spawn B fsid sgid subnetIDs []
  ensureMountTargets_poll B fsid fuel

/-- Lines 298-319. -/
def newAccessPoint (fsid key : String) : Prog σ String := do
  let token := sprintfToken apTokenMarker key
  let apOutput ← Prog.call (fun s => B.CreateAccessPoint s token fsid ("/" ++ key))
    (Event.CreateAccessPoint token fsid ("/" ++ key))
  match apOutput with
  | .err _ => Prog.panic "CreateAccessPoint"
  | .ok d => pure d.AccessPointId

/-- Lines 335-345. -/
def deleteMountTargets_requests (fsid : String) : List MountTargetDescription → Prog σ Unit
  | [] => pure ()
  | mt :: rest => do
    let res ← Prog.call (fun s => B.DeleteMountTarget s mt.MountTargetId)
      (Event.DeleteMountTarget fsid mt.MountTargetId)
    match res with
    | .ok _ => deleteMountTargets_requests fsid rest
    | .err .MountTargetNotFound => deleteMountTargets_requests fsid rest
    | .err _ => Prog.panic "DeleteMountTarget"

/-- Lines 348-366; `fuel` bounds the number of polls. -/
def deleteMountTargets_poll (fsid : String) : Nat → Prog σ Unit
  | 0 => Prog.timeout
  | fuel + 1 => do
    let descOutput ← Prog.call (fun s => B.DescribeMountTargets s fsid)
      (Event.DescribeMountTargets fsid)
    match descOutput with
    | .err _ => Prog.panic "DescribeMountTargets"
    | .ok mts => if mts.length = 0 then pure () else deleteMountTargets_poll fsid fuel

/-- Lines 321-367. -/
def deleteMountTargets (fuel : Nat) (fsid : String) : Prog σ Unit := do
  let descOutput ← Prog.call (fun s => B.DescribeMountTargets s fsid)
    (Event.DescribeMountTargets fsid)
  match descOutput with
  | .err _ => Prog.panic "DescribeMountTargets"
  | .ok mts =>
    if mts.length = 0 then pure ()
    else do
      deleteMountTargets_requests B fsid mts
      deleteMountTargets_poll B fsid fuel

/-- Lines 369-378. -/
def deleteFileSystem (fuel : Nat) (fsid : String) : Prog σ Unit := do
  deleteMountTargets B fuel fsid
  let res ← Prog.call (fun s => B.DeleteFileSystem s fsid) (Event.DeleteFileSystem fsid)
  match res with
  | .err _ => Prog.panic "Could not remove file system"
  | .ok _ => pure ()

/-- Lines 380-388. -/
def deleteAccessPoint (fsid apid : String) : Prog σ Unit := do
  let res ← Prog.call (fun s => B.DeleteAccessPoint s apid) (Event.DeleteAccessPoint fsid apid)
  match res with
  | .err _ => Prog.panic "Could not remove access point"
  | .ok _ => pure ()

/-- Lines 395-401. -/
def deleteEverything_loop (fuel : Nat) : List (String × fileSystem) → Prog σ Unit
  | [] => pure ()
  | (_, currentfs) :: rest => do
    deleteFileSystem B fuel currentfs.fileSystemID
    deleteEverything_loop fuel rest

/-- Lines 390-403. -/
def deleteEverything (o : RangeOrder) (fuel : Nat) : Prog σ Unit := do
  let currentState ← getFileSystems B
  deleteEverything_loop B fuel (o.current currentState)

/-- Lines 450-454: remove the access points of `currentfs` that are not
desired. -/
def ensureFileSystemState_removeAps (fsid : String) (desiredAps : accessPoints) :
    List (String × String) → Prog σ Unit
  | [] => pure ()
  | (apkey, currentap) :: rest =>
    if desiredAps.has apkey then ensureFileSystemState_removeAps fsid desiredAps rest
    else do
      deleteAccessPoint B fsid currentap
      ensureFileSystemState_removeAps fsid desiredAps rest

/-- Lines 457-464: create the desired access points that `currentfs` lacks
and record their ids in `currentfs.accessPoints`. -/
def ensureFileSystemState_addAps (fsid : String) :
    List (String × String) → accessPoints → Prog σ accessPoints
  | [], aps => pure aps
  | (apkey, _) :: rest, aps =>
    if aps.has apkey then ensureFileSystemState_addAps fsid rest aps
    else do
      let apid ← newAccessPoint B fsid apkey
      ensureFileSystemState_addAps fsid rest (aps.set apkey apid)

/-- Lines 444-469: the loop over `currentState`.  The second argument is
`currentState` itself: `currentfs.accessPoints` is the map object stored in
`currentState[fskey]`, so the insertions of line 463 show in it. -/
def ensureFileSystemState_prune (o : RangeOrder) (fuel : Nat) (desired : fileSystems) :
    List (String × fileSystem) → fileSystems → Prog σ fileSystems
  | [], currentState => pure currentState
  | (fskey, currentfs) :: rest, currentState =>
    match desired.get? fskey with
    | some desiredfs => do
      ensureFileSystemState_removeAps B currentfs.fileSystemID desiredfs.accessPoints
        (o.currentAps currentfs.accessPoints)
      let aps ← ensureFileSystemState_addAps B currentfs.fileSystemID
        (o.desiredAps desiredfs.accessPoints) currentfs.accessPoints
      ensureFileSystemState_prune o fuel desired rest
        (currentState.set fskey { currentfs with accessPoints := aps })
    | none => do
      deleteFileSystem B fuel currentfs.fileSystemID
      ensureFileSystemState_prune o fuel desired rest currentState

/-- Lines 487-493. -/
def ensureFileSystemState_unitAps (fsid : String) (currentAps : accessPoints) :
    List (String × String) → Prog σ Unit
  | [] => pure ()
  | (apkey, _) :: rest =>
    if currentAps.has apkey then ensureFileSystemState_unitAps fsid currentAps rest
    else do
      let _ ← newAccessPoint B fsid apkey
      ensureFileSystemState_unitAps fsid currentAps rest

/-- Lines 475-495: the goroutine started for one desired file system. -/
def ensureFileSystemState_unit (o : RangeOrder) (fuel : Nat) (subnetIDs : List String)
    (sgid : String) (efsTag : Tag) (currentState : fileSystems) (fskey : String)
    (desiredfs : fileSystem) : Prog σ Unit := do
  let currentfs ← (match currentState.get? fskey with
    | some fs => pure fs
    | none => do
      let fsid ← newFileSystem B subnetIDs sgid efsTag fskey
      pure { fileSystemID := fsid, lastLifeCycleState := "", accessPoints := [] })
  waitForFSAvailable B fuel currentfs
  ensureMountTargets B fuel currentfs.fileSystemID subnetIDs sgid
  ensureFileSystemState_unitAps B currentfs.fileSystemID currentfs.accessPoints
    (o.unitAps desiredfs.accessPoints)
  waitForAccessPointsAvailable B currentfs.fileSystemID fuel

/-- Lines 472-497: the loop over `desired`. -/
def ensureFileSystemState_provision (o : RangeOrder) (fuel : Nat) (subnetIDs : List String)
    (sgid : String) (efsTag : Tag) (currentState : fileSystems) :
    List (String × fileSystem) → Prog σ Unit
  | [] => pure ()
  | (fskey, desiredfs) :: rest => do
    ensureFileSystemState_unit B o fuel subnetIDs sgid efsTag currentState fskey desiredfs
    ensureFileSystemState_provision o fuel subnetIDs sgid efsTag currentState rest

/-- Lines 441-498: everything after `currentState := getFileSystems(efssvc)`. -/
def ensureFileSystemState_reconcile (o : RangeOrder) (fuel : Nat) (subnetIDs : List String)
    (sgid : String) (efsTag : Tag) (desired currentState : fileSystems) : Prog σ Unit := do
  let currentState ← ensureFileSystemState_prune B o fuel desired (o.current currentState)
    currentState
  ensureFileSystemState_provision B o fuel subnetIDs sgid efsTag currentState (o.desired desired)

/-- Lines 422-498. -/
def ensureFileSystemState (o : RangeOrder) (fuel : Nat) (desired : fileSystems) : Prog σ Unit := do
  let workers ← getWorkers B
  let sgid ← Prog.lift (getSecurityGroupID workers)
  let subnetIDs ← Prog.lift (getSubnetIDs workers)
  let ec2Tag ← Prog.lift (getOwnedTag workers)
  ensureNFSIngressRule B sgid
  let efsTag := tagEC2ToEFS ec2Tag
  let currentState ← getFileSystems B
  ensureFileSystemState_reconcile B o fuel subnetIDs sgid efsTag desired currentState

/-- What `ensureFileSystemState` has gathered when discovery is done: the
security group, the subnet ids, the tag for new file systems and the current
state. -/
structure Discovery where
  sgid : String
  subnetIDs : List String
  efsTag : Tag
  currentState : fileSystems
  deriving DecidableEq

/-- Lines 423-439: `ensureFileSystemState` up to and including
`currentState := getFileSystems(efssvc)`. -/
def ensureFileSystemState_discover : Prog σ Discovery := do
  let workers ← getWorkers B
  let sgid ← Prog.lift (getSecurityGroupID workers)
  let subnetIDs ← Prog.lift (getSubnetIDs workers)
  let ec2Tag ← Prog.lift (getOwnedTag workers)
  ensureNFSIngressRule B sgid
  let efsTag := tagEC2ToEFS ec2Tag
  let currentState ← getFileSystems B
  pure { sgid := sgid, subnetIDs := subnetIDs, efsTag := efsTag, currentState := currentState }

end Client

/-! ## Views of the call log -/

/-- A listing call (`Describe...`). -/
def Event.isRead : Event → Bool
  | .DescribeInstances _ => true
  | .DescribeSecurityGroups _ _ => true
  | .DescribeFileSystems _ _ => true
  | .DescribeAccessPoints _ _ => true
  | .DescribeMountTargets _ _ => true
  | _ => false

/-- A call that the backend answered with an error. -/
def Event.failed : Event → Bool
  | .DescribeInstances (.err _) => true
  | .DescribeSecurityGroups _ (.err _) => true
  | .AuthorizeSecurityGroupIngress _ (.err _) => true
  | .DescribeFileSystems _ (.err _) => true
  | .DescribeAccessPoints _ (.err _) => true
  | .CreateFileSystem _ _ (.err _) => true
  | .DescribeMountTargets _ (.err _) => true
  | .CreateMountTarget _ _ _ (.err _) => true
  | .CreateAccessPoint _ _ _ (.err _) => true
  | .DeleteMountTarget _ _ (.err _) => true
  | .DeleteFileSystem _ (.err _) => true
  | .DeleteAccessPoint _ _ (.err _) => true
  | _ => false

/-- An answer that makes the caller panic: an error other than the two the
program tolerates (`MountTargetConflict` on create, `MountTargetNotFound` on
delete), or a listing of one file system by id that does not hold exactly one
entry (line 221). -/
def Event.fatal : Event → Bool
  | .CreateMountTarget _ _ _ (.err .MountTargetConflict) => false
  | .DeleteMountTarget _ _ (.err .MountTargetNotFound) => false
  | .DescribeFileSystems (some _) (.ok [_]) => false
  | .DescribeFileSystems (some _) (.ok _) => true
  | e => e.failed

/-- An answer after which a polling loop polls again: a file system listed by
id that is not `available`, access points not all `available`, or a
non-empty list of mount targets (the wait of `ensureMountTargets` polls again
when one of them is not `available`, the wait of `deleteMountTargets` as long
as one is listed). -/
def Event.pending : Event → Bool
  | .DescribeFileSystems (some _) (.ok [d]) => d.LifeCycleState ≠ "available"
  | .DescribeAccessPoints _ (.ok aps) => !aps.all (fun ap => ap.LifeCycleState = "available")
  | .DescribeMountTargets _ (.ok mts) => !mts.isEmpty
  | _ => false

/-- The failure of a run is accounted for by its log: a panic comes with an
answer that is `fatal`, a timeout with at least `fuel` answers that are
`pending`. -/
def Res.Explained {σ α : Type} (fuel : Nat) (r : Res σ α) : Prop :=
  (∀ msg, r.out = .panic msg → ∃ e ∈ r.log, e.fatal = true) ∧
  (r.out = .timeout → fuel ≤ r.log.countP Event.pending)

/-- A teardown request: a mount-target delete or a file-system delete. -/
def Event.isTeardown : Event → Bool
  | .DeleteMountTarget _ _ _ => true
  | .DeleteFileSystem _ _ => true
  | _ => false

/-- A delete request of any kind. -/
def Event.isDelete : Event → Bool
  | .DeleteMountTarget _ _ _ => true
  | .DeleteFileSystem _ _ => true
  | .DeleteAccessPoint _ _ _ => true
  | _ => false

/-- A create request for a file system or a mount target. -/
def Event.isProvision : Event → Bool
  | .CreateFileSystem _ _ _ => true
  | .CreateMountTarget _ _ _ _ => true
  | _ => false

/-- A create request of any kind. -/
def Event.isCreate : Event → Bool
  | .CreateFileSystem _ _ _ => true
  | .CreateMountTarget _ _ _ _ => true
  | .CreateAccessPoint _ _ _ _ => true
  | _ => false

/-- The `CreateFileSystem` requests of a log: creation token and, when the
call succeeded, the id the backend returned. -/
def fileSystemCreates (log : List Event) : List (String × Option String) :=
  log.filterMap fun
    | .CreateFileSystem token _ (.ok d) => some (token, some d.FileSystemId)
    | .CreateFileSystem token _ (.err _) => some (token, none)
    | _ => none

/-- The `CreateMountTarget` requests of a log: file system id and subnet id. -/
def mountTargetCreates (log : List Event) : List (String × String) :=
  log.filterMap fun
    | .CreateMountTarget fsid subnetID _ _ => some (fsid, subnetID)
    | _ => none

/-- The `CreateAccessPoint` requests of a log: client token and file system
id. -/
def accessPointCreates (log : List Event) : List (String × String) :=
  log.filterMap fun
    | .CreateAccessPoint token fsid _ _ => some (token, fsid)
    | _ => none

/-- The `DeleteFileSystem` requests of a log: file system id. -/
def fileSystemDeletes (log : List Event) : List String :=
  log.filterMap fun
    | .DeleteFileSystem fsid _ => some fsid
    | _ => none

/-- The `DeleteMountTarget` requests of a log: id of the file system being
torn down and mount target id. -/
def mountTargetDeletes (log : List Event) : List (String × String) :=
  log.filterMap fun
    | .DeleteMountTarget fsid mtid _ => some (fsid, mtid)
    | _ => none

/-- The `DeleteAccessPoint` requests of a log: file system id and access
point id. -/
def accessPointDeletes (log : List Event) : List (String × String) :=
  log.filterMap fun
    | .DeleteAccessPoint fsid apid _ => some (fsid, apid)
    | _ => none

/-! ## Reference backends

`refBackend` is a small model of EFS in which a created resource is listed
from then on, with the token it was created with and in state `available`,
and in which a second mount target on a subnet of a file system is refused
with `MountTargetConflict`.  With `strict` set, a creation token that is
already in use is refused as well.  `absentBackend` is a backend on which
nothing exists. -/

structure RefFs where
  id : String
  token : String
  aps : List AccessPointDescription
  mts : List MountTargetDescription
  deriving DecidableEq

structure RefState where
  instances : List (List Instance)
  ingress : List String
  fss : List RefFs
  next : Nat
  deriving DecidableEq

def RefFs.desc (f : RefFs) : FileSystemDescription :=
  { CreationToken := f.token, FileSystemId := f.id, LifeCycleState := "available" }

def RefState.find (s : RefState) (fsid : String) : Option RefFs :=
  s.fss.find? (fun f => f.id = fsid)

def RefState.update (s : RefState) (fsid : String) (g : RefFs → RefFs) : RefState :=
  { s with fss := s.fss.map (fun f => if f.id = fsid then g f else f), next := s.next + 1 }

def refBackend (strict : Bool) : Backend RefState where
  DescribeInstances s := (.ok s.instances, s)
  DescribeSecurityGroups s sgid := (.ok (if sgid ∈ s.ingress then [sgid] else []), s)
  AuthorizeSecurityGroupIngress s sgid := (.ok (), { s with ingress := sgid :: s.ingress })
  DescribeFileSystems s fsid :=
    match fsid with
    | none => (.ok (s.fss.map RefFs.desc), s)
    | some id =>
      match s.find id with
      | none => (.err .FileSystemNotFound, s)
      | some f => (.ok [f.desc], s)
  DescribeAccessPoints s fsid :=
    match s.find fsid with
    | none => (.err .FileSystemNotFound, s)
    | some f => (.ok f.aps, s)
  CreateFileSystem s token _ :=
    if strict = true ∧ token ∈ s.fss.map RefFs.token then (.err .FileSystemAlreadyExists, s)
    else
      let id := "fs-" ++ toString s.next
      (.ok { CreationToken := token, FileSystemId := id, LifeCycleState := "available" },
        { s with fss := s.fss ++ [{ id := id, token := token, aps := [], mts := [] }],
                 next := s.next + 1 })
  DescribeMountTargets s fsid :=
    match s.find fsid with
    | none => (.err .FileSystemNotFound, s)
    | some f => (.ok f.mts, s)
  CreateMountTarget s fsid subnetID _ :=
    match s.find fsid with
    | none => (.err .FileSystemNotFound, s)
    | some f =>
      if subnetID ∈ f.mts.map MountTargetDescription.SubnetId then (.err .MountTargetConflict, s)
      else
        let d : MountTargetDescription :=
          { MountTargetId := "fsmt-" ++ toString s.next, SubnetId := subnetID,
            LifeCycleState := "available" }
        (.ok d, s.update fsid (fun f => { f with mts := f.mts ++ [d] }))
  CreateAccessPoint s token fsid _ :=
    match s.find fsid with
    | none => (.err .FileSystemNotFound, s)
    | some f =>
      if strict = true ∧ token ∈ f.aps.map AccessPointDescription.ClientToken then
        (.err .AccessPointAlreadyExists, s)
      else
        let d : AccessPointDescription :=
          { ClientToken := token, AccessPointId := "fsap-" ++ toString s.next,
            LifeCycleState := "available" }
        (.ok d, s.update fsid (fun f => { f with aps := f.aps ++ [d] }))
  DeleteMountTarget s mtid :=
    if s.fss.any (fun f => f.mts.any (fun d => d.MountTargetId = mtid)) then
      (.ok (), { s with fss := s.fss.map (fun f =>
        { f with mts := f.mts.filter (fun d => d.MountTargetId ≠ mtid) }) })
    else (.err .MountTargetNotFound, s)
  DeleteFileSystem s fsid :=
    match s.find fsid with
    | none => (.err .FileSystemNotFound, s)
    | some f =>
      if f.mts.length ≠ 0 then (.err .FileSystemInUse, s)
      else (.ok (), { s with fss := s.fss.filter (fun f => f.id ≠ fsid) })
  DeleteAccessPoint s apid :=
    if s.fss.any (fun f => f.aps.any (fun d => d.AccessPointId = apid)) then
      (.ok (), { s with fss := s.fss.map (fun f =>
        { f with aps := f.aps.filter (fun d => d.AccessPointId ≠ apid) }) })
    else (.err .AccessPointNotFound, s)

/-- The reference state with one fleet of workers and no file system. -/
def refInit (workers : List Instance) : RefState :=
  { instances := [workers], ingress := [], fss := [], next := 0 }

/-- A backend with a fixed inventory that refuses every change: listings
answer from `fss`, `aps` and `mts`, deletes answer "not found", creations are
refused. -/
def staticBackend (fss : List FileSystemDescription)
    (aps : String → List AccessPointDescription)
    (mts : String → List MountTargetDescription) : Backend Unit where
  DescribeInstances s := (.ok [], s)
  DescribeSecurityGroups s _ := (.ok [], s)
  AuthorizeSecurityGroupIngress s _ := (.ok (), s)
  DescribeFileSystems s _ := (.ok fss, s)
  DescribeAccessPoints s fsid := (.ok (aps fsid), s)
  CreateFileSystem s _ _ := (.err (.other "refused"), s)
  DescribeMountTargets s fsid := (.ok (mts fsid), s)
  CreateMountTarget s _ _ _ := (.err (.other "refused"), s)
  CreateAccessPoint s _ _ _ := (.err (.other "refused"), s)
  DeleteMountTarget s _ := (.err .MountTargetNotFound, s)
  DeleteFileSystem s _ := (.err .FileSystemNotFound, s)
  DeleteAccessPoint s _ := (.err .AccessPointNotFound, s)

/-- A backend on which nothing exists. -/
def absentBackend : Backend Unit :=
  staticBackend [] (fun _ => []) (fun _ => [])

/-- A worker instance in subnet `subnetID`, in security group `sg-1`, carrying
an `owned` tag. -/
def worker (subnetID : String) : Instance :=
  { SecurityGroups := ["sg-1"], NetworkInterfaces := [subnetID],
    Tags := [{ Key := "kubernetes.io/cluster/c1", Value := "owned" }] }

/-- A desired file system as `main.go` builds it (lines 98-106): the values
of its access point map are empty strings. -/
def desiredFS (apkeys : List String) : fileSystem :=
  { fileSystemID := "", lastLifeCycleState := "",
    accessPoints := apkeys.foldl (fun m k => GoMap.set m k "") [] }

/-! ## Example inputs -/

/-- A reference state with three workers in two subnets, a managed file
system `fsA` (id `fs-0`) with access points `ap1` and `ap2` and a mount target
in `s1`, and a managed file system `fsC` (id `fs-1`) with one access point and
mount targets in both subnets. -/
def refExample : RefState :=
  { instances := [[worker "s1", worker "s1", worker "s2"]]
    ingress := ["sg-1"]
    next := 10
    fss :=
      [{ id := "fs-0", token := "2uasimojo/aws-efs-manage-fs:fsA",
         aps := [⟨"2uasimojo/aws-efs-manage-ap:ap1", "fsap-1", "available"⟩,
                 ⟨"2uasimojo/aws-efs-manage-ap:ap2", "fsap-2", "available"⟩],
         mts := [⟨"fsmt-3", "s1", "available"⟩] },
       { id := "fs-1", token := "2uasimojo/aws-efs-manage-fs:fsC",
         aps := [⟨"2uasimojo/aws-efs-manage-ap:apX", "fsap-6", "available"⟩],
         mts := [⟨"fsmt-4", "s1", "available"⟩, ⟨"fsmt-5", "s2", "available"⟩] }] }

/-- The current graph that discovery builds from `refExample`. -/
def currentExample : fileSystems :=
  [("fsA", ⟨"fs-0", "available", [("ap1", "fsap-1"), ("ap2", "fsap-2")]⟩),
   ("fsC", ⟨"fs-1", "available", [("apX", "fsap-6")]⟩)]

/-- A desired graph that keeps `fsA` with access points `ap2` and `ap3`. -/
def desiredExample : fileSystems :=
  [("fsA", desiredFS ["ap2", "ap3"])]

/-- The desired graph of the convergence example: `fsA` with two access
points, `fsB` with none. -/
def desiredTwo : fileSystems :=
  [("fsA", desiredFS ["ap1", "ap2"]), ("fsB", desiredFS [])]

/-- The reference state reached from `refInit` by a run with `desiredTwo`
and three workers in subnets `s1`, `s1`, `s2`. -/
def refConverged : RefState :=
  { instances := [[worker "s1", worker "s1", worker "s2"]]
    ingress := ["sg-1"]
    next := 8
    fss :=
      [{ id := "fs-0", token := "2uasimojo/aws-efs-manage-fs:fsA",
         aps := [⟨"2uasimojo/aws-efs-manage-ap:ap1", "fsap-3", "available"⟩,
                 ⟨"2uasimojo/aws-efs-manage-ap:ap2", "fsap-4", "available"⟩],
         mts := [⟨"fsmt-1", "s1", "available"⟩, ⟨"fsmt-2", "s2", "available"⟩] },
       { id := "fs-5", token := "2uasimojo/aws-efs-manage-fs:fsB",
         aps := [],
         mts := [⟨"fsmt-6", "s1", "available"⟩, ⟨"fsmt-7", "s2", "available"⟩] }] }

/-- The tag of `worker`, passed on to new file systems. -/
def exampleTag : Tag :=
  { Key := "kubernetes.io/cluster/c1", Value := "owned" }

/-! ## Go maps -/

namespace GoMap

variable {V : Type}

theorem get?_set (m : GoMap V) (k k2 : String) (v : V) :
    (m.set k v).get? k2 = if k = k2 then some v else m.get? k2 := by
  induction m with
  | nil => simp [set, get?]
  | cons e m ih =>
    obtain ⟨a, b⟩ := e
    by_cases h : a = k
    · subst h
      by_cases h2 : a = k2 <;> simp [set, get?, h2]
    · by_cases h2 : a = k2
      · subst h2
        simp [set, get?, h, Ne.symm h]
      · simp [set, get?, h, h2, ih]

theorem has_set (m : GoMap V) (k k2 : String) (v : V) :
    (m.set k v).has k2 = true ↔ k = k2 ∨ m.has k2 = true := by
  unfold has
  rw [get?_set]
  by_cases h : k = k2 <;> simp [h]

theorem has_iff_mem_keys (m : GoMap V) (k : String) : m.has k = true ↔ k ∈ m.keys := by
  induction m with
  | nil => simp [has, get?, keys]
  | cons e m ih =>
    obtain ⟨a, b⟩ := e
    by_cases h : a = k
    · simp [has, get?, keys, h]
    · have : ¬ k = a := fun h2 => h h2.symm
      simp only [has, keys] at ih
      simp [has, get?, keys, h, this, ih]

theorem has_eq_false_iff (m : GoMap V) (k : String) : m.has k = false ↔ m.get? k = none := by
  unfold has
  cases m.get? k <;> simp

theorem has_of_get? {m : GoMap V} {k : String} {v : V} (h : m.get? k = some v) :
    m.has k = true := by
  simp [has, h]

theorem mem_of_get? {m : GoMap V} {k : String} {v : V} (h : m.get? k = some v) :
    (k, v) ∈ m := by
  induction m with
  | nil => simp [get?] at h
  | cons e m ih =>
    obtain ⟨a, b⟩ := e
    by_cases h2 : a = k
    · simp [get?, h2] at h
      simp [h2, h]
    · simp [get?, h2] at h
      exact List.mem_cons_of_mem _ (ih h)

theorem get?_of_mem {m : GoMap V} {k : String} {v : V} (hn : m.keys.Nodup) (h : (k, v) ∈ m) :
    m.get? k = some v := by
  induction m with
  | nil => simp at h
  | cons e m ih =>
    obtain ⟨a, b⟩ := e
    simp only [keys, List.map_cons, List.nodup_cons] at hn
    rcases List.mem_cons.mp h with h1 | h1
    · cases h1
      simp [get?]
    · have hk : k ∈ m.map Prod.fst := List.mem_map.mpr ⟨(k, v), h1, rfl⟩
      have : a ≠ k := fun h2 => hn.1 (h2 ▸ hk)
      simp [get?, this]
      exact ih hn.2 h1

end GoMap

/-! ## Runs -/

namespace Prog

variable {σ α β : Type}

@[simp] theorem pure_apply (a : α) (s : σ) : (pure a : Prog σ α) s = ⟨.ok a, s, []⟩ := rfl

@[simp] theorem ret_apply (a : α) (s : σ) : (ret a : Prog σ α) s = ⟨.ok a, s, []⟩ := rfl

@[simp] theorem panic_apply (msg : String) (s : σ) :
    (panic msg : Prog σ α) s = ⟨.panic msg, s, []⟩ := rfl

@[simp] theorem timeout_apply (s : σ) : (timeout : Prog σ α) s = ⟨.timeout, s, []⟩ := rfl

@[simp] theorem call_apply (step : σ → Reply α × σ) (ev : Reply α → Event) (s : σ) :
    call step ev s = ⟨.ok (step s).1, (step s).2, [ev (step s).1]⟩ := rfl

/-- How a sequence runs: the continuation runs only after a normal return,
and the logs are concatenated. -/
theorem bind_apply (m : Prog σ α) (f : α → Prog σ β) (s : σ) :
    (m >>= f) s =
      match (m s).out with
      | .ok a => ⟨(f a (m s).st).out, (f a (m s).st).st, (m s).log ++ (f a (m s).st).log⟩
      | .panic msg => ⟨.panic msg, (m s).st, (m s).log⟩
      | .timeout => ⟨.timeout, (m s).st, (m s).log⟩ := by
  show andThen m f s = _
  unfold andThen
  rcases m s with ⟨out, s1, t1⟩
  cases out <;> rfl

theorem bind_of_ok {m : Prog σ α} {f : α → Prog σ β} {s : σ} {a : α} (h : (m s).out = .ok a) :
    (m >>= f) s = ⟨(f a (m s).st).out, (f a (m s).st).st, (m s).log ++ (f a (m s).st).log⟩ := by
  rw [bind_apply, h]

theorem bind_of_panic {m : Prog σ α} {f : α → Prog σ β} {s : σ} {msg : String}
    (h : (m s).out = .panic msg) : (m >>= f) s = ⟨.panic msg, (m s).st, (m s).log⟩ := by
  rw [bind_apply, h]

/-- A sequence that returns normally ran both of its parts to a normal
return. -/
theorem bind_ok_inv {m : Prog σ α} {f : α → Prog σ β} {s : σ} {b : β}
    (h : ((m >>= f) s).out = .ok b) :
    ∃ a, (m s).out = .ok a ∧ (f a (m s).st).out = .ok b ∧
      ((m >>= f) s).log = (m s).log ++ (f a (m s).st).log ∧
      ((m >>= f) s).st = (f a (m s).st).st := by
  rw [bind_apply] at h ⊢
  cases hm : (m s).out with
  | ok a => rw [hm] at h; exact ⟨a, rfl, h, rfl, rfl⟩
  | panic msg => rw [hm] at h; cases h
  | timeout => rw [hm] at h; cases h

/-- A property of all events of both parts holds of the events of the
sequence, whatever its outcome. -/
theorem forall_log_bind {P : Event → Prop} (m : Prog σ α) (f : α → Prog σ β) (s : σ)
    (hm : ∀ e ∈ (m s).log, P e) (hf : ∀ a s1, ∀ e ∈ (f a s1).log, P e) :
    ∀ e ∈ ((m >>= f) s).log, P e := by
  rw [bind_apply]
  cases hm2 : (m s).out with
  | ok a =>
    intro e he
    rcases List.mem_append.mp he with h | h
    · exact hm e h
    · exact hf _ _ e h
  | panic msg => exact hm
  | timeout => exact hm

end Prog

/-! ## Token codec -/

theorem splitFrom_of_not_mem (sep : Char) (l cur : List Char) (h : sep ∉ l) :
    splitFrom sep l cur = [cur.reverse ++ l] := by
  induction l generalizing cur with
  | nil => simp [splitFrom]
  | cons c cs ih =>
    have hc : c ≠ sep := fun h2 => h (by simp [h2])
    have hcs : sep ∉ cs := fun h2 => h (List.mem_cons_of_mem _ h2)
    simp [splitFrom, hc, ih _ hcs]

theorem splitFrom_append_sep (sep : Char) (a b cur : List Char) (h : sep ∉ a) :
    splitFrom sep (a ++ sep :: b) cur = (cur.reverse ++ a) :: splitFrom sep b [] := by
  induction a generalizing cur with
  | nil => simp [splitFrom]
  | cons c cs ih =>
    have hc : c ≠ sep := fun h2 => h (by simp [h2])
    have hcs : sep ∉ cs := fun h2 => h (List.mem_cons_of_mem _ h2)
    simp [splitFrom, hc, ih _ hcs]

theorem splitFrom_length (sep : Char) (l cur : List Char) :
    (splitFrom sep l cur).length = l.count sep + 1 := by
  induction l generalizing cur with
  | nil => simp [splitFrom]
  | cons c cs ih =>
    by_cases hc : c = sep
    · simp [splitFrom, hc, ih]
    · simp [splitFrom, hc, ih, List.count_cons]

/-- The decoder keeps a token exactly when it splits into the marker and one
more segment, which is the key. -/
theorem tokenKey_eq_some_iff (marker token key : String) :
    tokenKey marker token = some key ↔ stringsSplit token ':' = [marker, key] := by
  unfold tokenKey
  rcases h : stringsSplit token ':' with _ | ⟨a, _ | ⟨b, _ | ⟨c, l⟩⟩⟩
  · simp
  · simp
  · by_cases ha : a = marker <;> simp [ha]
  · simp

theorem stringsSplit_sprintfToken (marker key : String) (hm : ':' ∉ marker.data) :
    stringsSplit (sprintfToken marker key) ':' =
      marker :: (splitFrom ':' key.data []).map String.mk := by
  unfold stringsSplit sprintfToken
  have : (marker ++ ":" ++ key).data = marker.data ++ ':' :: key.data := by
    simp [String.data_append]
  rw [this, splitFrom_append_sep _ _ _ _ hm]
  simp

/-- Round trip of the token codec: a token built from a colon-free marker
decodes to its key exactly when the key contains no colon. -/
theorem tokenKey_sprintfToken_iff (marker key : String) (hm : ':' ∉ marker.data) :
    tokenKey marker (sprintfToken marker key) = some key ↔ ':' ∉ key.data := by
  rw [tokenKey_eq_some_iff, stringsSplit_sprintfToken _ _ hm]
  constructor
  · intro h
    have hl := congrArg List.length h
    simp [splitFrom_length] at hl
    exact List.count_eq_zero.mp hl
  · intro h
    rw [splitFrom_of_not_mem _ _ _ h]
    simp

theorem fsTokenMarker_colon_free : ':' ∉ fsTokenMarker.data := by decide

theorem apTokenMarker_colon_free : ':' ∉ apTokenMarker.data := by decide

/-- Round trip for the two markers of the program: the token that
newFileSystem or newAccessPoint builds for a key is decoded by getFileSystems
to that key exactly when the key holds no colon. -/
theorem tokenKey_roundtrip_markers (key : String) :
    (tokenKey fsTokenMarker (sprintfToken fsTokenMarker key) = some key ↔ ':' ∉ key.data) ∧
    (tokenKey apTokenMarker (sprintfToken apTokenMarker key) = some key ↔ ':' ∉ key.data) :=
  ⟨tokenKey_sprintfToken_iff _ _ fsTokenMarker_colon_free,
    tokenKey_sprintfToken_iff _ _ apTokenMarker_colon_free⟩

/-- C1 at the key "a:b": the token that newFileSystem builds for this key is
not recognised by the decoder of getFileSystems, which splits it into three
segments and skips the file system. -/
theorem tokenKey_colon_key_unrecognised :
    stringsSplit (sprintfToken fsTokenMarker "a:b") ':' = [fsTokenMarker, "a", "b"] ∧
    tokenKey fsTokenMarker (sprintfToken fsTokenMarker "a:b") = none ∧
    tokenKey apTokenMarker (sprintfToken apTokenMarker "a:b") = none := by
  decide

/-! ## Discovery -/

theorem getFileSystems_aps_has (l : List AccessPointDescription) (aps : accessPoints)
    (a : String) :
    (getFileSystems_aps l aps).has a = true ↔
      aps.has a = true ∨ ∃ apd ∈ l, tokenKey apTokenMarker apd.ClientToken = some a := by
  induction l generalizing aps with
  | nil => simp [getFileSystems_aps]
  | cons ap rest ih =>
    unfold getFileSystems_aps
    cases h : tokenKey apTokenMarker ap.ClientToken with
    | none => simp [ih, h]
    | some apKey =>
      simp only [ih, GoMap.has_set, List.mem_cons, exists_eq_or_imp, h, Option.some.injEq]
      tauto

section

variable {σ : Type} (B : Backend σ)

theorem getFileSystems_loop_spec :
    ∀ (fslist : List FileSystemDescription) (fsmap : fileSystems) (s : σ),
      (∀ e ∈ (getFileSystems_loop B fslist fsmap s).log, e.failed = false) →
      ∃ g, (getFileSystems_loop B fslist fsmap s).out = .ok g ∧
        (∀ k, g.has k = true ↔
          fsmap.has k = true ∨ ∃ fsd ∈ fslist, tokenKey fsTokenMarker fsd.CreationToken = some k) ∧
        (∀ k fs, g.get? k = some fs → fsmap.get? k = some fs ∨
          ∃ fsd ∈ fslist, ∃ aplist, tokenKey fsTokenMarker fsd.CreationToken = some k ∧
            fs.fileSystemID = fsd.FileSystemId ∧
            fs.lastLifeCycleState = fsd.LifeCycleState ∧
            Event.DescribeAccessPoints fsd.FileSystemId (.ok aplist) ∈
              (getFileSystems_loop B fslist fsmap s).log ∧
            fs.accessPoints = getFileSystems_aps aplist []) := by
  intro fslist
  induction fslist with
  | nil =>
    intro fsmap s _
    exact ⟨fsmap, by simp [getFileSystems_loop], by simp [getFileSystems_loop],
      fun k fs h => Or.inl h⟩
  | cons fsd rest ih =>
    intro fsmap s hnf
    unfold getFileSystems_loop at hnf ⊢
    cases h : tokenKey fsTokenMarker fsd.CreationToken with
    | none =>
      rw [h] at hnf
      obtain ⟨g, hg, hk, hv⟩ := ih fsmap s hnf
      refine ⟨g, hg, ?_, ?_⟩
      · intro k
        rw [hk k]
        simp [h]
      · intro k fs hfs
        rcases hv k fs hfs with h1 | ⟨d, hd, aplist, h1⟩
        · exact Or.inl h1
        · exact Or.inr ⟨d, List.mem_cons_of_mem _ hd, aplist, h1⟩
    | some fsKey =>
      rw [h] at hnf
      simp only [Prog.bind_apply, Prog.call_apply] at hnf ⊢
      rcases hl : (B.DescribeAccessPoints s fsd.FileSystemId).1 with aplist | e
      · rw [hl] at hnf
        simp only at hnf ⊢
        obtain ⟨g, hg, hk, hv⟩ := ih (GoMap.set fsmap fsKey
          { fileSystemID := fsd.FileSystemId, lastLifeCycleState := fsd.LifeCycleState,
            accessPoints := getFileSystems_aps aplist [] })
          (B.DescribeAccessPoints s fsd.FileSystemId).2
          (fun e he => hnf e (List.mem_append_right _ he))
        refine ⟨g, hg, ?_, ?_⟩
        · intro k
          rw [hk k, GoMap.has_set]
          simp only [List.mem_cons, exists_eq_or_imp, h, Option.some.injEq]
          tauto
        · intro k fs hfs
          rcases hv k fs hfs with h1 | ⟨d, hd, al, h1, h2, h3, h4, h5⟩
          · rw [GoMap.get?_set] at h1
            by_cases hkk : fsKey = k
            · simp only [hkk, if_true, Option.some.injEq] at h1
              subst h1
              exact Or.inr ⟨fsd, List.mem_cons_self _ _, aplist, by rw [h, hkk], rfl, rfl,
                by simp, rfl⟩
            · simp only [hkk, if_false] at h1
              exact Or.inl h1
          · exact Or.inr ⟨d, List.mem_cons_of_mem _ hd, al, h1, h2, h3,
              List.mem_cons_of_mem _ h4, h5⟩
      · rw [hl] at hnf
        have := hnf (Event.DescribeAccessPoints fsd.FileSystemId (.err e)) (by simp)
        simp [Event.failed] at this

/-- C7. Discovery keeps exactly the managed resources. A run of
getFileSystems in which no listing call is answered with an error returns a
graph, whatever the tokens are. A key is in the graph exactly when some listed
file system has a creation token that splits on ":" into the file-system
marker and that key. The access-point keys of an entry are exactly the second
segments of the client tokens, among the access points listed for the file
system the entry was built from, that split into the access-point marker and
one more segment. -/
theorem getFileSystems_managed_filter (s : σ)
    (hnofail : ∀ e ∈ (getFileSystems B s).log, e.failed = false) :
    ∃ fslist g, (B.DescribeFileSystems s none).1 = .ok fslist ∧
      (getFileSystems B s).out = .ok g ∧
      (∀ k, g.has k = true ↔
        ∃ fsd ∈ fslist, stringsSplit fsd.CreationToken ':' = [fsTokenMarker, k]) ∧
      (∀ k fs, g.get? k = some fs →
        ∃ fsd ∈ fslist, ∃ aplist,
          stringsSplit fsd.CreationToken ':' = [fsTokenMarker, k] ∧
          fs.fileSystemID = fsd.FileSystemId ∧
          Event.DescribeAccessPoints fsd.FileSystemId (.ok aplist) ∈ (getFileSystems B s).log ∧
          ∀ a, fs.accessPoints.has a = true ↔
            ∃ apd ∈ aplist, stringsSplit apd.ClientToken ':' = [apTokenMarker, a]) := by
  unfold getFileSystems at hnofail ⊢
  simp only [Prog.bind_apply, Prog.call_apply] at hnofail ⊢
  rcases hfs : (B.DescribeFileSystems s none).1 with fslist | e
  · rw [hfs] at hnofail
    simp only at hnofail ⊢
    obtain ⟨g, hg, hk, hv⟩ := getFileSystems_loop_spec B fslist [] (B.DescribeFileSystems s none).2
      (fun e he => hnofail e (List.mem_append_right _ he))
    refine ⟨fslist, g, rfl, hg, ?_, ?_⟩
    · intro k
      rw [hk k]
      simp [GoMap.has, GoMap.get?, tokenKey_eq_some_iff]
    · intro k fs hfs2
      rcases hv k fs hfs2 with h1 | ⟨d, hd, al, h1, h2, _, h4, h5⟩
      · simp [GoMap.get?] at h1
      · refine ⟨d, hd, al, (tokenKey_eq_some_iff _ _ _).mp h1, h2, List.mem_append_right _ h4, ?_⟩
        intro a
        rw [h5, getFileSystems_aps_has]
        simp [GoMap.has, GoMap.get?, tokenKey_eq_some_iff]
  · rw [hfs] at hnofail
    have := hnofail (Event.DescribeFileSystems none (.err e)) (by simp)
    simp [Event.failed] at this

end

/-- A listing with one managed file system and four that are not managed (no
marker, the access-point marker, three segments, one segment), the managed
one having one managed access point and two that are not. -/
theorem getFileSystems_managed_filter_witness :
    ∃ g, (getFileSystems (staticBackend
        [⟨"2uasimojo/aws-efs-manage-fs:fsA", "fs-1", "available"⟩,
         ⟨"someone-else:fsB", "fs-2", "available"⟩,
         ⟨"2uasimojo/aws-efs-manage-ap:fsC", "fs-3", "available"⟩,
         ⟨"2uasimojo/aws-efs-manage-fs:a:b", "fs-4", "available"⟩,
         ⟨"2uasimojo/aws-efs-manage-fs", "fs-5", "available"⟩]
        (fun _ => [⟨"2uasimojo/aws-efs-manage-ap:ap1", "fsap-1", "available"⟩,
                   ⟨"2uasimojo/aws-efs-manage-fs:ap2", "fsap-2", "available"⟩,
                   ⟨"ap3", "fsap-3", "available"⟩])
        (fun _ => [])) ()).out = .ok g ∧
      g = [("fsA", ⟨"fs-1", "available", [("ap1", "fsap-1")]⟩)] := by
  obtain ⟨_, g, _, hg, -, -⟩ := getFileSystems_managed_filter (staticBackend
        [⟨"2uasimojo/aws-efs-manage-fs:fsA", "fs-1", "available"⟩,
         ⟨"someone-else:fsB", "fs-2", "available"⟩,
         ⟨"2uasimojo/aws-efs-manage-ap:fsC", "fs-3", "available"⟩,
         ⟨"2uasimojo/aws-efs-manage-fs:a:b", "fs-4", "available"⟩,
         ⟨"2uasimojo/aws-efs-manage-fs", "fs-5", "available"⟩]
        (fun _ => [⟨"2uasimojo/aws-efs-manage-ap:ap1", "fsap-1", "available"⟩,
                   ⟨"2uasimojo/aws-efs-manage-fs:ap2", "fsap-2", "available"⟩,
                   ⟨"ap3", "fsap-3", "available"⟩])
        (fun _ => [])) () (by decide)
  refine ⟨g, hg, ?_⟩
  have h2 : Outcome.ok g = Outcome.ok [("fsA", ⟨"fs-1", "available", [("ap1", "fsap-1")]⟩)] := by
    rw [← hg]
    decide
  exact Outcome.ok.inj h2

/-! ## Teardown -/

section

variable {σ : Type} (B : Backend σ)

theorem deleteMountTargets_requests_ok (fsid : String) :
    ∀ (mts : List MountTargetDescription) (s : σ),
      (deleteMountTargets_requests B fsid mts s).out = .ok () →
      ∃ replies : List (Reply Unit), replies.length = mts.length ∧
        (∀ r ∈ replies, r = .ok () ∨ r = .err .MountTargetNotFound) ∧
        (deleteMountTargets_requests B fsid mts s).log =
          List.zipWith (fun mt r => Event.DeleteMountTarget fsid mt.MountTargetId r) mts replies := by
  intro mts
  induction mts with
  | nil =>
    intro s _
    exact ⟨[], rfl, by simp, by simp [deleteMountTargets_requests]⟩
  | cons mt rest ih =>
    intro s h
    unfold deleteMountTargets_requests at h ⊢
    simp only [Prog.bind_apply, Prog.call_apply] at h ⊢
    rcases hr : (B.DeleteMountTarget s mt.MountTargetId).1 with u | e
    · rw [hr] at h
      simp only at h ⊢
      obtain ⟨replies, hlen, hall, hlog⟩ := ih _ h
      refine ⟨.ok u :: replies, by simp [hlen], ?_, by simp [hlog]⟩
      intro r hr2
      rcases List.mem_cons.mp hr2 with h1 | h1
      · exact Or.inl h1
      · exact hall r h1
    · rw [hr] at h
      cases e
      case MountTargetNotFound =>
        simp only at h ⊢
        obtain ⟨replies, hlen, hall, hlog⟩ := ih _ h
        refine ⟨.err .MountTargetNotFound :: replies, by simp [hlen], ?_, by simp [hlog]⟩
        intro r hr2
        rcases List.mem_cons.mp hr2 with h1 | h1
        · exact Or.inr h1
        · exact hall r h1
      all_goals simp at h

theorem deleteMountTargets_poll_ok (fsid : String) :
    ∀ (fuel : Nat) (s : σ), (deleteMountTargets_poll B fsid fuel s).out = .ok () →
      ∃ polls : List (List MountTargetDescription), polls.length < fuel ∧
        (∀ p ∈ polls, p ≠ []) ∧
        (deleteMountTargets_poll B fsid fuel s).log =
          polls.map (fun p => Event.DescribeMountTargets fsid (.ok p)) ++
            [Event.DescribeMountTargets fsid (.ok [])] := by
  intro fuel
  induction fuel with
  | zero =>
    intro s h
    simp [deleteMountTargets_poll] at h
  | succ n ih =>
    intro s h
    unfold deleteMountTargets_poll at h ⊢
    simp only [Prog.bind_apply, Prog.call_apply] at h ⊢
    rcases hr : (B.DescribeMountTargets s fsid).1 with mts | e
    · rw [hr] at h
      simp only at h ⊢
      by_cases hl : mts.length = 0
      · have hnil : mts = [] := List.length_eq_zero.mp hl
        exact ⟨[], by simp, by simp, by simp [hl, hnil]⟩
      · simp only [hl, if_false] at h ⊢
        obtain ⟨polls, hlen, hne, hlog⟩ := ih _ h
        refine ⟨mts :: polls, by simp; omega, ?_, by simp [hlog]⟩
        intro p hp
        rcases List.mem_cons.mp hp with h1 | h1
        · subst h1
          intro h2
          exact hl (by simp [h2])
        · exact hne p h1
    · rw [hr] at h
      simp at h

/-- C10. Teardown ordering: the SDK calls of a deleteFileSystem(fsid) that
returns are either the mount-target listing answered empty followed directly
by the file-system delete, or the first listing, one delete for each mount
target of that listing (each answered with success or "not found"), further
listings answered non-empty, a listing answered empty, and then the
file-system delete; so the file-system delete is issued once, last, right
after a listing for fsid that came back empty. -/
theorem deleteFileSystem_teardown_order (fuel : Nat) (fsid : String) (s : σ)
    (h : (deleteFileSystem B fuel fsid s).out = .ok ()) :
    (deleteFileSystem B fuel fsid s).log =
        [Event.DescribeMountTargets fsid (.ok []), Event.DeleteFileSystem fsid (.ok ())] ∨
    ∃ (first : List MountTargetDescription) (replies : List (Reply Unit))
      (polls : List (List MountTargetDescription)),
      first ≠ [] ∧ replies.length = first.length ∧
      (∀ r ∈ replies, r = .ok () ∨ r = .err .MountTargetNotFound) ∧
      (∀ p ∈ polls, p ≠ []) ∧ polls.length < fuel ∧
      (deleteFileSystem B fuel fsid s).log =
        Event.DescribeMountTargets fsid (.ok first) ::
          (List.zipWith (fun mt r => Event.DeleteMountTarget fsid mt.MountTargetId r) first replies ++
           polls.map (fun p => Event.DescribeMountTargets fsid (.ok p)) ++
           [Event.DescribeMountTargets fsid (.ok []), Event.DeleteFileSystem fsid (.ok ())]) := by
  unfold deleteFileSystem at h ⊢
  simp only [Prog.bind_apply, Prog.call_apply] at h ⊢
  cases hmt : (deleteMountTargets B fuel fsid s).out with
  | panic msg => rw [hmt] at h; simp at h
  | timeout => rw [hmt] at h; simp at h
  | ok u =>
  rw [hmt] at h
  simp only at h ⊢
  rcases hr : (B.DeleteFileSystem (deleteMountTargets B fuel fsid s).st fsid).1 with u2 | e
  swap
  · rw [hr] at h
    simp at h
  simp only [Prog.pure_apply, List.append_nil]
  clear h
  unfold deleteMountTargets at hmt ⊢
  simp only [Prog.bind_apply, Prog.call_apply] at hmt ⊢
  rcases hd : (B.DescribeMountTargets s fsid).1 with mts | e
  · rw [hd] at hmt
    simp only at hmt ⊢
    by_cases hl : mts.length = 0
    · have hnil : mts = [] := List.length_eq_zero.mp hl
      left
      simp [hl, hnil]
    · right
      simp only [hl, if_false] at hmt ⊢
      obtain ⟨u3, hq, hpoll, hlog5, -⟩ := Prog.bind_ok_inv hmt
      obtain ⟨replies, hlen, hall, hlog3⟩ := deleteMountTargets_requests_ok B fsid mts _ hq
      obtain ⟨polls, hplen, hpne, hlog4⟩ := deleteMountTargets_poll_ok B fsid fuel _ hpoll
      refine ⟨mts, replies, polls, ?_, hlen, hall, hpne, hplen, ?_⟩
      · intro h2
        exact hl (by simp [h2])
      · rw [hlog5, hlog3, hlog4]
        simp
  · rw [hd] at hmt
    simp at hmt

end

/-- Teardown of `fsC` in `refExample`: two mount targets are listed and
deleted, the next listing is empty, and the file system is deleted. -/
theorem deleteFileSystem_teardown_order_witness :
    (deleteFileSystem (refBackend false) 1 "fs-1" refExample).out = .ok () ∧
    (deleteFileSystem (refBackend false) 1 "fs-1" refExample).log =
      [Event.DescribeMountTargets "fs-1"
          (.ok [⟨"fsmt-4", "s1", "available"⟩, ⟨"fsmt-5", "s2", "available"⟩]),
        Event.DeleteMountTarget "fs-1" "fsmt-4" (.ok ()),
        Event.DeleteMountTarget "fs-1" "fsmt-5" (.ok ()),
        Event.DescribeMountTargets "fs-1" (.ok []),
        Event.DeleteFileSystem "fs-1" (.ok ())] ∧
    ((deleteFileSystem (refBackend false) 1 "fs-1" refExample).log =
        [Event.DescribeMountTargets "fs-1" (.ok []), Event.DeleteFileSystem "fs-1" (.ok ())] ∨
      ∃ (first : List MountTargetDescription) (replies : List (Reply Unit))
        (polls : List (List MountTargetDescription)),
        first ≠ [] ∧ replies.length = first.length ∧
        (∀ r ∈ replies, r = .ok () ∨ r = .err .MountTargetNotFound) ∧
        (∀ p ∈ polls, p ≠ []) ∧ polls.length < 1 ∧
        (deleteFileSystem (refBackend false) 1 "fs-1" refExample).log =
          Event.DescribeMountTargets "fs-1" (.ok first) ::
            (List.zipWith (fun mt r => Event.DeleteMountTarget "fs-1" mt.MountTargetId r)
              first replies ++
             polls.map (fun p => Event.DescribeMountTargets "fs-1" (.ok p)) ++
             [Event.DescribeMountTargets "fs-1" (.ok []),
              Event.DeleteFileSystem "fs-1" (.ok ())])) :=
  ⟨by decide, by decide,
    deleteFileSystem_teardown_order (refBackend false) 1 "fs-1" refExample (by decide)⟩

section

variable {σ : Type} (B : Backend σ)

theorem mountTargetCreates_append (l1 l2 : List Event) :
    mountTargetCreates (l1 ++ l2) = mountTargetCreates l1 ++ mountTargetCreates l2 := by
  simp [mountTargetCreates, List.filterMap_append]

theorem mountTargetCreates_of_isRead {l : List Event} (h : ∀ e ∈ l, e.isRead = true) :
    mountTargetCreates l = [] := by
  unfold mountTargetCreates
  rw [List.filterMap_eq_nil_iff]
  intro e he
  have := h e he
  cases e <;> simp_all [Event.isRead]

theorem ensureMountTarget_log (fsid subnetID sgid : String) (s : σ) :
    (ensureMountTarget B fsid subnetID sgid s).log =
      [Event.CreateMountTarget fsid subnetID sgid (B.CreateMountTarget s fsid subnetID sgid).1] := by
  unfold ensureMountTarget
  simp only [Prog.bind_apply, Prog.call_apply]
  rcases (B.CreateMountTarget s fsid subnetID sgid).1 with d | e
  · simp
  · cases e <;> simp

theorem ensureMountTarget_out (fsid subnetID sgid : String) (s : σ) :
    (ensureMountTarget B fsid subnetID sgid s).out = .ok () ∨
      (ensureMountTarget B fsid subnetID sgid s).out = .panic "CreateMountTarget" := by
  unfold ensureMountTarget
  simp only [Prog.bind_apply, Prog.call_apply]
  rcases (B.CreateMountTarget s fsid subnetID sgid).1 with d | e
  · simp
  · cases e <;> simp

theorem ensureMountTargets_poll_isRead (fsid : String) :
    ∀ (fuel : Nat) (s : σ), ∀ e ∈ (ensureMountTargets_poll B fsid fuel s).log, e.isRead = true := by
  intro fuel
  induction fuel with
  | zero => intro s; simp [ensureMountTargets_poll]
  | succ n ih =>
    intro s
    unfold ensureMountTargets_poll
    apply Prog.forall_log_bind
    · simp [Event.isRead]
    · intro r s1
      rcases r with mts | e
      · simp only
        split
        · simp
        · exact ih s1
      · simp

theorem ensureMountTargets_spawn_creates (fsid sgid : String) :
    ∀ (subnetIDs seen : List String) (s : σ),
      (∀ msg, (ensureMountTargets_spawn B fsid sgid subnetIDs seen s).out ≠ .panic msg) →
      (ensureMountTargets_spawn B fsid sgid subnetIDs seen s).out = .ok () ∧
      (∀ p ∈ mountTargetCreates (ensureMountTargets_spawn B fsid sgid subnetIDs seen s).log,
        p.1 = fsid) ∧
      ((mountTargetCreates (ensureMountTargets_spawn B fsid sgid subnetIDs seen s).log).map
        Prod.snd).Nodup ∧
      (∀ x, x ∈ (mountTargetCreates (ensureMountTargets_spawn B fsid sgid subnetIDs seen s).log).map
        Prod.snd ↔ x ∈ subnetIDs ∧ x ∉ seen) := by
  intro subnetIDs
  induction subnetIDs with
  | nil =>
    intro seen s _
    simp [ensureMountTargets_spawn, mountTargetCreates]
  | cons sub rest ih =>
    intro seen s h
    unfold ensureMountTargets_spawn at h ⊢
    by_cases hs : sub ∈ seen
    · simp only [hs, if_true] at h ⊢
      obtain ⟨h1, h2, h3, h4⟩ := ih seen s h
      refine ⟨h1, h2, h3, ?_⟩
      intro x
      rw [h4 x]
      constructor
      · rintro ⟨ha, hb⟩
        exact ⟨List.mem_cons_of_mem _ ha, hb⟩
      · rintro ⟨ha, hb⟩
        rcases List.mem_cons.mp ha with h5 | h5
        · subst h5
          exact absurd hs hb
        · exact ⟨h5, hb⟩
    · simp only [hs, if_false] at h ⊢
      rcases ensureMountTarget_out B fsid sub sgid s with ho | ho
      · rw [Prog.bind_of_ok ho] at h ⊢
        simp only at h ⊢
        obtain ⟨h1, h2, h3, h4⟩ := ih (sub :: seen) _ h
        have hsub : sub ∉ (mountTargetCreates (ensureMountTargets_spawn B fsid sgid rest
            (sub :: seen) (ensureMountTarget B fsid sub sgid s).st).log).map Prod.snd := by
          intro hc
          have := ((h4 sub).mp hc).2
          simp at this
        rw [ensureMountTarget_log]
        refine ⟨h1, ?_, ?_, ?_⟩
        · intro p hp
          simp only [List.singleton_append, mountTargetCreates, List.filterMap_cons,
            List.mem_cons] at hp
          rcases hp with hp | hp
          · rw [hp]
          · exact h2 p hp
        · simp only [List.singleton_append, mountTargetCreates, List.filterMap_cons,
            List.map_cons, List.nodup_cons]
          exact ⟨hsub, h3⟩
        · intro x
          simp only [List.singleton_append, mountTargetCreates, List.filterMap_cons,
            List.map_cons, List.mem_cons]
          have h4x := h4 x
          simp only [mountTargetCreates, List.mem_cons, not_or] at h4x
          rw [h4x]
          constructor
          · rintro (hx | ⟨hx1, hx2, hx3⟩)
            · subst hx
              exact ⟨Or.inl rfl, hs⟩
            · exact ⟨Or.inr hx1, hx3⟩
          · rintro ⟨hx1 | hx1, hx2⟩
            · exact Or.inl hx1
            · by_cases hx : x = sub
              · exact Or.inl hx
              · exact Or.inr ⟨hx1, hx, hx2⟩
      · rw [Prog.bind_of_panic ho] at h
        exact absurd rfl (h _)

/-- C6. Endpoint de-duplication: unless it panics, ensureMountTargets issues
its CreateMountTarget requests for the given file system only, no two of them
for the same subnet, and for exactly the subnet ids that occur in the list; so
their number is the number of distinct subnet ids. -/
theorem ensureMountTargets_one_per_subnet (fuel : Nat) (fsid : String) (subnetIDs : List String)
    (sgid : String) (s : σ)
    (h : ∀ msg, (ensureMountTargets B fuel fsid subnetIDs sgid s).out ≠ .panic msg) :
    (∀ p ∈ mountTargetCreates (ensureMountTargets B fuel fsid subnetIDs sgid s).log, p.1 = fsid) ∧
    ((mountTargetCreates (ensureMountTargets B fuel fsid subnetIDs sgid s).log).map
      Prod.snd).Nodup ∧
    (∀ x, x ∈ (mountTargetCreates (ensureMountTargets B fuel fsid subnetIDs sgid s).log).map
      Prod.snd ↔ x ∈ subnetIDs) ∧
    (mountTargetCreates (ensureMountTargets B fuel fsid subnetIDs sgid s).log).length =
      subnetIDs.dedup.length := by
  have hsp : ∀ msg, (ensureMountTargets_spawn B fsid sgid subnetIDs [] s).out ≠ .panic msg := by
    intro msg hc
    apply h msg
    unfold ensureMountTargets
    rw [Prog.bind_of_panic hc]
  obtain ⟨h1, h2, h3, h4⟩ := ensureMountTargets_spawn_creates B fsid sgid subnetIDs [] s hsp
  have hlog : mountTargetCreates (ensureMountTargets B fuel fsid subnetIDs sgid s).log =
      mountTargetCreates (ensureMountTargets_spawn B fsid sgid subnetIDs [] s).log := by
    unfold ensureMountTargets
    rw [Prog.bind_of_ok h1]
    simp only [mountTargetCreates_append]
    rw [mountTargetCreates_of_isRead (ensureMountTargets_poll_isRead B fsid fuel _)]
    simp
  rw [hlog]
  have h4b : ∀ x, x ∈ (mountTargetCreates (ensureMountTargets_spawn B fsid sgid subnetIDs []
      s).log).map Prod.snd ↔ x ∈ subnetIDs := by
    intro x
    rw [h4 x]
    simp
  refine ⟨h2, h3, h4b, ?_⟩
  have hperm : ((mountTargetCreates (ensureMountTargets_spawn B fsid sgid subnetIDs []
      s).log).map Prod.snd).Perm subnetIDs.dedup := by
    rw [List.perm_ext_iff_of_nodup h3 (List.nodup_dedup _)]
    intro x
    rw [h4b x, List.mem_dedup]
  have := hperm.length_eq
  simpa using this

end

/-! ## Which calls each function can issue -/

section

variable {σ : Type} (B : Backend σ)

theorem deleteAccessPoint_log (fsid apid : String) (s : σ) :
    (deleteAccessPoint B fsid apid s).log =
      [Event.DeleteAccessPoint fsid apid (B.DeleteAccessPoint s apid).1] := by
  unfold deleteAccessPoint
  simp only [Prog.bind_apply, Prog.call_apply]
  rcases (B.DeleteAccessPoint s apid).1 with d | e <;> simp

theorem newAccessPoint_log (fsid key : String) (s : σ) :
    (newAccessPoint B fsid key s).log =
      [Event.CreateAccessPoint (sprintfToken apTokenMarker key) fsid ("/" ++ key)
        (B.CreateAccessPoint s (sprintfToken apTokenMarker key) fsid ("/" ++ key)).1] := by
  unfold newAccessPoint
  simp only [Prog.bind_apply, Prog.call_apply]
  rcases (B.CreateAccessPoint s (sprintfToken apTokenMarker key) fsid ("/" ++ key)).1
    with d | e <;> simp

theorem newFileSystem_log (subnetIDs : List String) (sgid : String) (tag : Tag) (key : String)
    (s : σ) :
    (newFileSystem B subnetIDs sgid tag key s).log =
      [Event.CreateFileSystem (sprintfToken fsTokenMarker key) [tag]
        (B.CreateFileSystem s (sprintfToken fsTokenMarker key) [tag]).1] := by
  unfold newFileSystem
  simp only [Prog.bind_apply, Prog.call_apply]
  rcases (B.CreateFileSystem s (sprintfToken fsTokenMarker key) [tag]).1 with d | e <;> simp

theorem newFileSystem_ok {subnetIDs : List String} {sgid : String} {tag : Tag} {key : String}
    {s : σ} {fsid : String} (h : (newFileSystem B subnetIDs sgid tag key s).out = .ok fsid) :
    ∃ d, (B.CreateFileSystem s (sprintfToken fsTokenMarker key) [tag]).1 = .ok d ∧
      d.FileSystemId = fsid := by
  unfold newFileSystem at h
  simp only [Prog.bind_apply, Prog.call_apply] at h
  rcases hr : (B.CreateFileSystem s (sprintfToken fsTokenMarker key) [tag]).1 with d | e
  · rw [hr] at h
    simp at h
    exact ⟨d, rfl, h⟩
  · rw [hr] at h
    simp at h

theorem waitForFSAvailable_isRead :
    ∀ (fuel : Nat) (fs : fileSystem) (s : σ),
      ∀ e ∈ (waitForFSAvailable B fuel fs s).log, e.isRead = true := by
  intro fuel
  induction fuel with
  | zero =>
    intro fs s
    unfold waitForFSAvailable
    split <;> simp
  | succ n ih =>
    intro fs s
    unfold waitForFSAvailable
    split
    · simp
    · apply Prog.forall_log_bind
      · simp [Event.isRead]
      · intro r s1
        split
        · simp
        · exact ih _ s1
        · simp

theorem waitForAccessPointsAvailable_isRead (fsid : String) :
    ∀ (fuel : Nat) (s : σ),
      ∀ e ∈ (waitForAccessPointsAvailable B fsid fuel s).log, e.isRead = true := by
  intro fuel
  induction fuel with
  | zero => intro s; simp [waitForAccessPointsAvailable]
  | succ n ih =>
    intro s
    unfold waitForAccessPointsAvailable
    apply Prog.forall_log_bind
    · simp [Event.isRead]
    · intro r s1
      rcases r with aps | e
      · simp only
        split
        · simp
        · exact ih s1
      · simp

theorem deleteMountTargets_poll_isRead (fsid : String) :
    ∀ (fuel : Nat) (s : σ), ∀ e ∈ (deleteMountTargets_poll B fsid fuel s).log, e.isRead = true := by
  intro fuel
  induction fuel with
  | zero => intro s; simp [deleteMountTargets_poll]
  | succ n ih =>
    intro s
    unfold deleteMountTargets_poll
    apply Prog.forall_log_bind
    · simp [Event.isRead]
    · intro r s1
      rcases r with mts | e
      · simp only
        split
        · simp
        · exact ih s1
      · simp

theorem deleteMountTargets_requests_forall {P : Event → Prop} (fsid : String)
    (hmt : ∀ m r, P (Event.DeleteMountTarget fsid m r)) :
    ∀ (mts : List MountTargetDescription) (s : σ),
      ∀ e ∈ (deleteMountTargets_requests B fsid mts s).log, P e := by
  intro mts
  induction mts with
  | nil => intro s; simp [deleteMountTargets_requests]
  | cons mt rest ih =>
    intro s
    unfold deleteMountTargets_requests
    apply Prog.forall_log_bind
    · simp [hmt]
    · intro r s1
      rcases r with u | e
      · exact ih s1
      · cases e <;> first | exact ih s1 | simp

/-- Every call of deleteFileSystem(fsid) is a listing, a DeleteMountTarget
issued for fsid, or the DeleteFileSystem of fsid. -/
theorem deleteFileSystem_forall {P : Event → Prop} (fuel : Nat) (fsid : String) (s : σ)
    (hread : ∀ e, e.isRead = true → P e)
    (hmt : ∀ m r, P (Event.DeleteMountTarget fsid m r))
    (hfs : ∀ r, P (Event.DeleteFileSystem fsid r)) :
    ∀ e ∈ (deleteFileSystem B fuel fsid s).log, P e := by
  unfold deleteFileSystem
  apply Prog.forall_log_bind
  · unfold deleteMountTargets
    apply Prog.forall_log_bind
    · simp only [Prog.call_apply, List.mem_singleton, forall_eq]
      exact hread _ rfl
    · intro r s1
      rcases r with mts | e
      · simp only
        split
        · simp
        · apply Prog.forall_log_bind
          · exact deleteMountTargets_requests_forall B fsid hmt mts s1
          · intro _ s2 e he
            exact hread e (deleteMountTargets_poll_isRead B fsid fuel s2 e he)
      · simp
  · intro _ s1
    apply Prog.forall_log_bind
    · simp [hfs]
    · intro r s2
      rcases r with u | e <;> simp

theorem removeAps_forall {P : Event → Prop} (fsid : String) (desiredAps : accessPoints)
    (hap : ∀ apid r, P (Event.DeleteAccessPoint fsid apid r)) :
    ∀ (l : List (String × String)) (s : σ),
      ∀ e ∈ (ensureFileSystemState_removeAps B fsid desiredAps l s).log, P e := by
  intro l
  induction l with
  | nil => intro s; simp [ensureFileSystemState_removeAps]
  | cons a rest ih =>
    intro s
    obtain ⟨apkey, currentap⟩ := a
    unfold ensureFileSystemState_removeAps
    split
    · exact ih s
    · apply Prog.forall_log_bind
      · rw [deleteAccessPoint_log]
        simp [hap]
      · intro _ s1
        exact ih s1

theorem addAps_forall {P : Event → Prop} (fsid : String)
    (hap : ∀ token path r, P (Event.CreateAccessPoint token fsid path r)) :
    ∀ (l : List (String × String)) (aps : accessPoints) (s : σ),
      ∀ e ∈ (ensureFileSystemState_addAps B fsid l aps s).log, P e := by
  intro l
  induction l with
  | nil => intro aps s; simp [ensureFileSystemState_addAps]
  | cons a rest ih =>
    intro aps s
    obtain ⟨apkey, v⟩ := a
    unfold ensureFileSystemState_addAps
    split
    · exact ih aps s
    · apply Prog.forall_log_bind
      · rw [newAccessPoint_log]
        simp [hap]
      · intro apid s1
        exact ih _ s1

theorem unitAps_forall {P : Event → Prop} (fsid : String) (currentAps : accessPoints)
    (hap : ∀ token path r, P (Event.CreateAccessPoint token fsid path r)) :
    ∀ (l : List (String × String)) (s : σ),
      ∀ e ∈ (ensureFileSystemState_unitAps B fsid currentAps l s).log, P e := by
  intro l
  induction l with
  | nil => intro s; simp [ensureFileSystemState_unitAps]
  | cons a rest ih =>
    intro s
    obtain ⟨apkey, v⟩ := a
    unfold ensureFileSystemState_unitAps
    split
    · exact ih s
    · apply Prog.forall_log_bind
      · rw [newAccessPoint_log]
        simp [hap]
      · intro apid s1
        exact ih s1

theorem ensureMountTargets_forall {P : Event → Prop} (fuel : Nat) (fsid : String)
    (subnetIDs : List String) (sgid : String) (s : σ)
    (hread : ∀ e, e.isRead = true → P e)
    (hmt : ∀ sub r, P (Event.CreateMountTarget fsid sub sgid r)) :
    ∀ e ∈ (ensureMountTargets B fuel fsid subnetIDs sgid s).log, P e := by
  unfold ensureMountTargets
  apply Prog.forall_log_bind
  · generalize ([] : List String) = seen
    induction subnetIDs generalizing seen s with
    | nil => simp [ensureMountTargets_spawn]
    | cons sub rest ih =>
      unfold ensureMountTargets_spawn
      split
      · exact ih s seen
      · apply Prog.forall_log_bind
        · rw [ensureMountTarget_log]
          simp [hmt]
        · intro _ s1
          exact ih s1 _
  · intro _ s1 e he
    exact hread e (ensureMountTargets_poll_isRead B fsid fuel s1 e he)

/-- The sequential pass issues listings, access-point creates and deletes on
retained file systems, and teardown calls for the file systems it visits that
are not desired. -/
theorem prune_forall {P : Event → Prop} (o : RangeOrder) (fuel : Nat) (desired : fileSystems)
    (hread : ∀ e, e.isRead = true → P e)
    (hcap : ∀ token fsid path r, P (Event.CreateAccessPoint token fsid path r))
    (hdap : ∀ fsid apid r, P (Event.DeleteAccessPoint fsid apid r)) :
    ∀ (l : List (String × fileSystem)) (cur : fileSystems) (s : σ),
      (∀ x ∈ l, desired.has x.1 = false →
        (∀ m r, P (Event.DeleteMountTarget x.2.fileSystemID m r)) ∧
        (∀ r, P (Event.DeleteFileSystem x.2.fileSystemID r))) →
      ∀ e ∈ (ensureFileSystemState_prune B o fuel desired l cur s).log, P e := by
  intro l
  induction l with
  | nil => intro cur s _; simp [ensureFileSystemState_prune]
  | cons a rest ih =>
    intro cur s hl
    obtain ⟨fskey, currentfs⟩ := a
    have hrest : ∀ x ∈ rest, desired.has x.1 = false →
        (∀ m r, P (Event.DeleteMountTarget x.2.fileSystemID m r)) ∧
        (∀ r, P (Event.DeleteFileSystem x.2.fileSystemID r)) :=
      fun x hx => hl x (List.mem_cons_of_mem _ hx)
    unfold ensureFileSystemState_prune
    cases hd : GoMap.get? desired fskey with
    | some desiredfs =>
      simp only
      apply Prog.forall_log_bind
      · exact removeAps_forall B _ _ (hdap _) _ s
      · intro _ s1
        apply Prog.forall_log_bind
        · exact addAps_forall B _ (hcap · _) _ _ s1
        · intro aps s2
          exact ih _ s2 hrest
    | none =>
      simp only
      have hx := hl (fskey, currentfs) (List.mem_cons_self _ _)
        ((GoMap.has_eq_false_iff _ _).mpr hd)
      apply Prog.forall_log_bind
      · exact deleteFileSystem_forall B fuel _ s hread hx.1 hx.2
      · intro _ s1
        exact ih _ s1 hrest

/-- The concurrent pass issues listings and create requests only. -/
theorem provision_forall {P : Event → Prop} (o : RangeOrder) (fuel : Nat)
    (subnetIDs : List String) (sgid : String) (efsTag : Tag) (cur : fileSystems)
    (hread : ∀ e, e.isRead = true → P e)
    (hcreate : ∀ e, e.isCreate = true → P e) :
    ∀ (l : List (String × fileSystem)) (s : σ),
      ∀ e ∈ (ensureFileSystemState_provision B o fuel subnetIDs sgid efsTag cur l s).log, P e := by
  intro l
  induction l with
  | nil => intro s; simp [ensureFileSystemState_provision]
  | cons a rest ih =>
    intro s
    obtain ⟨fskey, desiredfs⟩ := a
    unfold ensureFileSystemState_provision
    apply Prog.forall_log_bind
    · unfold ensureFileSystemState_unit
      apply Prog.forall_log_bind
      · cases GoMap.get? cur fskey with
        | some fs => simp
        | none =>
          simp only
          apply Prog.forall_log_bind
          · rw [newFileSystem_log]
            simp only [List.mem_singleton, forall_eq]
            exact hcreate _ rfl
          · simp
      · intro currentfs s1
        apply Prog.forall_log_bind
        · intro e he
          exact hread e (waitForFSAvailable_isRead B fuel currentfs s1 e he)
        · intro _ s2
          apply Prog.forall_log_bind
          · exact ensureMountTargets_forall B fuel _ subnetIDs sgid s2 hread
              (fun _ _ => hcreate _ rfl)
          · intro _ s3
            apply Prog.forall_log_bind
            · exact unitAps_forall B _ _ (fun _ _ _ => hcreate _ rfl) _ s3
            · intro _ s4 e he
              exact hread e (waitForAccessPointsAvailable_isRead B _ fuel s4 e he)
    · intro _ s1
      exact ih s1

theorem getFileSystems_isRead (s : σ) : ∀ e ∈ (getFileSystems B s).log, e.isRead = true := by
  unfold getFileSystems
  apply Prog.forall_log_bind
  · simp [Event.isRead]
  · intro r s1
    rcases r with fslist | e
    · simp only
      generalize ([] : fileSystems) = fsmap
      induction fslist generalizing fsmap s1 with
      | nil => simp [getFileSystems_loop]
      | cons fsd rest ih =>
        unfold getFileSystems_loop
        cases tokenKey fsTokenMarker fsd.CreationToken with
        | none => exact ih s1 fsmap
        | some fsKey =>
          simp only
          apply Prog.forall_log_bind
          · simp [Event.isRead]
          · intro r2 s2
            rcases r2 with aplist | e
            · exact ih s2 _
            · simp
    · simp

end

/-! ## Projections of the log -/

theorem fileSystemCreates_append (l1 l2 : List Event) :
    fileSystemCreates (l1 ++ l2) = fileSystemCreates l1 ++ fileSystemCreates l2 := by
  simp [fileSystemCreates, List.filterMap_append]

theorem accessPointCreates_append (l1 l2 : List Event) :
    accessPointCreates (l1 ++ l2) = accessPointCreates l1 ++ accessPointCreates l2 := by
  simp [accessPointCreates, List.filterMap_append]

theorem fileSystemDeletes_append (l1 l2 : List Event) :
    fileSystemDeletes (l1 ++ l2) = fileSystemDeletes l1 ++ fileSystemDeletes l2 := by
  simp [fileSystemDeletes, List.filterMap_append]

theorem accessPointDeletes_append (l1 l2 : List Event) :
    accessPointDeletes (l1 ++ l2) = accessPointDeletes l1 ++ accessPointDeletes l2 := by
  simp [accessPointDeletes, List.filterMap_append]

theorem fileSystemDeletes_eq_nil {l : List Event} (h : ∀ e ∈ l, fileSystemDeletes [e] = []) :
    fileSystemDeletes l = [] := by
  unfold fileSystemDeletes at h ⊢
  rw [List.filterMap_eq_nil_iff]
  intro e he
  have := h e he
  rw [List.filterMap_eq_nil_iff] at this
  exact this e (List.mem_singleton_self e)

theorem accessPointDeletes_eq_nil {l : List Event} (h : ∀ e ∈ l, accessPointDeletes [e] = []) :
    accessPointDeletes l = [] := by
  unfold accessPointDeletes at h ⊢
  rw [List.filterMap_eq_nil_iff]
  intro e he
  have := h e he
  rw [List.filterMap_eq_nil_iff] at this
  exact this e (List.mem_singleton_self e)

theorem accessPointCreates_eq_nil {l : List Event} (h : ∀ e ∈ l, accessPointCreates [e] = []) :
    accessPointCreates l = [] := by
  unfold accessPointCreates at h ⊢
  rw [List.filterMap_eq_nil_iff]
  intro e he
  have := h e he
  rw [List.filterMap_eq_nil_iff] at this
  exact this e (List.mem_singleton_self e)

theorem fileSystemCreates_eq_nil {l : List Event} (h : ∀ e ∈ l, fileSystemCreates [e] = []) :
    fileSystemCreates l = [] := by
  unfold fileSystemCreates at h ⊢
  rw [List.filterMap_eq_nil_iff]
  intro e he
  have := h e he
  rw [List.filterMap_eq_nil_iff] at this
  exact this e (List.mem_singleton_self e)

theorem accessPointDeletes_of_not_isDelete (e : Event) (h : e.isDelete = false) :
    accessPointDeletes [e] = [] := by
  cases e <;> simp_all [Event.isDelete, accessPointDeletes]

theorem fileSystemDeletes_of_not_isDelete (e : Event) (h : e.isDelete = false) :
    fileSystemDeletes [e] = [] := by
  cases e <;> simp_all [Event.isDelete, fileSystemDeletes]

theorem fileSystemDeletes_read (e : Event) (h : e.isRead = true) :
    fileSystemDeletes [e] = [] := by
  cases e <;> simp_all [Event.isRead, fileSystemDeletes]

theorem mem_mountTargetDeletes {l : List Event} {p : String × String}
    (h : p ∈ mountTargetDeletes l) : ∃ r, Event.DeleteMountTarget p.1 p.2 r ∈ l := by
  unfold mountTargetDeletes at h
  rw [List.mem_filterMap] at h
  obtain ⟨e, he, hp⟩ := h
  cases e <;> simp at hp
  case DeleteMountTarget fsid mtid r =>
    subst hp
    exact ⟨r, he⟩

section

variable {σ : Type} (B : Backend σ)

/-! ## Order of teardown and provisioning -/

theorem Prog.split_bind {α β : Type} {P Q : Event → Prop} (m : Prog σ α) (f : α → Prog σ β)
    (s : σ) (hm : ∀ e ∈ (m s).log, P e)
    (hf : ∀ a s1, ∃ t1 t2, (f a s1).log = t1 ++ t2 ∧ (∀ e ∈ t1, P e) ∧ (∀ e ∈ t2, Q e)) :
    ∃ t1 t2, ((m >>= f) s).log = t1 ++ t2 ∧ (∀ e ∈ t1, P e) ∧ (∀ e ∈ t2, Q e) := by
  rw [Prog.bind_apply]
  cases hm2 : (m s).out with
  | ok a =>
    obtain ⟨t1, t2, h1, h2, h3⟩ := hf a (m s).st
    refine ⟨(m s).log ++ t1, t2, by simp [h1], ?_, h3⟩
    intro e he
    rcases List.mem_append.mp he with h | h
    · exact hm e h
    · exact h2 e h
  | panic msg => exact ⟨(m s).log, [], by simp, hm, by simp⟩
  | timeout => exact ⟨(m s).log, [], by simp, hm, by simp⟩

theorem Prog.lift_log {α : Type} (x : Outcome α) (s : σ) : (Prog.lift x s).log = [] := by
  cases x <;> rfl

theorem getWorkers_forall {P : Event → Prop} (s : σ) (hread : ∀ e, e.isRead = true → P e) :
    ∀ e ∈ (getWorkers B s).log, P e := by
  unfold getWorkers
  apply Prog.forall_log_bind
  · simp only [Prog.call_apply, List.mem_singleton, forall_eq]
    exact hread _ rfl
  · intro r s1
    rcases r with l | e
    · simp only
      split <;> simp
    · simp

theorem ensureNFSIngressRule_forall {P : Event → Prop} (sgid : String) (s : σ)
    (hread : ∀ e, e.isRead = true → P e)
    (hauth : ∀ r, P (Event.AuthorizeSecurityGroupIngress sgid r)) :
    ∀ e ∈ (ensureNFSIngressRule B sgid s).log, P e := by
  unfold ensureNFSIngressRule
  apply Prog.forall_log_bind
  · simp only [Prog.call_apply, List.mem_singleton, forall_eq]
    exact hread _ rfl
  · intro r s1
    rcases r with l | e
    · simp only
      split
      · simp
      · apply Prog.forall_log_bind
        · simp [hauth]
        · intro r2 s2
          rcases r2 with u | e <;> simp
    · simp

theorem isProvision_of_isRead (e : Event) (h : e.isRead = true) : e.isProvision = false := by
  cases e <;> simp_all [Event.isRead, Event.isProvision]

theorem isDelete_of_isRead (e : Event) (h : e.isRead = true) : e.isDelete = false := by
  cases e <;> simp_all [Event.isRead, Event.isDelete]

theorem isDelete_of_isCreate (e : Event) (h : e.isCreate = true) : e.isDelete = false := by
  cases e <;> simp_all [Event.isCreate, Event.isDelete]

theorem prune_no_provision (o : RangeOrder) (fuel : Nat) (desired : fileSystems)
    (l : List (String × fileSystem)) (cur : fileSystems) (s : σ) :
    ∀ e ∈ (ensureFileSystemState_prune B o fuel desired l cur s).log, e.isProvision = false :=
  prune_forall B o fuel desired isProvision_of_isRead (fun _ _ _ _ => rfl) (fun _ _ _ => rfl)
    l cur s (fun _ _ _ => ⟨fun _ _ => rfl, fun _ => rfl⟩)

theorem provision_no_delete (o : RangeOrder) (fuel : Nat) (subnetIDs : List String)
    (sgid : String) (efsTag : Tag) (cur : fileSystems) (l : List (String × fileSystem)) (s : σ) :
    ∀ e ∈ (ensureFileSystemState_provision B o fuel subnetIDs sgid efsTag cur l s).log,
      e.isDelete = false :=
  provision_forall B o fuel subnetIDs sgid efsTag cur isDelete_of_isRead isDelete_of_isCreate l s

theorem reconcile_split (o : RangeOrder) (fuel : Nat) (subnetIDs : List String)
    (sgid : String) (efsTag : Tag) (desired cur : fileSystems) (s : σ) :
    ∃ t1 t2, (ensureFileSystemState_reconcile B o fuel subnetIDs sgid efsTag desired cur s).log =
        t1 ++ t2 ∧
      (∀ e ∈ t1, e.isProvision = false) ∧ (∀ e ∈ t2, e.isDelete = false) := by
  unfold ensureFileSystemState_reconcile
  apply Prog.split_bind
  · exact prune_no_provision B o fuel desired _ _ s
  · intro cur2 s1
    exact ⟨[], _, (List.nil_append _).symm, by simp,
      provision_no_delete B o fuel subnetIDs sgid efsTag cur2 _ s1⟩

theorem ensureFileSystemState_split (o : RangeOrder) (fuel : Nat) (desired : fileSystems) (s : σ) :
    ∃ t1 t2, (ensureFileSystemState B o fuel desired s).log = t1 ++ t2 ∧
      (∀ e ∈ t1, e.isProvision = false) ∧ (∀ e ∈ t2, e.isDelete = false) := by
  unfold ensureFileSystemState
  apply Prog.split_bind
  · exact getWorkers_forall B s isProvision_of_isRead
  intro workers s1
  apply Prog.split_bind
  · simp [Prog.lift_log]
  intro sgid s2
  apply Prog.split_bind
  · simp [Prog.lift_log]
  intro subnetIDs s3
  apply Prog.split_bind
  · simp [Prog.lift_log]
  intro ec2Tag s4
  apply Prog.split_bind
  · exact ensureNFSIngressRule_forall B sgid s4 isProvision_of_isRead (fun _ => rfl)
  intro _ s5
  apply Prog.split_bind
  · intro e he
    exact isProvision_of_isRead e (getFileSystems_isRead B s5 e he)
  intro cur s6
  exact reconcile_split B o fuel subnetIDs sgid (tagEC2ToEFS ec2Tag) desired cur s6

/-- C9 as amended. In every run of ensureFileSystemState, whatever its
outcome and whatever the iteration orders, the calls split into a first part
that holds no CreateFileSystem and no CreateMountTarget request and a second
part that holds no delete request of any kind; hence every mount-target
delete and every file-system delete is issued before every CreateFileSystem
and every CreateMountTarget request of the run. -/
theorem ensureFileSystemState_teardown_before_provision (o : RangeOrder) (fuel : Nat)
    (desired : fileSystems) (s : σ) :
    (∃ t1 t2, (ensureFileSystemState B o fuel desired s).log = t1 ++ t2 ∧
      (∀ e ∈ t1, e.isProvision = false) ∧ (∀ e ∈ t2, e.isDelete = false)) ∧
    ∀ (i j : Nat) (ei ej : Event),
      (ensureFileSystemState B o fuel desired s).log.get? i = some ei →
      (ensureFileSystemState B o fuel desired s).log.get? j = some ej →
      ei.isTeardown = true → ej.isProvision = true → i < j := by
  have hsplit := ensureFileSystemState_split B o fuel desired s
  refine ⟨hsplit, ?_⟩
  obtain ⟨t1, t2, hlog, h1, h2⟩ := hsplit
  intro i j ei ej hi hj hti hpj
  rw [hlog] at hi hj
  by_contra hij
  have hji : j ≤ i := Nat.le_of_not_lt hij
  by_cases hj1 : j < t1.length
  · rw [List.get?_eq_getElem?, List.getElem?_append_left hj1] at hj
    have hmem : ej ∈ t1 := List.getElem?_mem hj
    have := h1 ej hmem
    rw [hpj] at this
    cases this
  · have hi1 : t1.length ≤ i := by omega
    rw [List.get?_eq_getElem?, List.getElem?_append_right hi1] at hi
    have hmem : ei ∈ t2 := List.getElem?_mem hi
    have := h2 ei hmem
    cases ei <;> simp_all [Event.isTeardown, Event.isDelete]

end

section

variable {σ : Type} (B : Backend σ)

/-! ## Pruning -/

theorem deleteMountTargets_forall {P : Event → Prop} (fuel : Nat) (fsid : String) (s : σ)
    (hread : ∀ e, e.isRead = true → P e)
    (hmt : ∀ m r, P (Event.DeleteMountTarget fsid m r)) :
    ∀ e ∈ (deleteMountTargets B fuel fsid s).log, P e := by
  unfold deleteMountTargets
  apply Prog.forall_log_bind
  · simp only [Prog.call_apply, List.mem_singleton, forall_eq]
    exact hread _ rfl
  · intro r s1
    rcases r with mts | e
    · simp only
      split
      · simp
      · apply Prog.forall_log_bind
        · exact deleteMountTargets_requests_forall B fsid hmt mts s1
        · intro _ s2 e he
          exact hread e (deleteMountTargets_poll_isRead B fsid fuel s2 e he)
    · simp

theorem deleteFileSystem_ok_log {fuel : Nat} {fsid : String} {s : σ}
    (h : (deleteFileSystem B fuel fsid s).out = .ok ()) :
    (deleteFileSystem B fuel fsid s).log =
      (deleteMountTargets B fuel fsid s).log ++ [Event.DeleteFileSystem fsid (.ok ())] := by
  unfold deleteFileSystem at h ⊢
  simp only [Prog.bind_apply, Prog.call_apply] at h ⊢
  cases hmt : (deleteMountTargets B fuel fsid s).out with
  | panic msg => rw [hmt] at h; simp at h
  | timeout => rw [hmt] at h; simp at h
  | ok u =>
    rw [hmt] at h
    simp only at h ⊢
    rcases hr : (B.DeleteFileSystem (deleteMountTargets B fuel fsid s).st fsid).1 with u2 | e
    · simp
    · rw [hr] at h
      simp at h

theorem deleteFileSystem_fileSystemDeletes {fuel : Nat} {fsid : String} {s : σ}
    (h : (deleteFileSystem B fuel fsid s).out = .ok ()) :
    fileSystemDeletes (deleteFileSystem B fuel fsid s).log = [fsid] := by
  rw [deleteFileSystem_ok_log B h, fileSystemDeletes_append,
    fileSystemDeletes_eq_nil (deleteMountTargets_forall B fuel fsid s ?_ ?_)]
  · simp [fileSystemDeletes]
  · exact fileSystemDeletes_read
  · intro m r
    simp [fileSystemDeletes]

theorem prune_fileSystemDeletes (o : RangeOrder) (fuel : Nat) (desired : fileSystems) :
    ∀ (l : List (String × fileSystem)) (cur : fileSystems) (s : σ) (cur2 : fileSystems),
      (ensureFileSystemState_prune B o fuel desired l cur s).out = .ok cur2 →
      fileSystemDeletes (ensureFileSystemState_prune B o fuel desired l cur s).log =
        (l.filter (fun x => !desired.has x.1)).map (fun x => x.2.fileSystemID) := by
  intro l
  induction l with
  | nil => intro cur s cur2 _; simp [ensureFileSystemState_prune, fileSystemDeletes]
  | cons a rest ih =>
    intro cur s cur2 h
    obtain ⟨fskey, currentfs⟩ := a
    unfold ensureFileSystemState_prune at h ⊢
    cases hd : GoMap.get? desired fskey with
    | some desiredfs =>
      rw [hd] at h
      simp only at h ⊢
      obtain ⟨_, _, h2, hlog1, -⟩ := Prog.bind_ok_inv h
      obtain ⟨aps, _, h3, hlog2, -⟩ := Prog.bind_ok_inv h2
      rw [hlog1, hlog2, fileSystemDeletes_append, fileSystemDeletes_append, ih _ _ _ h3,
        fileSystemDeletes_eq_nil (removeAps_forall B _ _ (fun _ _ => by simp [fileSystemDeletes])
          _ _),
        fileSystemDeletes_eq_nil (addAps_forall B _ (fun _ _ _ => by simp [fileSystemDeletes])
          _ _ _)]
      simp [GoMap.has, hd]
    | none =>
      rw [hd] at h
      simp only at h ⊢
      obtain ⟨_, h1, h2, hlog1, -⟩ := Prog.bind_ok_inv h
      rw [hlog1, fileSystemDeletes_append, ih _ _ _ h2, deleteFileSystem_fileSystemDeletes B h1]
      simp [GoMap.has, hd]

theorem reconcile_forall {P : Event → Prop} (o : RangeOrder) (fuel : Nat)
    (subnetIDs : List String) (sgid : String) (efsTag : Tag) (desired cur : fileSystems) (s : σ)
    (hprune : ∀ e ∈ (ensureFileSystemState_prune B o fuel desired (o.current cur) cur
      s).log, P e)
    (hread : ∀ e, e.isRead = true → P e) (hcreate : ∀ e, e.isCreate = true → P e) :
    ∀ e ∈ (ensureFileSystemState_reconcile B o fuel subnetIDs sgid efsTag desired cur s).log,
      P e := by
  unfold ensureFileSystemState_reconcile
  apply Prog.forall_log_bind
  · exact hprune
  · intro cur2 s1
    exact provision_forall B o fuel subnetIDs sgid efsTag cur2 hread hcreate _ s1

theorem reconcile_fileSystemDeletes {o : RangeOrder} {fuel : Nat} {subnetIDs : List String}
    {sgid : String} {efsTag : Tag} {desired cur : fileSystems} {s : σ}
    (h : (ensureFileSystemState_reconcile B o fuel subnetIDs sgid efsTag desired cur s).out =
      .ok ()) :
    fileSystemDeletes
        (ensureFileSystemState_reconcile B o fuel subnetIDs sgid efsTag desired cur s).log =
      ((o.current cur).filter (fun x => !desired.has x.1)).map (fun x => x.2.fileSystemID) := by
  unfold ensureFileSystemState_reconcile at h ⊢
  obtain ⟨cur2, h1, h2, hlog, -⟩ := Prog.bind_ok_inv h
  rw [hlog, fileSystemDeletes_append, prune_fileSystemDeletes B o fuel desired _ _ _ _ h1,
    fileSystemDeletes_eq_nil, List.append_nil]
  intro e he
  exact fileSystemDeletes_of_not_isDelete e
    (provision_no_delete B o fuel subnetIDs sgid efsTag cur2 _ _ e he)

theorem reconcile_mountTargetDeletes (o : RangeOrder) (fuel : Nat) (subnetIDs : List String)
    (sgid : String) (efsTag : Tag) (desired cur : fileSystems) (s : σ) :
    ∀ p ∈ mountTargetDeletes
        (ensureFileSystemState_reconcile B o fuel subnetIDs sgid efsTag desired cur s).log,
      ∃ x ∈ o.current cur, desired.has x.1 = false ∧ p.1 = x.2.fileSystemID := by
  intro p hp
  obtain ⟨r, hr⟩ := mem_mountTargetDeletes hp
  have key := reconcile_forall B
    (P := fun e => ∀ f m r, e = Event.DeleteMountTarget f m r →
      ∃ x ∈ o.current cur, desired.has x.1 = false ∧ f = x.2.fileSystemID)
    o fuel subnetIDs sgid efsTag desired cur s ?_ ?_ ?_ _ hr p.1 p.2 r rfl
  · exact key
  · apply prune_forall
    · intro e he f m r h2
      subst h2
      simp [Event.isRead] at he
    · intro _ _ _ _ f m r h2
      cases h2
    · intro _ _ _ f m r h2
      cases h2
    · intro x hx hdx
      refine ⟨?_, ?_⟩
      · intro m r f m2 r2 h2
        cases h2
        exact ⟨x, hx, hdx, rfl⟩
      · intro r f m r2 h2
        cases h2
  · intro e he f m r h2
    subst h2
    simp [Event.isRead] at he
  · intro e he f m r h2
    subst h2
    simp [Event.isCreate] at he

end

section

variable {σ : Type} (B : Backend σ)

/-! ## Access points -/

theorem accessPointCreates_read (e : Event) (h : e.isRead = true) :
    accessPointCreates [e] = [] := by
  cases e <;> simp_all [Event.isRead, accessPointCreates]

theorem accessPointDeletes_read (e : Event) (h : e.isRead = true) :
    accessPointDeletes [e] = [] := by
  cases e <;> simp_all [Event.isRead, accessPointDeletes]

theorem fileSystemCreates_read (e : Event) (h : e.isRead = true) :
    fileSystemCreates [e] = [] := by
  cases e <;> simp_all [Event.isRead, fileSystemCreates]

theorem accessPointCreates_of_isRead {l : List Event} (h : ∀ e ∈ l, e.isRead = true) :
    accessPointCreates l = [] := by
  exact accessPointCreates_eq_nil (fun e he => accessPointCreates_read e (h e he))

theorem fileSystemCreates_of_isRead {l : List Event} (h : ∀ e ∈ l, e.isRead = true) :
    fileSystemCreates l = [] := by
  exact fileSystemCreates_eq_nil (fun e he => fileSystemCreates_read e (h e he))

theorem unitAps_accessPointCreates (fsid : String) (currentAps : accessPoints) :
    ∀ (l : List (String × String)) (s : σ),
      (ensureFileSystemState_unitAps B fsid currentAps l s).out = .ok () →
      accessPointCreates (ensureFileSystemState_unitAps B fsid currentAps l s).log =
        (l.filter (fun a => !currentAps.has a.1)).map
          (fun a => (sprintfToken apTokenMarker a.1, fsid)) := by
  intro l
  induction l with
  | nil => intro s _; simp [ensureFileSystemState_unitAps, accessPointCreates]
  | cons a rest ih =>
    intro s h
    obtain ⟨apkey, v⟩ := a
    unfold ensureFileSystemState_unitAps at h ⊢
    by_cases hh : GoMap.has currentAps apkey = true
    · simp only [hh, if_true] at h ⊢
      rw [ih s h]
      simp [hh]
    · simp only [hh, Bool.false_eq_true, if_false] at h ⊢
      obtain ⟨_, _, h2, hlog, -⟩ := Prog.bind_ok_inv h
      rw [hlog, accessPointCreates_append, ih _ h2, newAccessPoint_log]
      simp [hh, accessPointCreates]

theorem unitAps_fileSystemCreates (fsid : String) (currentAps : accessPoints)
    (l : List (String × String)) (s : σ) :
    fileSystemCreates (ensureFileSystemState_unitAps B fsid currentAps l s).log = [] :=
  fileSystemCreates_eq_nil
    (unitAps_forall B fsid currentAps (fun _ _ _ => by simp [fileSystemCreates]) l s)

theorem removeAps_accessPointDeletes (fsid : String) (desiredAps : accessPoints) :
    ∀ (l : List (String × String)) (s : σ),
      (ensureFileSystemState_removeAps B fsid desiredAps l s).out = .ok () →
      accessPointDeletes (ensureFileSystemState_removeAps B fsid desiredAps l s).log =
        (l.filter (fun a => !desiredAps.has a.1)).map (fun a => (fsid, a.2)) := by
  intro l
  induction l with
  | nil => intro s _; simp [ensureFileSystemState_removeAps, accessPointDeletes]
  | cons a rest ih =>
    intro s h
    obtain ⟨apkey, currentap⟩ := a
    unfold ensureFileSystemState_removeAps at h ⊢
    by_cases hh : GoMap.has desiredAps apkey = true
    · simp only [hh, if_true] at h ⊢
      rw [ih s h]
      simp [hh]
    · simp only [hh, Bool.false_eq_true, if_false] at h ⊢
      obtain ⟨_, _, h2, hlog, -⟩ := Prog.bind_ok_inv h
      rw [hlog, accessPointDeletes_append, ih _ h2, deleteAccessPoint_log]
      simp [hh, accessPointDeletes]

theorem addAps_has (fsid : String) :
    ∀ (l : List (String × String)) (aps : accessPoints) (s : σ) (aps2 : accessPoints),
      (ensureFileSystemState_addAps B fsid l aps s).out = .ok aps2 →
      ∀ a, aps2.has a = true ↔ aps.has a = true ∨ a ∈ l.map Prod.fst := by
  intro l
  induction l with
  | nil =>
    intro aps s aps2 h a
    simp [ensureFileSystemState_addAps] at h
    simp [h]
  | cons x rest ih =>
    intro aps s aps2 h a
    obtain ⟨apkey, v⟩ := x
    unfold ensureFileSystemState_addAps at h
    by_cases hh : GoMap.has aps apkey = true
    · simp only [hh, if_true] at h
      rw [ih aps s aps2 h a]
      simp only [List.map_cons, List.mem_cons]
      constructor
      · rintro (h1 | h1)
        · exact Or.inl h1
        · exact Or.inr (Or.inr h1)
      · rintro (h1 | h1 | h1)
        · exact Or.inl h1
        · exact Or.inl (h1 ▸ hh)
        · exact Or.inr h1
    · simp only [hh, Bool.false_eq_true, if_false] at h
      obtain ⟨apid, _, h2, -, -⟩ := Prog.bind_ok_inv h
      rw [ih _ _ aps2 h2 a, GoMap.has_set]
      simp only [List.map_cons, List.mem_cons]
      constructor
      · rintro ((h1 | h1) | h1)
        · exact Or.inr (Or.inl h1.symm)
        · exact Or.inl h1
        · exact Or.inr (Or.inr h1)
      · rintro (h1 | h1 | h1)
        · exact Or.inl (Or.inr h1)
        · exact Or.inl (Or.inl h1.symm)
        · exact Or.inr h1

theorem addAps_accessPointCreates (fsid : String) :
    ∀ (l : List (String × String)) (aps : accessPoints) (s : σ) (aps2 : accessPoints),
      (ensureFileSystemState_addAps B fsid l aps s).out = .ok aps2 →
      (l.map Prod.fst).Nodup →
      accessPointCreates (ensureFileSystemState_addAps B fsid l aps s).log =
        (l.filter (fun a => !aps.has a.1)).map
          (fun a => (sprintfToken apTokenMarker a.1, fsid)) := by
  intro l
  induction l with
  | nil => intro aps s aps2 _ _; simp [ensureFileSystemState_addAps, accessPointCreates]
  | cons x rest ih =>
    intro aps s aps2 h hn
    obtain ⟨apkey, v⟩ := x
    simp only [List.map_cons, List.nodup_cons] at hn
    unfold ensureFileSystemState_addAps at h ⊢
    by_cases hh : GoMap.has aps apkey = true
    · simp only [hh, if_true] at h ⊢
      rw [ih aps s aps2 h hn.2]
      simp [hh]
    · simp only [hh, Bool.false_eq_true, if_false] at h ⊢
      obtain ⟨apid, _, h2, hlog, -⟩ := Prog.bind_ok_inv h
      rw [hlog, accessPointCreates_append, ih _ _ aps2 h2 hn.2, newAccessPoint_log]
      have hfilter : rest.filter (fun a => !GoMap.has (GoMap.set aps apkey apid) a.1) =
          rest.filter (fun a => !GoMap.has aps a.1) := by
        apply List.filter_congr
        intro a ha
        have hne : apkey ≠ a.1 := by
          intro hc
          exact hn.1 (hc ▸ List.mem_map_of_mem Prod.fst ha)
        have := GoMap.has_set aps apkey a.1 apid
        cases h1 : GoMap.has (GoMap.set aps apkey apid) a.1 <;>
          cases h2 : GoMap.has aps a.1 <;> simp_all
      rw [hfilter]
      simp [hh, accessPointCreates]

/-! ## One unit of the concurrent pass -/

/-- What a unit that returns has done: it worked on the file system found in
the current state under its key, or on one it created with the token of the
key, and it created the desired access points missing from that file system's
map. -/
theorem unit_ok {o : RangeOrder} {fuel : Nat} {subnetIDs : List String} {sgid : String}
    {efsTag : Tag} {cur : fileSystems} {fskey : String} {desiredfs : fileSystem} {s : σ}
    (h : (ensureFileSystemState_unit B o fuel subnetIDs sgid efsTag cur fskey desiredfs s).out =
      .ok ()) :
    ∃ cfs : fileSystem,
      ((cur.get? fskey = some cfs ∧
          fileSystemCreates (ensureFileSystemState_unit B o fuel subnetIDs sgid efsTag cur fskey
            desiredfs s).log = []) ∨
        (cur.get? fskey = none ∧ cfs.accessPoints = [] ∧
          fileSystemCreates (ensureFileSystemState_unit B o fuel subnetIDs sgid efsTag cur fskey
            desiredfs s).log = [(sprintfToken fsTokenMarker fskey, some cfs.fileSystemID)])) ∧
      accessPointCreates (ensureFileSystemState_unit B o fuel subnetIDs sgid efsTag cur fskey
          desiredfs s).log =
        ((o.unitAps desiredfs.accessPoints).filter (fun a => !cfs.accessPoints.has a.1)).map
          (fun a => (sprintfToken apTokenMarker a.1, cfs.fileSystemID)) := by
  unfold ensureFileSystemState_unit at h ⊢
  obtain ⟨cfs, h0, h1, hlog1, -⟩ := Prog.bind_ok_inv h
  obtain ⟨_, _, h2, hlog2, -⟩ := Prog.bind_ok_inv h1
  obtain ⟨_, _, h3, hlog3, -⟩ := Prog.bind_ok_inv h2
  obtain ⟨_, h4, _, hlog4, -⟩ := Prog.bind_ok_inv h3
  rw [hlog1, hlog2, hlog3, hlog4]
  simp only [fileSystemCreates_append, accessPointCreates_append]
  rw [accessPointCreates_of_isRead (waitForFSAvailable_isRead B fuel cfs _),
    accessPointCreates_of_isRead (waitForAccessPointsAvailable_isRead B _ fuel _),
    fileSystemCreates_of_isRead (waitForFSAvailable_isRead B fuel cfs _),
    fileSystemCreates_of_isRead (waitForAccessPointsAvailable_isRead B _ fuel _),
    unitAps_fileSystemCreates, unitAps_accessPointCreates B _ _ _ _ h4,
    accessPointCreates_eq_nil (ensureMountTargets_forall B fuel _ subnetIDs sgid _
      accessPointCreates_read
      (fun _ _ => by simp [accessPointCreates])),
    fileSystemCreates_eq_nil (ensureMountTargets_forall B fuel _ subnetIDs sgid _
      fileSystemCreates_read
      (fun _ _ => by simp [fileSystemCreates]))]
  refine ⟨cfs, ?_, ?_⟩
  · cases hg : GoMap.get? cur fskey with
    | some fs =>
      left
      rw [hg] at h0
      simp only [Prog.pure_apply, Outcome.ok.injEq] at h0
      simp [h0, fileSystemCreates]
    | none =>
      right
      rw [hg] at h0
      simp only at h0 ⊢
      obtain ⟨fsid, hnew, hp, hlog5, -⟩ := Prog.bind_ok_inv h0
      simp only [Prog.pure_apply, Outcome.ok.injEq] at hp
      obtain ⟨d, hd, hid⟩ := newFileSystem_ok B hnew
      rw [hlog5, newFileSystem_log, hd]
      subst hp
      simp [fileSystemCreates, hid]
  · cases hg : GoMap.get? cur fskey with
    | some fs =>
      simp [accessPointCreates]
    | none =>
      simp only
      obtain ⟨fsid, hnew, hp, hlog5, -⟩ := Prog.bind_ok_inv (hg ▸ h0)
      rw [hlog5, newFileSystem_log]
      simp [accessPointCreates]

end

section

variable {σ : Type} (B : Backend σ)

/-! ## Convergence from an empty current graph -/

theorem provision_from_empty (o : RangeOrder) (fuel : Nat) (subnetIDs : List String)
    (sgid : String) (efsTag : Tag) :
    ∀ (l : List (String × fileSystem)) (s : σ),
      (ensureFileSystemState_provision B o fuel subnetIDs sgid efsTag [] l s).out = .ok () →
      ∃ ids : List String, ids.length = l.length ∧
        fileSystemCreates (ensureFileSystemState_provision B o fuel subnetIDs sgid efsTag [] l
            s).log =
          List.zipWith (fun x id => (sprintfToken fsTokenMarker x.1, some id)) l ids ∧
        accessPointCreates (ensureFileSystemState_provision B o fuel subnetIDs sgid efsTag [] l
            s).log =
          (l.zip ids).flatMap (fun p => (o.unitAps p.1.2.accessPoints).map
            (fun a => (sprintfToken apTokenMarker a.1, p.2))) := by
  intro l
  induction l with
  | nil =>
    intro s _
    exact ⟨[], rfl, by simp [ensureFileSystemState_provision, fileSystemCreates],
      by simp [ensureFileSystemState_provision, accessPointCreates]⟩
  | cons x rest ih =>
    intro s h
    obtain ⟨fskey, desiredfs⟩ := x
    unfold ensureFileSystemState_provision at h ⊢
    obtain ⟨_, h1, h2, hlog, -⟩ := Prog.bind_ok_inv h
    obtain ⟨ids, hlen, hfs, hap⟩ := ih _ h2
    obtain ⟨cfs, hcase, hcre⟩ := unit_ok B h1
    rcases hcase with ⟨hget, _⟩ | ⟨_, haps, hfsc⟩
    · simp [GoMap.get?] at hget
    · refine ⟨cfs.fileSystemID :: ids, by simp [hlen], ?_, ?_⟩
      · rw [hlog, fileSystemCreates_append, hfs, hfsc]
        simp
      · rw [hlog, accessPointCreates_append, hap, hcre, haps]
        simp [GoMap.has, GoMap.get?]

/-- The reconciliation from an empty current graph, when it returns: one
CreateFileSystem request for each entry of the desired graph, in iteration
order, each answered with an id; for each of these file systems in turn one
CreateAccessPoint request for each access point key declared under it,
targeting the id returned for that file system; and no delete request. -/
theorem reconcile_from_empty (o : RangeOrder) (fuel : Nat) (subnetIDs : List String)
    (sgid : String) (efsTag : Tag) (desired : fileSystems) (s : σ) (hv : o.Valid)
    (h : (ensureFileSystemState_reconcile B o fuel subnetIDs sgid efsTag desired [] s).out =
      .ok ()) :
    ∃ ids : List String, ids.length = (o.desired desired).length ∧
      fileSystemCreates
          (ensureFileSystemState_reconcile B o fuel subnetIDs sgid efsTag desired [] s).log =
        List.zipWith (fun x id => (sprintfToken fsTokenMarker x.1, some id))
          (o.desired desired) ids ∧
      accessPointCreates
          (ensureFileSystemState_reconcile B o fuel subnetIDs sgid efsTag desired [] s).log =
        ((o.desired desired).zip ids).flatMap (fun p => (o.unitAps p.1.2.accessPoints).map
          (fun a => (sprintfToken apTokenMarker a.1, p.2))) ∧
      ∀ e ∈ (ensureFileSystemState_reconcile B o fuel subnetIDs sgid efsTag desired [] s).log,
        e.isDelete = false := by
  have hnil : o.current [] = [] := List.Perm.eq_nil (hv.1 [])
  unfold ensureFileSystemState_reconcile at h ⊢
  rw [hnil] at h ⊢
  simp only [ensureFileSystemState_prune, Prog.bind_apply, Prog.pure_apply, List.nil_append]
    at h ⊢
  obtain ⟨ids, hlen, hfs, hap⟩ := provision_from_empty B o fuel subnetIDs sgid efsTag _ s h
  exact ⟨ids, hlen, hfs, hap, provision_no_delete B o fuel subnetIDs sgid efsTag [] _ s⟩

end

section

variable {σ : Type} (B : Backend σ)

/-! ## The current state after the sequential pass -/

theorem prune_frame (o : RangeOrder) (fuel : Nat) (desired : fileSystems) :
    ∀ (l : List (String × fileSystem)) (cur : fileSystems) (s : σ) (cur2 : fileSystems),
      (ensureFileSystemState_prune B o fuel desired l cur s).out = .ok cur2 →
      ∀ k, k ∉ l.map Prod.fst → cur2.get? k = cur.get? k := by
  intro l
  induction l with
  | nil =>
    intro cur s cur2 h k _
    simp [ensureFileSystemState_prune] at h
    rw [h]
  | cons x rest ih =>
    intro cur s cur2 h k hk
    obtain ⟨fskey, currentfs⟩ := x
    simp only [List.map_cons, List.mem_cons, not_or] at hk
    unfold ensureFileSystemState_prune at h
    cases hd : GoMap.get? desired fskey with
    | some desiredfs =>
      rw [hd] at h
      simp only at h
      obtain ⟨_, _, h2, -, -⟩ := Prog.bind_ok_inv h
      obtain ⟨aps, _, h3, -, -⟩ := Prog.bind_ok_inv h2
      rw [ih _ _ _ h3 k hk.2, GoMap.get?_set]
      simp [Ne.symm hk.1]
    | none =>
      rw [hd] at h
      simp only at h
      obtain ⟨_, _, h2, -, -⟩ := Prog.bind_ok_inv h
      exact ih _ _ _ h2 k hk.2

theorem prune_has (o : RangeOrder) (fuel : Nat) (desired : fileSystems) :
    ∀ (l : List (String × fileSystem)) (cur : fileSystems) (s : σ) (cur2 : fileSystems),
      (ensureFileSystemState_prune B o fuel desired l cur s).out = .ok cur2 →
      ∀ k, cur2.has k = true → cur.has k = true ∨ k ∈ l.map Prod.fst := by
  intro l
  induction l with
  | nil =>
    intro cur s cur2 h k hk
    simp [ensureFileSystemState_prune] at h
    rw [h]
    exact Or.inl hk
  | cons x rest ih =>
    intro cur s cur2 h k hk
    obtain ⟨fskey, currentfs⟩ := x
    unfold ensureFileSystemState_prune at h
    cases hd : GoMap.get? desired fskey with
    | some desiredfs =>
      rw [hd] at h
      simp only at h
      obtain ⟨_, _, h2, -, -⟩ := Prog.bind_ok_inv h
      obtain ⟨aps, _, h3, -, -⟩ := Prog.bind_ok_inv h2
      rcases ih _ _ _ h3 k hk with h4 | h4
      · rw [GoMap.has_set] at h4
        rcases h4 with h4 | h4
        · exact Or.inr (by simp [h4])
        · exact Or.inl h4
      · exact Or.inr (List.mem_cons_of_mem _ h4)
    | none =>
      rw [hd] at h
      simp only at h
      obtain ⟨_, _, h2, -, -⟩ := Prog.bind_ok_inv h
      rcases ih _ _ _ h2 k hk with h4 | h4
      · exact Or.inl h4
      · exact Or.inr (List.mem_cons_of_mem _ h4)

/-- After the sequential pass, the entry of every retained file system it
visited holds every access point key the pass iterated over for it. -/
theorem prune_covers (o : RangeOrder) (fuel : Nat) (desired : fileSystems) :
    ∀ (l : List (String × fileSystem)) (cur : fileSystems) (s : σ) (cur2 : fileSystems),
      (ensureFileSystemState_prune B o fuel desired l cur s).out = .ok cur2 →
      ∀ k, k ∈ l.map Prod.fst → ∀ dfs, desired.get? k = some dfs →
      ∀ fs, cur2.get? k = some fs →
      ∀ a, a ∈ (o.desiredAps dfs.accessPoints).map Prod.fst → fs.accessPoints.has a = true := by
  intro l
  induction l with
  | nil => intro cur s cur2 _ k hk; simp at hk
  | cons x rest ih =>
    intro cur s cur2 h k hk dfs hdk fs hfs a ha
    obtain ⟨fskey, currentfs⟩ := x
    unfold ensureFileSystemState_prune at h
    cases hd : GoMap.get? desired fskey with
    | some desiredfs =>
      rw [hd] at h
      simp only at h
      obtain ⟨_, _, h2, -, -⟩ := Prog.bind_ok_inv h
      obtain ⟨aps, hadd, h3, -, -⟩ := Prog.bind_ok_inv h2
      by_cases hkr : k ∈ rest.map Prod.fst
      · exact ih _ _ _ h3 k hkr dfs hdk fs hfs a ha
      · have hkeq : k = fskey := by
          simp only [List.map_cons, List.mem_cons] at hk
          rcases hk with hk | hk
          · exact hk
          · exact absurd hk hkr
        subst hkeq
        rw [prune_frame B o fuel desired _ _ _ _ h3 k hkr, GoMap.get?_set] at hfs
        simp only [if_true, Option.some.injEq] at hfs
        subst hfs
        rw [hd] at hdk
        cases hdk
        simp only
        rw [addAps_has B _ _ _ _ _ hadd a]
        exact Or.inr ha
    | none =>
      rw [hd] at h
      simp only at h
      obtain ⟨_, _, h2, -, -⟩ := Prog.bind_ok_inv h
      by_cases hkr : k ∈ rest.map Prod.fst
      · exact ih _ _ _ h2 k hkr dfs hdk fs hfs a ha
      · have hkeq : k = fskey := by
          simp only [List.map_cons, List.mem_cons] at hk
          rcases hk with hk | hk
          · exact hk
          · exact absurd hk hkr
        subst hkeq
        rw [hd] at hdk
        cases hdk

end

section

variable {σ : Type} (B : Backend σ)

/-! ## Access-point diffing -/

theorem filter_map_eq_nil_of_ne {α β : Type} [DecidableEq β] (l : List α) (g : α → β × β)
    (f : β) (h : ∀ x ∈ l, (g x).2 ≠ f) :
    (l.map g).filter (fun p => p.2 = f) = [] := by
  rw [List.filter_eq_nil_iff]
  intro p hp
  obtain ⟨x, hx, rfl⟩ := List.mem_map.mp hp
  simpa using h x hx

theorem filter_map_eq_self_of_eq {α β : Type} [DecidableEq β] (l : List α) (g : α → β × β)
    (f : β) (h : ∀ x ∈ l, (g x).2 = f) :
    (l.map g).filter (fun p => p.2 = f) = l.map g := by
  rw [List.filter_eq_self]
  intro p hp
  obtain ⟨x, hx, rfl⟩ := List.mem_map.mp hp
  simpa using h x hx

theorem provision_ap_filter (o : RangeOrder) (fuel : Nat) (subnetIDs : List String)
    (sgid : String) (efsTag : Tag) (cur : fileSystems) (f : String) :
    ∀ (l : List (String × fileSystem)) (s : σ),
      (ensureFileSystemState_provision B o fuel subnetIDs sgid efsTag cur l s).out = .ok () →
      (∀ x ∈ l, ∀ cfs, cur.get? x.1 = some cfs →
        ∀ a ∈ o.unitAps x.2.accessPoints, cfs.accessPoints.has a.1 = true) →
      (∀ p ∈ fileSystemCreates
        (ensureFileSystemState_provision B o fuel subnetIDs sgid efsTag cur l s).log,
        p.2 ≠ some f) →
      (accessPointCreates
        (ensureFileSystemState_provision B o fuel subnetIDs sgid efsTag cur l s).log).filter
        (fun p => p.2 = f) = [] := by
  intro l
  induction l with
  | nil => intro s _ _ _; simp [ensureFileSystemState_provision, accessPointCreates]
  | cons x rest ih =>
    intro s h hcov hnew
    obtain ⟨fskey, desiredfs⟩ := x
    unfold ensureFileSystemState_provision at h hnew ⊢
    obtain ⟨_, h1, h2, hlog, -⟩ := Prog.bind_ok_inv h
    rw [hlog] at hnew ⊢
    rw [fileSystemCreates_append] at hnew
    rw [accessPointCreates_append, List.filter_append,
      ih _ h2 (fun x hx => hcov x (List.mem_cons_of_mem _ hx))
        (fun p hp => hnew p (List.mem_append_right _ hp)),
      List.append_nil]
    obtain ⟨cfs, hcase, hcre⟩ := unit_ok B h1
    rw [hcre]
    rcases hcase with ⟨hget, _⟩ | ⟨_, _, hfsc⟩
    · have hall := hcov (fskey, desiredfs) (List.mem_cons_self _ _) cfs hget
      have : (o.unitAps desiredfs.accessPoints).filter
          (fun a => !GoMap.has cfs.accessPoints a.1) = [] := by
        rw [List.filter_eq_nil_iff]
        intro a ha
        simp [hall a ha]
      rw [this]
      rfl
    · have hne : cfs.fileSystemID ≠ f := by
        intro hc
        have := hnew (sprintfToken fsTokenMarker fskey, some cfs.fileSystemID)
          (List.mem_append_left _ (by rw [hfsc]; exact List.mem_singleton_self _))
        exact this (by rw [hc])
      exact filter_map_eq_nil_of_ne _ _ _ (fun _ _ => hne)

/-- The access-point requests that the sequential pass issues against the
file system id of one retained entry, when no other entry has that id. -/
theorem prune_ap_filter (o : RangeOrder) (fuel : Nat) (desired : fileSystems) (k : String)
    (cfs dfs : fileSystem) (hd : desired.get? k = some dfs)
    (hnd : ((o.desiredAps dfs.accessPoints).map Prod.fst).Nodup) :
    ∀ (l : List (String × fileSystem)) (cur : fileSystems) (s : σ) (cur2 : fileSystems),
      (ensureFileSystemState_prune B o fuel desired l cur s).out = .ok cur2 →
      (l.map Prod.fst).Nodup →
      (∀ x ∈ l, x.2.fileSystemID = cfs.fileSystemID → x.1 = k) →
      ((k, cfs) ∈ l →
        (accessPointDeletes (ensureFileSystemState_prune B o fuel desired l cur s).log).filter
            (fun p => p.1 = cfs.fileSystemID) =
          ((o.currentAps cfs.accessPoints).filter (fun a => !dfs.accessPoints.has a.1)).map
            (fun a => (cfs.fileSystemID, a.2)) ∧
        (accessPointCreates (ensureFileSystemState_prune B o fuel desired l cur s).log).filter
            (fun p => p.2 = cfs.fileSystemID) =
          ((o.desiredAps dfs.accessPoints).filter (fun a => !cfs.accessPoints.has a.1)).map
            (fun a => (sprintfToken apTokenMarker a.1, cfs.fileSystemID))) ∧
      (k ∉ l.map Prod.fst →
        (accessPointDeletes (ensureFileSystemState_prune B o fuel desired l cur s).log).filter
            (fun p => p.1 = cfs.fileSystemID) = [] ∧
        (accessPointCreates (ensureFileSystemState_prune B o fuel desired l cur s).log).filter
            (fun p => p.2 = cfs.fileSystemID) = []) := by
  intro l
  induction l with
  | nil =>
    intro cur s cur2 _ _ _
    simp [ensureFileSystemState_prune, accessPointDeletes, accessPointCreates]
  | cons x rest ih =>
    intro cur s cur2 h hn hid
    obtain ⟨fskey, currentfs⟩ := x
    simp only [List.map_cons, List.nodup_cons] at hn
    have hidr : ∀ x ∈ rest, x.2.fileSystemID = cfs.fileSystemID → x.1 = k :=
      fun x hx => hid x (List.mem_cons_of_mem _ hx)
    unfold ensureFileSystemState_prune at h ⊢
    cases hdk : GoMap.get? desired fskey with
    | some desiredfs =>
      rw [hdk] at h
      simp only at h ⊢
      obtain ⟨_, hrem, h2, hlog1, -⟩ := Prog.bind_ok_inv h
      obtain ⟨aps, hadd, h3, hlog2, -⟩ := Prog.bind_ok_inv h2
      obtain ⟨ih1, ih2⟩ := ih _ _ _ h3 hn.2 hidr
      rw [hlog1, hlog2]
      simp only [accessPointDeletes_append, accessPointCreates_append, List.filter_append]
      rw [accessPointDeletes_eq_nil (addAps_forall B _
          (fun _ _ _ => by simp [accessPointDeletes]) _ _ _),
        accessPointCreates_eq_nil (removeAps_forall B _ _
          (fun _ _ => by simp [accessPointCreates]) _ _),
        removeAps_accessPointDeletes B _ _ _ _ hrem]
      simp only [List.filter_nil, List.nil_append]
      by_cases hk : fskey = k
      · subst hk
        rw [hd] at hdk
        cases hdk
        rw [addAps_accessPointCreates B _ _ _ _ _ hadd hnd]
        obtain ⟨ihd, ihc⟩ := ih2 hn.1
        rw [ihd, ihc]
        constructor
        · intro hmem
          have hcfs : cfs = currentfs := by
            rcases List.mem_cons.mp hmem with h5 | h5
            · cases h5; rfl
            · exact absurd (List.mem_map_of_mem Prod.fst h5) hn.1
          subst hcfs
          constructor
          · simp only [List.append_nil]
            rw [List.filter_eq_self]
            intro p hp
            obtain ⟨a, _, rfl⟩ := List.mem_map.mp hp
            simp
          · simp only [List.append_nil]
            exact filter_map_eq_self_of_eq _ _ _ (fun _ _ => rfl)
        · intro hnot
          simp at hnot
      · have hne : currentfs.fileSystemID ≠ cfs.fileSystemID :=
          fun hc => hk (hid (fskey, currentfs) (List.mem_cons_self _ _) hc)
        have hdel0 : ((List.filter (fun a => !GoMap.has desiredfs.accessPoints a.1)
            (o.currentAps currentfs.accessPoints)).map
            (fun a => (currentfs.fileSystemID, a.2))).filter
            (fun p => p.1 = cfs.fileSystemID) = [] := by
          rw [List.filter_eq_nil_iff]
          intro p hp
          obtain ⟨a, _, rfl⟩ := List.mem_map.mp hp
          simpa using hne
        have hcre0 : (accessPointCreates (ensureFileSystemState_addAps B
            currentfs.fileSystemID (o.desiredAps desiredfs.accessPoints)
            currentfs.accessPoints
            (ensureFileSystemState_removeAps B currentfs.fileSystemID desiredfs.accessPoints
              (o.currentAps currentfs.accessPoints) s).st).log).filter
            (fun p => p.2 = cfs.fileSystemID) = [] := by
          rw [List.filter_eq_nil_iff]
          intro p hp
          have key := addAps_forall B (P := fun e => ∀ p ∈ accessPointCreates [e],
              p.2 = currentfs.fileSystemID) currentfs.fileSystemID
            (fun _ _ _ => by simp [accessPointCreates])
            (o.desiredAps desiredfs.accessPoints) currentfs.accessPoints
            (ensureFileSystemState_removeAps B currentfs.fileSystemID desiredfs.accessPoints
              (o.currentAps currentfs.accessPoints) s).st
          unfold accessPointCreates at hp
          obtain ⟨e, he, hpe⟩ := List.mem_filterMap.mp hp
          have := key e he p (by
            unfold accessPointCreates
            simp only [List.filterMap_cons, List.filterMap_nil]
            rw [hpe]
            exact List.mem_singleton_self _)
          simp only [decide_eq_true_eq]
          rw [this]
          exact hne
        rw [hdel0, hcre0]
        simp only [List.nil_append]
        constructor
        · intro hmem
          rcases List.mem_cons.mp hmem with h5 | h5
          · cases h5
            exact absurd rfl hk
          · exact ih1 h5
        · intro hnot
          simp only [List.map_cons, List.mem_cons, not_or] at hnot
          exact ih2 hnot.2
    | none =>
      rw [hdk] at h
      simp only at h ⊢
      obtain ⟨_, hdel, h2, hlog1, -⟩ := Prog.bind_ok_inv h
      obtain ⟨ih1, ih2⟩ := ih _ _ _ h2 hn.2 hidr
      rw [hlog1]
      simp only [accessPointDeletes_append, accessPointCreates_append, List.filter_append]
      rw [accessPointDeletes_eq_nil (deleteFileSystem_forall B fuel _ _
          accessPointDeletes_read
          (fun _ _ => by simp [accessPointDeletes]) (fun _ => by simp [accessPointDeletes])),
        accessPointCreates_eq_nil (deleteFileSystem_forall B fuel _ _
          accessPointCreates_read
          (fun _ _ => by simp [accessPointCreates]) (fun _ => by simp [accessPointCreates]))]
      simp only [List.filter_nil, List.nil_append]
      have hk : fskey ≠ k := by
        intro hc
        rw [hc, hd] at hdk
        cases hdk
      constructor
      · intro hmem
        rcases List.mem_cons.mp hmem with h5 | h5
        · cases h5
          exact absurd rfl hk
        · exact ih1 h5
      · intro hnot
        simp only [List.map_cons, List.mem_cons, not_or] at hnot
        exact ih2 hnot.2

end

section

variable {σ : Type} (B : Backend σ)

/-- The access-point requests that a reconciliation that returns issues for
one file system that is both current and desired, whose id belongs to no other
current entry and is not returned by a CreateFileSystem of the run: the
deletes are those for the ids of its current keys that are not desired, the
creates are one for each desired key that is not current. -/
theorem reconcile_access_point_diff (o : RangeOrder) (fuel : Nat) (subnetIDs : List String)
    (sgid : String) (efsTag : Tag) (desired current : fileSystems) (s : σ)
    (k : String) (cfs dfs : fileSystem)
    (hv : o.Valid) (hcurN : current.keys.Nodup) (hdesN : desired.keys.Nodup)
    (hk : current.get? k = some cfs) (hd : desired.get? k = some dfs)
    (hapN : dfs.accessPoints.keys.Nodup)
    (hid : ∀ k2 fs2, current.get? k2 = some fs2 → fs2.fileSystemID = cfs.fileSystemID → k2 = k)
    (h : (ensureFileSystemState_reconcile B o fuel subnetIDs sgid efsTag desired current s).out =
      .ok ())
    (hnew : ∀ p ∈ fileSystemCreates
      (ensureFileSystemState_reconcile B o fuel subnetIDs sgid efsTag desired current s).log,
      p.2 ≠ some cfs.fileSystemID) :
    (accessPointDeletes
        (ensureFileSystemState_reconcile B o fuel subnetIDs sgid efsTag desired current s).log).filter
        (fun p => p.1 = cfs.fileSystemID) =
      ((o.currentAps cfs.accessPoints).filter (fun a => !dfs.accessPoints.has a.1)).map
        (fun a => (cfs.fileSystemID, a.2)) ∧
    (accessPointCreates
        (ensureFileSystemState_reconcile B o fuel subnetIDs sgid efsTag desired current s).log).filter
        (fun p => p.2 = cfs.fileSystemID) =
      ((o.desiredAps dfs.accessPoints).filter (fun a => !cfs.accessPoints.has a.1)).map
        (fun a => (sprintfToken apTokenMarker a.1, cfs.fileSystemID)) := by
  obtain ⟨hv1, hv2, hv3, hv4, hv5⟩ := hv
  unfold ensureFileSystemState_reconcile at h hnew ⊢
  obtain ⟨cur2, h1, h2, hlog, -⟩ := Prog.bind_ok_inv h
  rw [hlog] at hnew ⊢
  rw [fileSystemCreates_append] at hnew
  have hmem : (k, cfs) ∈ o.current current := (hv1 current).mem_iff.mpr (GoMap.mem_of_get? hk)
  have hlN : ((o.current current).map Prod.fst).Nodup :=
    ((hv1 current).map Prod.fst).nodup_iff.mpr hcurN
  have hndA : ((o.desiredAps dfs.accessPoints).map Prod.fst).Nodup :=
    ((hv3 dfs.accessPoints).map Prod.fst).nodup_iff.mpr hapN
  have hidl : ∀ x ∈ o.current current, x.2.fileSystemID = cfs.fileSystemID → x.1 = k := by
    intro x hx hxid
    have hx2 : (x.1, x.2) ∈ current := (hv1 current).mem_iff.mp hx
    exact hid x.1 x.2 (GoMap.get?_of_mem hcurN hx2) hxid
  obtain ⟨hp1, -⟩ := prune_ap_filter B o fuel desired k cfs dfs hd hndA _ _ _ _ h1 hlN hidl
  obtain ⟨hdel, hcre⟩ := hp1 hmem
  have hcov : ∀ x ∈ o.desired desired, ∀ fs2, cur2.get? x.1 = some fs2 →
      ∀ a ∈ o.unitAps x.2.accessPoints, fs2.accessPoints.has a.1 = true := by
    intro x hx fs2 hfs2 a ha
    have hx2 : (x.1, x.2) ∈ desired := (hv4 desired).mem_iff.mp hx
    have hdx : desired.get? x.1 = some x.2 := GoMap.get?_of_mem hdesN hx2
    have hkl : x.1 ∈ (o.current current).map Prod.fst := by
      rcases prune_has B o fuel desired _ _ _ _ h1 x.1 (GoMap.has_of_get? hfs2) with h3 | h3
      · have : x.1 ∈ current.map Prod.fst := (GoMap.has_iff_mem_keys _ _).mp h3
        exact ((hv1 current).map Prod.fst).mem_iff.mpr this
      · exact h3
    have ha2 : a.1 ∈ (o.desiredAps x.2.accessPoints).map Prod.fst := by
      have : a ∈ x.2.accessPoints := (hv5 _).mem_iff.mp ha
      exact List.mem_map_of_mem Prod.fst ((hv3 _).mem_iff.mpr this)
    exact prune_covers B o fuel desired _ _ _ _ h1 x.1 hkl x.2 hdx fs2 hfs2 a.1 ha2
  have hprov := provision_ap_filter B o fuel subnetIDs sgid efsTag cur2 cfs.fileSystemID _ _ h2
    hcov (fun p hp => hnew p (List.mem_append_right _ hp))
  have hprovD : accessPointDeletes (ensureFileSystemState_provision B o fuel subnetIDs sgid
      efsTag cur2 (o.desired desired)
      (ensureFileSystemState_prune B o fuel desired (o.current current) current s).st).log =
      [] := by
    apply accessPointDeletes_eq_nil
    intro e he
    exact accessPointDeletes_of_not_isDelete e
      (provision_no_delete B o fuel subnetIDs sgid efsTag cur2 _ _ e he)
  rw [accessPointDeletes_append, accessPointCreates_append, List.filter_append,
    List.filter_append, hdel, hcre, hprov, hprovD]
  simp

end

section

variable {σ : Type} (B : Backend σ)

/-! ## The whole run -/

theorem Prog.lift_ok {α : Type} {x : Outcome α} {s : σ} {a : α}
    (h : (Prog.lift x s).out = .ok a) : x = .ok a ∧ (Prog.lift x s).st = s := by
  cases x with
  | ok b => exact ⟨h, rfl⟩
  | panic msg => cases h
  | timeout => cases h

/-- A run of ensureFileSystemState that returns consists of the probing of the
workers and the discovery, which issue no create and no delete request,
followed by the reconciliation of the desired graph with the discovered
one. -/
theorem ensureFileSystemState_ok_inv {o : RangeOrder} {fuel : Nat} {desired : fileSystems}
    {s : σ} (h : (ensureFileSystemState B o fuel desired s).out = .ok ()) :
    ∃ (workers : List Instance) (sgid : String) (subnetIDs : List String) (ec2Tag : Tag)
      (current : fileSystems) (s1 : σ) (pre : List Event),
      getSecurityGroupID workers = .ok sgid ∧ getSubnetIDs workers = .ok subnetIDs ∧
      getOwnedTag workers = .ok ec2Tag ∧
      (getFileSystems B s1).out = .ok current ∧
      (∀ e ∈ pre, e.isProvision = false ∧ e.isDelete = false) ∧
      (ensureFileSystemState B o fuel desired s).log =
        pre ++ (getFileSystems B s1).log ++
          (ensureFileSystemState_reconcile B o fuel subnetIDs sgid (tagEC2ToEFS ec2Tag) desired
            current (getFileSystems B s1).st).log ∧
      (ensureFileSystemState_reconcile B o fuel subnetIDs sgid (tagEC2ToEFS ec2Tag) desired
        current (getFileSystems B s1).st).out = .ok () := by
  unfold ensureFileSystemState at h ⊢
  obtain ⟨workers, hw, h1, hlog1, -⟩ := Prog.bind_ok_inv h
  obtain ⟨sgid, hsg, h2, hlog2, -⟩ := Prog.bind_ok_inv h1
  obtain ⟨subnetIDs, hsub, h3, hlog3, -⟩ := Prog.bind_ok_inv h2
  obtain ⟨ec2Tag, htag, h4, hlog4, -⟩ := Prog.bind_ok_inv h3
  obtain ⟨_, hnfs, h5, hlog5, -⟩ := Prog.bind_ok_inv h4
  obtain ⟨current, hcur, h6, hlog6, -⟩ := Prog.bind_ok_inv h5
  refine ⟨workers, sgid, subnetIDs, ec2Tag, current, _,
    (getWorkers B s).log ++ (ensureNFSIngressRule B sgid
      (Prog.lift (getOwnedTag workers) (Prog.lift (getSubnetIDs workers)
        (Prog.lift (getSecurityGroupID workers) (getWorkers B s).st).st).st).st).log,
    (Prog.lift_ok hsg).1, (Prog.lift_ok hsub).1, (Prog.lift_ok htag).1, hcur, ?_, ?_, h6⟩
  · intro e he
    rcases List.mem_append.mp he with he | he
    · exact getWorkers_forall B (P := fun e => e.isProvision = false ∧ e.isDelete = false) s
        (fun e he => ⟨isProvision_of_isRead e he, isDelete_of_isRead e he⟩) e he
    · exact ensureNFSIngressRule_forall B
        (P := fun e => e.isProvision = false ∧ e.isDelete = false) sgid _
        (fun e he => ⟨isProvision_of_isRead e he, isDelete_of_isRead e he⟩)
        (fun _ => ⟨rfl, rfl⟩) e he
  · rw [hlog1, hlog2, hlog3, hlog4, hlog5, hlog6]
    simp [Prog.lift_log, List.append_assoc]

end

section

variable {σ : Type} (B : Backend σ)

/-! ## A converged current graph -/

theorem Prog.forall_log_bind_ok {α β : Type} {P : Event → Prop} (m : Prog σ α)
    (f : α → Prog σ β) (s : σ) (hm : ∀ e ∈ (m s).log, P e)
    (hf : ∀ a, (m s).out = .ok a → ∀ e ∈ (f a (m s).st).log, P e) :
    ∀ e ∈ ((m >>= f) s).log, P e := by
  rw [Prog.bind_apply]
  cases hm2 : (m s).out with
  | ok a =>
    intro e he
    rcases List.mem_append.mp he with h | h
    · exact hm e h
    · exact hf a hm2 e h
  | panic msg => exact hm
  | timeout => exact hm

theorem removeAps_converged (fsid : String) (desiredAps : accessPoints) :
    ∀ (l : List (String × String)) (s : σ), (∀ a ∈ l, desiredAps.has a.1 = true) →
      ensureFileSystemState_removeAps B fsid desiredAps l s = ⟨.ok (), s, []⟩ := by
  intro l
  induction l with
  | nil => intro s _; rfl
  | cons a rest ih =>
    intro s h
    obtain ⟨apkey, v⟩ := a
    unfold ensureFileSystemState_removeAps
    rw [if_pos (h (apkey, v) (List.mem_cons_self _ _))]
    exact ih s (fun a ha => h a (List.mem_cons_of_mem _ ha))

theorem addAps_converged (fsid : String) (aps : accessPoints) :
    ∀ (l : List (String × String)) (s : σ), (∀ a ∈ l, aps.has a.1 = true) →
      ensureFileSystemState_addAps B fsid l aps s = ⟨.ok aps, s, []⟩ := by
  intro l
  induction l with
  | nil => intro s _; rfl
  | cons a rest ih =>
    intro s h
    obtain ⟨apkey, v⟩ := a
    unfold ensureFileSystemState_addAps
    rw [if_pos (h (apkey, v) (List.mem_cons_self _ _))]
    exact ih s (fun a ha => h a (List.mem_cons_of_mem _ ha))

theorem unitAps_converged (fsid : String) (aps : accessPoints) :
    ∀ (l : List (String × String)) (s : σ), (∀ a ∈ l, aps.has a.1 = true) →
      ensureFileSystemState_unitAps B fsid aps l s = ⟨.ok (), s, []⟩ := by
  intro l
  induction l with
  | nil => intro s _; rfl
  | cons a rest ih =>
    intro s h
    obtain ⟨apkey, v⟩ := a
    unfold ensureFileSystemState_unitAps
    rw [if_pos (h (apkey, v) (List.mem_cons_self _ _))]
    exact ih s (fun a ha => h a (List.mem_cons_of_mem _ ha))

/-- On a converged current graph the sequential pass issues no call and leaves
the current state as it is. -/
theorem prune_converged (o : RangeOrder) (fuel : Nat) (desired : fileSystems) :
    ∀ (l : List (String × fileSystem)) (cur : fileSystems) (s : σ),
      (∀ x ∈ l, cur.get? x.1 = some x.2 ∧ ∃ dfs, desired.get? x.1 = some dfs ∧
        (∀ a ∈ o.currentAps x.2.accessPoints, dfs.accessPoints.has a.1 = true) ∧
        (∀ a ∈ o.desiredAps dfs.accessPoints, x.2.accessPoints.has a.1 = true)) →
      ∃ cur2, ensureFileSystemState_prune B o fuel desired l cur s = ⟨.ok cur2, s, []⟩ ∧
        ∀ k, cur2.get? k = cur.get? k := by
  intro l
  induction l with
  | nil => intro cur s _; exact ⟨cur, rfl, fun _ => rfl⟩
  | cons x rest ih =>
    intro cur s h
    obtain ⟨fskey, currentfs⟩ := x
    obtain ⟨hget, dfs, hd, h1, h2⟩ := h (fskey, currentfs) (List.mem_cons_self _ _)
    have hset : ∀ k, (GoMap.set cur fskey currentfs).get? k = cur.get? k := by
      intro k
      rw [GoMap.get?_set]
      by_cases hk : fskey = k
      · simp [hk, ← hget]
      · simp [hk]
    obtain ⟨cur2, hrun, hsame⟩ := ih (GoMap.set cur fskey currentfs) s (by
      intro x hx
      obtain ⟨hg, rest2⟩ := h x (List.mem_cons_of_mem _ hx)
      exact ⟨by rw [hset]; exact hg, rest2⟩)
    refine ⟨cur2, ?_, fun k => by rw [hsame k, hset k]⟩
    unfold ensureFileSystemState_prune
    rw [hd]
    simp only
    rw [Prog.bind_apply, removeAps_converged B _ _ _ s h1]
    simp only
    rw [Prog.bind_apply, addAps_converged B _ _ _ s h2]
    simp only [List.nil_append]
    rw [hrun]

theorem unit_converged_forall {P : Event → Prop} (o : RangeOrder) (fuel : Nat)
    (subnetIDs : List String) (sgid : String) (efsTag : Tag) (cur : fileSystems)
    (fskey : String) (desiredfs cfs : fileSystem) (s : σ)
    (hget : cur.get? fskey = some cfs)
    (haps : ∀ a ∈ o.unitAps desiredfs.accessPoints, cfs.accessPoints.has a.1 = true)
    (hread : ∀ e, e.isRead = true → P e)
    (hmt : ∀ sub r, P (Event.CreateMountTarget cfs.fileSystemID sub sgid r)) :
    ∀ e ∈ (ensureFileSystemState_unit B o fuel subnetIDs sgid efsTag cur fskey desiredfs s).log,
      P e := by
  unfold ensureFileSystemState_unit
  rw [hget]
  simp only
  apply Prog.forall_log_bind_ok
  · simp
  · intro currentfs hcfs
    simp only [Prog.pure_apply, Outcome.ok.injEq] at hcfs
    subst hcfs
    apply Prog.forall_log_bind
    · intro e he
      exact hread e (waitForFSAvailable_isRead B fuel cfs _ e he)
    · intro _ s2
      apply Prog.forall_log_bind
      · exact ensureMountTargets_forall B fuel _ subnetIDs sgid s2 hread hmt
      · intro _ s3
        rw [Prog.bind_apply, unitAps_converged B _ _ _ s3 haps]
        simp only [List.nil_append]
        intro e he
        exact hread e (waitForAccessPointsAvailable_isRead B _ fuel s3 e he)

/-- On a converged current graph the concurrent pass issues listings and
CreateMountTarget requests only. -/
theorem provision_converged_forall {P : Event → Prop} (o : RangeOrder) (fuel : Nat)
    (subnetIDs : List String) (sgid : String) (efsTag : Tag) (cur : fileSystems)
    (hread : ∀ e, e.isRead = true → P e)
    (hmt : ∀ fsid sub r, P (Event.CreateMountTarget fsid sub sgid r)) :
    ∀ (l : List (String × fileSystem)) (s : σ),
      (∀ x ∈ l, ∃ cfs, cur.get? x.1 = some cfs ∧
        ∀ a ∈ o.unitAps x.2.accessPoints, cfs.accessPoints.has a.1 = true) →
      ∀ e ∈ (ensureFileSystemState_provision B o fuel subnetIDs sgid efsTag cur l s).log,
        P e := by
  intro l
  induction l with
  | nil => intro s _; simp [ensureFileSystemState_provision]
  | cons x rest ih =>
    intro s h
    obtain ⟨fskey, desiredfs⟩ := x
    obtain ⟨cfs, hget, haps⟩ := h (fskey, desiredfs) (List.mem_cons_self _ _)
    unfold ensureFileSystemState_provision
    apply Prog.forall_log_bind
    · exact unit_converged_forall B o fuel subnetIDs sgid efsTag cur fskey desiredfs cfs s hget
        haps hread (hmt _)
    · intro _ s1
      exact ih s1 (fun x hx => h x (List.mem_cons_of_mem _ hx))

/-- The second run in terms of the discovered graph: when the current graph
has exactly the keys of the desired graph and, under each key, exactly the
desired access point keys, the reconciliation issues only listings and
CreateMountTarget requests: no CreateFileSystem, no CreateAccessPoint and no
delete of any kind, whatever the backend answers. A backend on which every
fleet subnet already has its mount target answers each of these
CreateMountTarget requests with "already exists". -/
theorem reconcile_converged_noop (o : RangeOrder) (fuel : Nat) (subnetIDs : List String)
    (sgid : String) (efsTag : Tag) (desired current : fileSystems) (s : σ) (hv : o.Valid)
    (hcurN : current.keys.Nodup) (hdesN : desired.keys.Nodup)
    (hkeys : ∀ k, current.has k = true ↔ desired.has k = true)
    (haps : ∀ k cfs dfs, current.get? k = some cfs → desired.get? k = some dfs →
      ∀ a, cfs.accessPoints.has a = true ↔ dfs.accessPoints.has a = true) :
    ∀ e ∈ (ensureFileSystemState_reconcile B o fuel subnetIDs sgid efsTag desired current s).log,
      e.isRead = true ∨ ∃ fsid sub r, e = Event.CreateMountTarget fsid sub sgid r := by
  obtain ⟨hv1, hv2, hv3, hv4, hv5⟩ := hv
  have hl : ∀ x ∈ o.current current, current.get? x.1 = some x.2 ∧
      ∃ dfs, desired.get? x.1 = some dfs ∧
        (∀ a ∈ o.currentAps x.2.accessPoints, dfs.accessPoints.has a.1 = true) ∧
        (∀ a ∈ o.desiredAps dfs.accessPoints, x.2.accessPoints.has a.1 = true) := by
    intro x hx
    have hx2 : (x.1, x.2) ∈ current := (hv1 current).mem_iff.mp hx
    have hget : current.get? x.1 = some x.2 := GoMap.get?_of_mem hcurN hx2
    obtain ⟨dfs, hd⟩ := Option.isSome_iff_exists.mp ((hkeys x.1).mp (GoMap.has_of_get? hget))
    refine ⟨hget, dfs, hd, ?_, ?_⟩
    · intro a ha
      have ha2 : (a.1, a.2) ∈ x.2.accessPoints := (hv2 _).mem_iff.mp ha
      have : x.2.accessPoints.has a.1 = true :=
        (GoMap.has_iff_mem_keys _ _).mpr (List.mem_map_of_mem Prod.fst ha2)
      exact (haps x.1 x.2 dfs hget hd a.1).mp this
    · intro a ha
      have ha2 : (a.1, a.2) ∈ dfs.accessPoints := (hv3 _).mem_iff.mp ha
      have : dfs.accessPoints.has a.1 = true :=
        (GoMap.has_iff_mem_keys _ _).mpr (List.mem_map_of_mem Prod.fst ha2)
      exact (haps x.1 x.2 dfs hget hd a.1).mpr this
  obtain ⟨cur2, hrun, hsame⟩ := prune_converged B o fuel desired _ current s hl
  unfold ensureFileSystemState_reconcile
  rw [Prog.bind_apply, hrun]
  simp only [List.nil_append]
  apply provision_converged_forall B o fuel subnetIDs sgid efsTag cur2
    (P := fun e => e.isRead = true ∨ ∃ fsid sub r, e = Event.CreateMountTarget fsid sub sgid r)
    (fun e he => Or.inl he) (fun fsid sub r => Or.inr ⟨fsid, sub, r, rfl⟩)
  intro x hx
  have hx2 : (x.1, x.2) ∈ desired := (hv4 desired).mem_iff.mp hx
  have hd : desired.get? x.1 = some x.2 := GoMap.get?_of_mem hdesN hx2
  obtain ⟨cfs, hc⟩ := Option.isSome_iff_exists.mp ((hkeys x.1).mpr (GoMap.has_of_get? hd))
  refine ⟨cfs, by rw [hsame]; exact hc, ?_⟩
  intro a ha
  have ha2 : (a.1, a.2) ∈ x.2.accessPoints := (hv5 _).mem_iff.mp ha
  have : x.2.accessPoints.has a.1 = true :=
    (GoMap.has_iff_mem_keys _ _).mpr (List.mem_map_of_mem Prod.fst ha2)
  exact (haps x.1 cfs x.2 hc hd a.1).mpr this

end

/-! ## Failures are accounted for by the log -/

namespace Prog

variable {σ α β : Type}

theorem explained_of_ok {fuel : Nat} {r : Res σ α} {a : α} (h : r.out = .ok a) :
    r.Explained fuel := by
  constructor
  · intro msg hm
    rw [h] at hm
    cases hm
  · intro hm
    rw [h] at hm
    cases hm

theorem explained_bind {fuel : Nat} (m : Prog σ α) (f : α → Prog σ β) (s : σ)
    (hm : (m s).Explained fuel)
    (hf : ∀ a, (m s).out = .ok a → (f a (m s).st).Explained fuel) :
    ((m >>= f) s).Explained fuel := by
  rw [bind_apply]
  cases hout : (m s).out with
  | ok a =>
    obtain ⟨h1, h2⟩ := hf a hout
    constructor
    · intro msg hmsg
      obtain ⟨e, he, hfe⟩ := h1 msg hmsg
      exact ⟨e, List.mem_append_right _ he, hfe⟩
    · intro hto
      have := h2 hto
      simp only [List.countP_append]
      omega
  | panic msg =>
    constructor
    · intro msg2 hmsg
      exact hm.1 msg hout
    · intro hto
      cases hto
  | timeout =>
    constructor
    · intro msg2 hmsg
      cases hmsg
    · intro _
      exact hm.2 hout

/-- A call followed by the handling of its answer: either the rest of the
run is accounted for, or the answer is fatal and the rest panics. -/
theorem explained_call_bind {fuel : Nat} (step : σ → Reply α × σ) (ev : Reply α → Event)
    (k : Reply α → Prog σ β) (s : σ)
    (h : (k (step s).1 (step s).2).Explained fuel ∨
      ((ev (step s).1).fatal = true ∧ ∃ msg, (k (step s).1 (step s).2).out = .panic msg)) :
    ((call step ev >>= k) s).Explained fuel := by
  rw [bind_apply]
  simp only [call_apply]
  rcases h with h | ⟨hfat, msg, hmsg⟩
  · constructor
    · intro msg hmsg
      obtain ⟨e, he, hfe⟩ := h.1 msg hmsg
      exact ⟨e, List.mem_append_right _ he, hfe⟩
    · intro hto
      have := h.2 hto
      simp only [List.countP_append]
      omega
  · constructor
    · intro _ _
      exact ⟨_, by simp, hfat⟩
    · intro hto
      simp only at hto
      rw [hmsg] at hto
      cases hto

/-- One more round of a polling loop: the answer is pending and the rest of
the loop, with one poll less, is accounted for. -/
theorem explained_poll {n : Nat} (step : σ → Reply α × σ) (ev : Reply α → Event)
    (k : Reply α → Prog σ β) (s : σ) (hp : (ev (step s).1).pending = true)
    (hk : (k (step s).1 (step s).2).Explained n) :
    ((call step ev >>= k) s).Explained (n + 1) := by
  rw [bind_apply]
  simp only [call_apply]
  constructor
  · intro msg hmsg
    obtain ⟨e, he, hfe⟩ := hk.1 msg hmsg
    exact ⟨e, List.mem_append_right _ he, hfe⟩
  · intro hto
    have := hk.2 hto
    simp only [List.countP_append, List.countP_cons, List.countP_nil, hp, if_true]
    omega

end Prog

section

variable {σ : Type} (B : Backend σ)

theorem waitForFSAvailable_of_available (fuel : Nat) (fs : fileSystem) (s : σ)
    (h : fs.lastLifeCycleState = "available") :
    waitForFSAvailable B fuel fs s = ⟨.ok (), s, []⟩ := by
  cases fuel <;> simp [waitForFSAvailable, h]

theorem waitForFSAvailable_explained :
    ∀ (fuel : Nat) (fs : fileSystem) (s : σ), (waitForFSAvailable B fuel fs s).Explained fuel := by
  intro fuel
  induction fuel with
  | zero =>
    intro fs s
    unfold waitForFSAvailable
    split
    · exact Prog.explained_of_ok rfl
    · exact ⟨fun msg h => (by cases h), fun _ => Nat.zero_le _⟩
  | succ n ih =>
    intro fs s
    unfold waitForFSAvailable
    split
    · exact Prog.explained_of_ok rfl
    · rcases hr : (B.DescribeFileSystems s (some fs.fileSystemID)).1 with l | e
      · rcases l with _ | ⟨d, _ | ⟨d2, l2⟩⟩
        · apply Prog.explained_call_bind
          right
          simp only [hr]
          exact ⟨rfl, _, rfl⟩
        · by_cases hd : d.LifeCycleState = "available"
          · apply Prog.explained_call_bind
            left
            simp only [hr]
            rw [waitForFSAvailable_of_available B n _ _ hd]
            exact Prog.explained_of_ok rfl
          · apply Prog.explained_poll
            · simp only [hr, Event.pending]
              simpa using hd
            · simp only [hr]
              exact ih _ _
        · apply Prog.explained_call_bind
          right
          simp only [hr]
          exact ⟨rfl, _, rfl⟩
      · apply Prog.explained_call_bind
        right
        simp only [hr]
        exact ⟨rfl, _, rfl⟩

theorem waitForAccessPointsAvailable_explained (fsid : String) :
    ∀ (fuel : Nat) (s : σ), (waitForAccessPointsAvailable B fsid fuel s).Explained fuel := by
  intro fuel
  induction fuel with
  | zero =>
    intro s
    exact ⟨fun msg h => (by cases h), fun _ => Nat.zero_le _⟩
  | succ n ih =>
    intro s
    unfold waitForAccessPointsAvailable
    rcases hr : (B.DescribeAccessPoints s fsid).1 with aps | e
    · by_cases ha : aps.all (fun ap => ap.LifeCycleState = "available") = true
      · apply Prog.explained_call_bind
        left
        simp only [hr, ha, if_true]
        exact Prog.explained_of_ok rfl
      · apply Prog.explained_poll
        · simp only [hr, Event.pending]
          simpa using ha
        · simp only [hr, ha, Bool.false_eq_true, if_false]
          exact ih _
    · apply Prog.explained_call_bind
      right
      simp only [hr]
      exact ⟨rfl, _, rfl⟩

theorem ensureMountTargets_poll_explained (fsid : String) :
    ∀ (fuel : Nat) (s : σ), (ensureMountTargets_poll B fsid fuel s).Explained fuel := by
  intro fuel
  induction fuel with
  | zero =>
    intro s
    exact ⟨fun msg h => (by cases h), fun _ => Nat.zero_le _⟩
  | succ n ih =>
    intro s
    unfold ensureMountTargets_poll
    rcases hr : (B.DescribeMountTargets s fsid).1 with mts | e
    · by_cases ha : mts.all (fun mt => mt.LifeCycleState = "available") = true
      · apply Prog.explained_call_bind
        left
        simp only [hr, ha, if_true]
        exact Prog.explained_of_ok rfl
      · apply Prog.explained_poll
        · simp only [hr, Event.pending]
          cases mts with
          | nil => simp at ha
          | cons _ _ => rfl
        · simp only [hr, ha, Bool.false_eq_true, if_false]
          exact ih _
    · apply Prog.explained_call_bind
      right
      simp only [hr]
      exact ⟨rfl, _, rfl⟩

theorem deleteMountTargets_poll_explained (fsid : String) :
    ∀ (fuel : Nat) (s : σ), (deleteMountTargets_poll B fsid fuel s).Explained fuel := by
  intro fuel
  induction fuel with
  | zero =>
    intro s
    exact ⟨fun msg h => (by cases h), fun _ => Nat.zero_le _⟩
  | succ n ih =>
    intro s
    unfold deleteMountTargets_poll
    rcases hr : (B.DescribeMountTargets s fsid).1 with mts | e
    · by_cases ha : mts.length = 0
      · apply Prog.explained_call_bind
        left
        simp only [hr, ha, if_true]
        exact Prog.explained_of_ok rfl
      · apply Prog.explained_poll
        · simp only [hr, Event.pending]
          cases mts with
          | nil => simp at ha
          | cons _ _ => rfl
        · simp only [hr, ha, if_false]
          exact ih _
    · apply Prog.explained_call_bind
      right
      simp only [hr]
      exact ⟨rfl, _, rfl⟩

theorem ensureMountTarget_explained (fuel : Nat) (fsid subnetID sgid : String) (s : σ) :
    (ensureMountTarget B fsid subnetID sgid s).Explained fuel := by
  unfold ensureMountTarget
  apply Prog.explained_call_bind
  rcases hr : (B.CreateMountTarget s fsid subnetID sgid).1 with d | e
  · left
    exact Prog.explained_of_ok rfl
  · cases e
    case MountTargetConflict =>
      left
      exact Prog.explained_of_ok rfl
    all_goals
      right
      exact ⟨rfl, _, rfl⟩

theorem ensureMountTargets_explained (fuel : Nat) (fsid : String) (subnetIDs : List String)
    (sgid : String) (s : σ) :
    (ensureMountTargets B fuel fsid subnetIDs sgid s).Explained fuel := by
  unfold ensureMountTargets
  apply Prog.explained_bind
  · generalize ([] : List String) = seen
    induction subnetIDs generalizing seen s with
    | nil => exact Prog.explained_of_ok rfl
    | cons sub rest ih =>
      unfold ensureMountTargets_spawn
      split
      · exact ih s seen
      · apply Prog.explained_bind
        · exact ensureMountTarget_explained B fuel fsid sub sgid s
        · intro _ _
          exact ih _ _
  · intro _ _
    exact ensureMountTargets_poll_explained B fsid fuel _

theorem newFileSystem_explained (fuel : Nat) (subnetIDs : List String) (sgid : String)
    (tag : Tag) (key : String) (s : σ) :
    (newFileSystem B subnetIDs sgid tag key s).Explained fuel := by
  unfold newFileSystem
  apply Prog.explained_call_bind
  rcases hr : (B.CreateFileSystem s (sprintfToken fsTokenMarker key) [tag]).1 with d | e
  · left
    exact Prog.explained_of_ok rfl
  · right
    exact ⟨rfl, _, rfl⟩

theorem newAccessPoint_explained (fuel : Nat) (fsid key : String) (s : σ) :
    (newAccessPoint B fsid key s).Explained fuel := by
  unfold newAccessPoint
  apply Prog.explained_call_bind
  rcases hr : (B.CreateAccessPoint s (sprintfToken apTokenMarker key) fsid ("/" ++ key)).1
    with d | e
  · left
    exact Prog.explained_of_ok rfl
  · right
    exact ⟨rfl, _, rfl⟩

theorem deleteAccessPoint_explained (fuel : Nat) (fsid apid : String) (s : σ) :
    (deleteAccessPoint B fsid apid s).Explained fuel := by
  unfold deleteAccessPoint
  apply Prog.explained_call_bind
  rcases hr : (B.DeleteAccessPoint s apid).1 with d | e
  · left
    exact Prog.explained_of_ok rfl
  · right
    exact ⟨rfl, _, rfl⟩

theorem deleteMountTargets_requests_explained (fuel : Nat) (fsid : String) :
    ∀ (mts : List MountTargetDescription) (s : σ),
      (deleteMountTargets_requests B fsid mts s).Explained fuel := by
  intro mts
  induction mts with
  | nil => intro s; exact Prog.explained_of_ok rfl
  | cons mt rest ih =>
    intro s
    unfold deleteMountTargets_requests
    apply Prog.explained_call_bind
    rcases hr : (B.DeleteMountTarget s mt.MountTargetId).1 with d | e
    · left
      exact ih _
    · cases e
      case MountTargetNotFound =>
        left
        exact ih _
      all_goals
        right
        exact ⟨rfl, _, rfl⟩

theorem deleteMountTargets_explained (fuel : Nat) (fsid : String) (s : σ) :
    (deleteMountTargets B fuel fsid s).Explained fuel := by
  unfold deleteMountTargets
  apply Prog.explained_call_bind
  rcases hr : (B.DescribeMountTargets s fsid).1 with mts | e
  · left
    simp only
    split
    · exact Prog.explained_of_ok rfl
    · apply Prog.explained_bind
      · exact deleteMountTargets_requests_explained B fuel fsid mts _
      · intro _ _
        exact deleteMountTargets_poll_explained B fsid fuel _
  · right
    exact ⟨rfl, _, rfl⟩

theorem deleteFileSystem_explained (fuel : Nat) (fsid : String) (s : σ) :
    (deleteFileSystem B fuel fsid s).Explained fuel := by
  unfold deleteFileSystem
  apply Prog.explained_bind
  · exact deleteMountTargets_explained B fuel fsid s
  · intro _ _
    apply Prog.explained_call_bind
    rcases hr : (B.DeleteFileSystem (deleteMountTargets B fuel fsid s).st fsid).1 with d | e
    · left
      exact Prog.explained_of_ok rfl
    · right
      exact ⟨rfl, _, rfl⟩

theorem removeAps_explained (fuel : Nat) (fsid : String) (desiredAps : accessPoints) :
    ∀ (l : List (String × String)) (s : σ),
      (ensureFileSystemState_removeAps B fsid desiredAps l s).Explained fuel := by
  intro l
  induction l with
  | nil => intro s; exact Prog.explained_of_ok rfl
  | cons a rest ih =>
    intro s
    obtain ⟨apkey, currentap⟩ := a
    unfold ensureFileSystemState_removeAps
    split
    · exact ih s
    · apply Prog.explained_bind
      · exact deleteAccessPoint_explained B fuel fsid currentap s
      · intro _ _
        exact ih _

theorem addAps_explained (fuel : Nat) (fsid : String) :
    ∀ (l : List (String × String)) (aps : accessPoints) (s : σ),
      (ensureFileSystemState_addAps B fsid l aps s).Explained fuel := by
  intro l
  induction l with
  | nil => intro aps s; exact Prog.explained_of_ok rfl
  | cons a rest ih =>
    intro aps s
    obtain ⟨apkey, v⟩ := a
    unfold ensureFileSystemState_addAps
    split
    · exact ih aps s
    · apply Prog.explained_bind
      · exact newAccessPoint_explained B fuel fsid apkey s
      · intro _ _
        exact ih _ _

theorem unitAps_explained (fuel : Nat) (fsid : String) (currentAps : accessPoints) :
    ∀ (l : List (String × String)) (s : σ),
      (ensureFileSystemState_unitAps B fsid currentAps l s).Explained fuel := by
  intro l
  induction l with
  | nil => intro s; exact Prog.explained_of_ok rfl
  | cons a rest ih =>
    intro s
    obtain ⟨apkey, v⟩ := a
    unfold ensureFileSystemState_unitAps
    split
    · exact ih s
    · apply Prog.explained_bind
      · exact newAccessPoint_explained B fuel fsid apkey s
      · intro _ _
        exact ih _

theorem prune_explained (o : RangeOrder) (fuel : Nat) (desired : fileSystems) :
    ∀ (l : List (String × fileSystem)) (cur : fileSystems) (s : σ),
      (ensureFileSystemState_prune B o fuel desired l cur s).Explained fuel := by
  intro l
  induction l with
  | nil => intro cur s; exact Prog.explained_of_ok rfl
  | cons a rest ih =>
    intro cur s
    obtain ⟨fskey, currentfs⟩ := a
    unfold ensureFileSystemState_prune
    cases GoMap.get? desired fskey with
    | some desiredfs =>
      simp only
      apply Prog.explained_bind
      · exact removeAps_explained B fuel _ _ _ s
      · intro _ _
        apply Prog.explained_bind
        · exact addAps_explained B fuel _ _ _ _
        · intro _ _
          exact ih _ _
    | none =>
      simp only
      apply Prog.explained_bind
      · exact deleteFileSystem_explained B fuel _ s
      · intro _ _
        exact ih _ _

theorem unit_explained (o : RangeOrder) (fuel : Nat) (subnetIDs : List String) (sgid : String)
    (efsTag : Tag) (cur : fileSystems) (fskey : String) (desiredfs : fileSystem) (s : σ) :
    (ensureFileSystemState_unit B o fuel subnetIDs sgid efsTag cur fskey desiredfs s).Explained
      fuel := by
  unfold ensureFileSystemState_unit
  apply Prog.explained_bind
  · cases GoMap.get? cur fskey with
    | some fs => exact Prog.explained_of_ok rfl
    | none =>
      simp only
      apply Prog.explained_bind
      · exact newFileSystem_explained B fuel subnetIDs sgid efsTag fskey s
      · intro _ _
        exact Prog.explained_of_ok rfl
  · intro currentfs _
    apply Prog.explained_bind
    · exact waitForFSAvailable_explained B fuel currentfs _
    · intro _ _
      apply Prog.explained_bind
      · exact ensureMountTargets_explained B fuel _ subnetIDs sgid _
      · intro _ _
        apply Prog.explained_bind
        · exact unitAps_explained B fuel _ _ _ _
        · intro _ _
          exact waitForAccessPointsAvailable_explained B _ fuel _

theorem provision_explained (o : RangeOrder) (fuel : Nat) (subnetIDs : List String)
    (sgid : String) (efsTag : Tag) (cur : fileSystems) :
    ∀ (l : List (String × fileSystem)) (s : σ),
      (ensureFileSystemState_provision B o fuel subnetIDs sgid efsTag cur l s).Explained
        fuel := by
  intro l
  induction l with
  | nil => intro s; exact Prog.explained_of_ok rfl
  | cons a rest ih =>
    intro s
    obtain ⟨fskey, desiredfs⟩ := a
    unfold ensureFileSystemState_provision
    apply Prog.explained_bind
    · exact unit_explained B o fuel subnetIDs sgid efsTag cur fskey desiredfs s
    · intro _ _
      exact ih _

/-- A panic of the reconciliation comes with a fatal answer in its log, a
timeout with at least `fuel` pending answers. -/
theorem reconcile_explained (o : RangeOrder) (fuel : Nat) (subnetIDs : List String)
    (sgid : String) (efsTag : Tag) (desired cur : fileSystems) (s : σ) :
    (ensureFileSystemState_reconcile B o fuel subnetIDs sgid efsTag desired cur s).Explained
      fuel := by
  unfold ensureFileSystemState_reconcile
  apply Prog.explained_bind
  · exact prune_explained B o fuel desired _ _ s
  · intro _ _
    exact provision_explained B o fuel subnetIDs sgid efsTag _ _ _

end

/-! ## The run as discovery followed by reconciliation -/

namespace Prog

variable {σ α β γ : Type}

theorem bind_assoc (m : Prog σ α) (f : α → Prog σ β) (g : β → Prog σ γ) :
    (m >>= f) >>= g = m >>= fun a => f a >>= g := by
  funext s
  rw [bind_apply, bind_apply m, bind_apply m]
  cases h1 : (m s).out with
  | ok a =>
    simp only
    rw [bind_apply]
    cases h2 : (f a (m s).st).out <;> simp
  | panic msg => rfl
  | timeout => rfl

theorem pure_bind (a : α) (f : α → Prog σ β) : (pure a >>= f) = f a := by
  funext s
  rw [bind_apply]
  simp

end Prog

section

variable {σ : Type} (B : Backend σ)

theorem ensureFileSystemState_eq_discover_reconcile (o : RangeOrder) (fuel : Nat)
    (desired : fileSystems) :
    ensureFileSystemState B o fuel desired =
      ensureFileSystemState_discover B >>= fun d =>
        ensureFileSystemState_reconcile B o fuel d.subnetIDs d.sgid d.efsTag desired
          d.currentState := by
  unfold ensureFileSystemState ensureFileSystemState_discover
  simp only [Prog.bind_assoc, Prog.pure_bind]

/-- After a discovery that returned, the run is the reconciliation with what
was discovered: same outcome and final state, and the log of the discovery
followed by the log of the reconciliation. -/
theorem ensureFileSystemState_of_discover (o : RangeOrder) (fuel : Nat) (desired : fileSystems)
    {s : σ} {d : Discovery} (hd : (ensureFileSystemState_discover B s).out = .ok d) :
    (ensureFileSystemState B o fuel desired s).out =
      (ensureFileSystemState_reconcile B o fuel d.subnetIDs d.sgid d.efsTag desired
        d.currentState (ensureFileSystemState_discover B s).st).out ∧
    (ensureFileSystemState B o fuel desired s).log =
      (ensureFileSystemState_discover B s).log ++
        (ensureFileSystemState_reconcile B o fuel d.subnetIDs d.sgid d.efsTag desired
          d.currentState (ensureFileSystemState_discover B s).st).log := by
  rw [ensureFileSystemState_eq_discover_reconcile, Prog.bind_of_ok hd]
  exact ⟨rfl, rfl⟩

theorem discover_forall {P : Event → Prop} (s : σ) (hread : ∀ e, e.isRead = true → P e)
    (hauth : ∀ sgid r, P (Event.AuthorizeSecurityGroupIngress sgid r)) :
    ∀ e ∈ (ensureFileSystemState_discover B s).log, P e := by
  unfold ensureFileSystemState_discover
  apply Prog.forall_log_bind
  · exact getWorkers_forall B s hread
  intro workers s1
  apply Prog.forall_log_bind
  · simp [Prog.lift_log]
  intro sgid s2
  apply Prog.forall_log_bind
  · simp [Prog.lift_log]
  intro subnetIDs s3
  apply Prog.forall_log_bind
  · simp [Prog.lift_log]
  intro ec2Tag s4
  apply Prog.forall_log_bind
  · exact ensureNFSIngressRule_forall B sgid s4 hread (hauth sgid)
  intro _ s5
  apply Prog.forall_log_bind
  · intro e he
    exact hread e (getFileSystems_isRead B s5 e he)
  intro cur s6
  simp

/-- Discovery issues no create and no delete request. -/
theorem discover_quiet (s : σ) :
    ∀ e ∈ (ensureFileSystemState_discover B s).log, e.isCreate = false ∧ e.isDelete = false :=
  discover_forall B s (fun e he => by cases e <;> simp_all [Event.isRead, Event.isCreate,
    Event.isDelete]) (fun _ _ => ⟨rfl, rfl⟩)

theorem GoMap.keys_set_nodup {V : Type} (m : GoMap V) (k : String) (v : V)
    (h : m.keys.Nodup) : (m.set k v).keys.Nodup := by
  induction m with
  | nil => simp [GoMap.set, GoMap.keys]
  | cons e m ih =>
    obtain ⟨a, b⟩ := e
    simp only [GoMap.keys, List.map_cons, List.nodup_cons] at h
    by_cases hk : a = k
    · simp only [GoMap.set, hk, if_true, GoMap.keys, List.map_cons, List.nodup_cons]
      exact ⟨hk ▸ h.1, h.2⟩
    · simp only [GoMap.set, hk, if_false, GoMap.keys, List.map_cons, List.nodup_cons]
      refine ⟨?_, ih h.2⟩
      intro hmem
      have hhas : (GoMap.set m k v).has a = true :=
        (GoMap.has_iff_mem_keys _ _).mpr hmem
      rw [GoMap.has_set] at hhas
      rcases hhas with h1 | h1
      · exact hk h1.symm
      · exact h.1 ((GoMap.has_iff_mem_keys _ _).mp h1)

theorem getFileSystems_loop_keys_nodup :
    ∀ (fslist : List FileSystemDescription) (fsmap : fileSystems) (s : σ) (g : fileSystems),
      fsmap.keys.Nodup → (getFileSystems_loop B fslist fsmap s).out = .ok g → g.keys.Nodup := by
  intro fslist
  induction fslist with
  | nil =>
    intro fsmap s g hn h
    simp [getFileSystems_loop] at h
    exact h ▸ hn
  | cons fsd rest ih =>
    intro fsmap s g hn h
    unfold getFileSystems_loop at h
    cases hk : tokenKey fsTokenMarker fsd.CreationToken with
    | none =>
      rw [hk] at h
      exact ih fsmap s g hn h
    | some fsKey =>
      rw [hk] at h
      simp only at h
      obtain ⟨r, _, h2, -, -⟩ := Prog.bind_ok_inv h
      rcases r with aplist | e
      · exact ih _ _ g (GoMap.keys_set_nodup _ _ _ hn) h2
      · simp at h2

/-- The graph that discovery returns has no key twice. -/
theorem discover_keys_nodup {s : σ} {d : Discovery}
    (hd : (ensureFileSystemState_discover B s).out = .ok d) : d.currentState.keys.Nodup := by
  unfold ensureFileSystemState_discover at hd
  obtain ⟨_, _, h1, -, -⟩ := Prog.bind_ok_inv hd
  obtain ⟨_, _, h2, -, -⟩ := Prog.bind_ok_inv h1
  obtain ⟨_, _, h3, -, -⟩ := Prog.bind_ok_inv h2
  obtain ⟨_, _, h4, -, -⟩ := Prog.bind_ok_inv h3
  obtain ⟨_, _, h5, -, -⟩ := Prog.bind_ok_inv h4
  obtain ⟨cur, hcur, h6, -, -⟩ := Prog.bind_ok_inv h5
  simp only [Prog.pure_apply, Outcome.ok.injEq] at h6
  subst h6
  simp only
  unfold getFileSystems at hcur
  obtain ⟨r, _, h7, -, -⟩ := Prog.bind_ok_inv hcur
  rcases r with fslist | e
  · exact getFileSystems_loop_keys_nodup B fslist [] _ cur (by simp [GoMap.keys]) h7
  · simp at h7

/-- When discovery has returned, a run in which no answer is fatal and fewer
than `fuel` answers are pending returns. -/
theorem ensureFileSystemState_returns {o : RangeOrder} {fuel : Nat} {desired : fileSystems}
    {s : σ} {d : Discovery} (hd : (ensureFileSystemState_discover B s).out = .ok d)
    (hfatal : ∀ e ∈ (ensureFileSystemState B o fuel desired s).log, e.fatal = false)
    (hpending : (ensureFileSystemState B o fuel desired s).log.countP Event.pending < fuel) :
    (ensureFileSystemState B o fuel desired s).out = .ok () := by
  obtain ⟨hout, hlog⟩ := ensureFileSystemState_of_discover B o fuel desired hd
  have hex := reconcile_explained B o fuel d.subnetIDs d.sgid d.efsTag desired d.currentState
    (ensureFileSystemState_discover B s).st
  rw [hlog] at hfatal hpending
  rw [hout]
  cases hr : (ensureFileSystemState_reconcile B o fuel d.subnetIDs d.sgid d.efsTag desired
      d.currentState (ensureFileSystemState_discover B s).st).out with
  | ok u => rfl
  | panic msg =>
    obtain ⟨e, he, hfe⟩ := hex.1 msg hr
    have := hfatal e (List.mem_append_right _ he)
    rw [hfe] at this
    cases this
  | timeout =>
    have := hex.2 hr
    simp only [List.countP_append] at hpending
    omega

end

/-! ## Runs that do not return -/

theorem Prog.bind_log_elim {σ α β : Type} {P : List Event → Prop} (m : Prog σ α)
    (f : α → Prog σ β) (s : σ) (h1 : (∀ a, (m s).out ≠ .ok a) → P (m s).log)
    (h2 : ∀ a, (m s).out = .ok a → P ((m s).log ++ (f a (m s).st).log)) :
    P ((m >>= f) s).log := by
  rw [Prog.bind_apply]
  cases h : (m s).out with
  | ok a => exact h2 a h
  | panic msg => exact h1 (fun a ha => by rw [h] at ha; cases ha)
  | timeout => exact h1 (fun a ha => by rw [h] at ha; cases ha)

theorem mountTargetDeletes_append (l1 l2 : List Event) :
    mountTargetDeletes (l1 ++ l2) = mountTargetDeletes l1 ++ mountTargetDeletes l2 := by
  simp [mountTargetDeletes]

theorem mountTargetDeletes_eq_nil {l : List Event} (h : ∀ e ∈ l, mountTargetDeletes [e] = []) :
    mountTargetDeletes l = [] := by
  induction l with
  | nil => rfl
  | cons a l ih =>
    have h1 := h a (List.mem_cons_self _ _)
    have h2 := ih (fun e he => h e (List.mem_cons_of_mem _ he))
    have : a :: l = [a] ++ l := rfl
    rw [this, mountTargetDeletes_append, h1, h2]
    rfl

theorem mountTargetDeletes_of_not_isDelete (e : Event) (h : e.isDelete = false) :
    mountTargetDeletes [e] = [] := by
  cases e <;> simp_all [mountTargetDeletes, Event.isDelete]

theorem fileSystemCreates_of_not_isCreate (e : Event) (h : e.isCreate = false) :
    fileSystemCreates [e] = [] := by
  cases e <;> simp_all [fileSystemCreates, Event.isCreate]

theorem accessPointCreates_of_not_isCreate (e : Event) (h : e.isCreate = false) :
    accessPointCreates [e] = [] := by
  cases e <;> simp_all [accessPointCreates, Event.isCreate]

section

variable {σ : Type} (B : Backend σ)

/-- The create and delete requests of a run are those of its reconciliation:
discovery contributes none. -/
theorem ensureFileSystemState_views (o : RangeOrder) (fuel : Nat) (desired : fileSystems)
    {s : σ} {d : Discovery} (hd : (ensureFileSystemState_discover B s).out = .ok d) :
    fileSystemCreates (ensureFileSystemState B o fuel desired s).log =
      fileSystemCreates (ensureFileSystemState_reconcile B o fuel d.subnetIDs d.sgid d.efsTag
        desired d.currentState (ensureFileSystemState_discover B s).st).log ∧
    accessPointCreates (ensureFileSystemState B o fuel desired s).log =
      accessPointCreates (ensureFileSystemState_reconcile B o fuel d.subnetIDs d.sgid d.efsTag
        desired d.currentState (ensureFileSystemState_discover B s).st).log ∧
    fileSystemDeletes (ensureFileSystemState B o fuel desired s).log =
      fileSystemDeletes (ensureFileSystemState_reconcile B o fuel d.subnetIDs d.sgid d.efsTag
        desired d.currentState (ensureFileSystemState_discover B s).st).log ∧
    mountTargetDeletes (ensureFileSystemState B o fuel desired s).log =
      mountTargetDeletes (ensureFileSystemState_reconcile B o fuel d.subnetIDs d.sgid d.efsTag
        desired d.currentState (ensureFileSystemState_discover B s).st).log ∧
    accessPointDeletes (ensureFileSystemState B o fuel desired s).log =
      accessPointDeletes (ensureFileSystemState_reconcile B o fuel d.subnetIDs d.sgid d.efsTag
        desired d.currentState (ensureFileSystemState_discover B s).st).log := by
  have hq := discover_quiet B s
  rw [(ensureFileSystemState_of_discover B o fuel desired hd).2,
    fileSystemCreates_append, accessPointCreates_append, fileSystemDeletes_append,
    mountTargetDeletes_append, accessPointDeletes_append,
    fileSystemCreates_eq_nil (fun e he => fileSystemCreates_of_not_isCreate e (hq e he).1),
    accessPointCreates_eq_nil (fun e he => accessPointCreates_of_not_isCreate e (hq e he).1),
    fileSystemDeletes_eq_nil (fun e he => fileSystemDeletes_of_not_isDelete e (hq e he).2),
    mountTargetDeletes_eq_nil (fun e he => mountTargetDeletes_of_not_isDelete e (hq e he).2),
    accessPointDeletes_eq_nil (fun e he => accessPointDeletes_of_not_isDelete e (hq e he).2)]
  simp

/-- A request of the run that is a create or a delete was issued by the
reconciliation. -/
theorem ensureFileSystemState_mem_reconcile {o : RangeOrder} {fuel : Nat} {desired : fileSystems}
    {s : σ} {d : Discovery} (hd : (ensureFileSystemState_discover B s).out = .ok d)
    {e : Event} (he : e ∈ (ensureFileSystemState B o fuel desired s).log)
    (hcd : e.isCreate = true ∨ e.isDelete = true) :
    e ∈ (ensureFileSystemState_reconcile B o fuel d.subnetIDs d.sgid d.efsTag desired
      d.currentState (ensureFileSystemState_discover B s).st).log := by
  rw [(ensureFileSystemState_of_discover B o fuel desired hd).2]
    at he
  rcases List.mem_append.mp he with h | h
  · have := discover_quiet B s e h
    rcases hcd with h1 | h1
    · rw [this.1] at h1; cases h1
    · rw [this.2] at h1; cases h1
  · exact h

/-! ## Convergence from an empty current graph, whatever the outcome -/

theorem unit_fileSystemCreates_new (o : RangeOrder) (fuel : Nat) (subnetIDs : List String)
    (sgid : String) (efsTag : Tag) (cur : fileSystems) (fskey : String) (desiredfs : fileSystem)
    (s : σ) (hget : cur.get? fskey = none) :
    (fileSystemCreates (ensureFileSystemState_unit B o fuel subnetIDs sgid efsTag cur fskey
      desiredfs s).log).map Prod.fst = [sprintfToken fsTokenMarker fskey] := by
  unfold ensureFileSystemState_unit
  rw [hget]
  simp only
  have hfirst : ∀ r : Reply FileSystemDescription,
      (fileSystemCreates [Event.CreateFileSystem (sprintfToken fsTokenMarker fskey) [efsTag]
        r]).map Prod.fst = [sprintfToken fsTokenMarker fskey] := by
    intro r
    cases r <;> simp [fileSystemCreates]
  have hnew : ((newFileSystem B subnetIDs sgid efsTag fskey >>= fun fsid =>
      (pure { fileSystemID := fsid, lastLifeCycleState := "", accessPoints := [] } :
        Prog σ fileSystem)) s).log = (newFileSystem B subnetIDs sgid efsTag fskey s).log := by
    rw [Prog.bind_apply]
    cases (newFileSystem B subnetIDs sgid efsTag fskey s).out <;> simp
  refine Prog.bind_log_elim
    (P := fun l => (fileSystemCreates l).map Prod.fst = [sprintfToken fsTokenMarker fskey])
    _ _ s ?_ ?_
  · intro _
    rw [hnew, newFileSystem_log]
    exact hfirst _
  · intro currentfs _
    rw [fileSystemCreates_append, hnew, newFileSystem_log, List.map_append, hfirst,
      fileSystemCreates_eq_nil]
    · rfl
    · apply Prog.forall_log_bind
      · intro e he
        exact fileSystemCreates_read e (waitForFSAvailable_isRead B fuel currentfs _ e he)
      intro _ s2
      apply Prog.forall_log_bind
      · exact ensureMountTargets_forall B fuel _ subnetIDs sgid s2 fileSystemCreates_read
          (fun _ _ => by simp [fileSystemCreates])
      intro _ s3
      apply Prog.forall_log_bind
      · exact unitAps_forall B _ _ (fun _ _ _ => by simp [fileSystemCreates]) _ s3
      intro _ s4 e he
      exact fileSystemCreates_read e (waitForAccessPointsAvailable_isRead B _ fuel s4 e he)

theorem provision_from_empty_initial (o : RangeOrder) (fuel : Nat) (subnetIDs : List String)
    (sgid : String) (efsTag : Tag) :
    ∀ (l : List (String × fileSystem)) (s : σ),
      (fileSystemCreates (ensureFileSystemState_provision B o fuel subnetIDs sgid efsTag [] l
        s).log).map Prod.fst <+: l.map (fun x => sprintfToken fsTokenMarker x.1) := by
  intro l
  induction l with
  | nil => intro s; simp [ensureFileSystemState_provision, fileSystemCreates]
  | cons x rest ih =>
    intro s
    obtain ⟨fskey, desiredfs⟩ := x
    unfold ensureFileSystemState_provision
    have hu := fun s => unit_fileSystemCreates_new B o fuel subnetIDs sgid efsTag [] fskey
      desiredfs s rfl
    refine Prog.bind_log_elim
      (P := fun lg => (fileSystemCreates lg).map Prod.fst <+:
        ((fskey, desiredfs) :: rest).map (fun x => sprintfToken fsTokenMarker x.1))
      _ _ s ?_ ?_
    · intro _
      rw [hu]
      exact ⟨_, rfl⟩
    · intro _ _
      rw [fileSystemCreates_append, List.map_append, hu]
      exact (List.prefix_cons_inj _).mpr (ih _)

/-- With an empty current graph the reconciliation issues no delete request,
and its CreateFileSystem requests are for an initial segment of the desired
graph, whatever its outcome. -/
theorem reconcile_from_empty_any (o : RangeOrder) (fuel : Nat) (subnetIDs : List String)
    (sgid : String) (efsTag : Tag) (desired : fileSystems) (s : σ) (hv : o.Valid) :
    (∀ e ∈ (ensureFileSystemState_reconcile B o fuel subnetIDs sgid efsTag desired [] s).log,
      e.isDelete = false) ∧
    (fileSystemCreates (ensureFileSystemState_reconcile B o fuel subnetIDs sgid efsTag desired
      [] s).log).map Prod.fst <+:
        (o.desired desired).map (fun x => sprintfToken fsTokenMarker x.1) := by
  have hnil : o.current [] = [] := List.Perm.eq_nil (hv.1 [])
  unfold ensureFileSystemState_reconcile
  rw [hnil]
  simp only [ensureFileSystemState_prune, Prog.bind_apply, Prog.pure_apply, List.nil_append]
  exact ⟨provision_no_delete B o fuel subnetIDs sgid efsTag [] _ s,
    provision_from_empty_initial B o fuel subnetIDs sgid efsTag _ s⟩

end

/-! ## Pruning, whatever the outcome -/

theorem mountTargetDeletes_zipWith (fsid : String) :
    ∀ (mts : List MountTargetDescription) (replies : List (Reply Unit)),
      replies.length = mts.length →
      mountTargetDeletes
          (List.zipWith (fun mt r => Event.DeleteMountTarget fsid mt.MountTargetId r) mts replies) =
        mts.map (fun mt => (fsid, mt.MountTargetId)) := by
  intro mts
  induction mts with
  | nil => intro replies _; simp [mountTargetDeletes]
  | cons mt rest ih =>
    intro replies hlen
    cases replies with
    | nil => simp at hlen
    | cons r rs =>
      have h2 := ih rs (by simpa using hlen)
      simp only [mountTargetDeletes] at h2 ⊢
      simp [h2]

theorem mountTargetDeletes_read (e : Event) (h : e.isRead = true) :
    mountTargetDeletes [e] = [] := by
  cases e <;> simp_all [mountTargetDeletes, Event.isRead]

section

variable {σ : Type} (B : Backend σ)

/-- A teardown of the mount targets that returns starts with the listing,
followed directly by one delete request for each mount target listed; what
comes after holds no mount-target delete. -/
theorem deleteMountTargets_ok_shape {fuel : Nat} {fsid : String} {s : σ}
    (h : (deleteMountTargets B fuel fsid s).out = .ok ()) :
    ∃ (first : List MountTargetDescription) (replies : List (Reply Unit)) (rest : List Event),
      replies.length = first.length ∧
      (∀ e ∈ rest, e.isRead = true) ∧
      (deleteMountTargets B fuel fsid s).log =
        Event.DescribeMountTargets fsid (.ok first) ::
          (List.zipWith (fun mt r => Event.DeleteMountTarget fsid mt.MountTargetId r) first
            replies ++ rest) := by
  unfold deleteMountTargets at h ⊢
  simp only [Prog.bind_apply, Prog.call_apply] at h ⊢
  rcases hd : (B.DescribeMountTargets s fsid).1 with mts | e
  · rw [hd] at h
    simp only at h ⊢
    by_cases hl : mts.length = 0
    · have hnil : mts = [] := List.length_eq_zero.mp hl
      exact ⟨[], [], [], rfl, by simp, by simp [hl, hnil]⟩
    · simp only [hl, if_false] at h ⊢
      obtain ⟨u3, hq, hpoll, hlog5, -⟩ := Prog.bind_ok_inv h
      obtain ⟨replies, hlen, -, hlog3⟩ := deleteMountTargets_requests_ok B fsid mts _ hq
      refine ⟨mts, replies, (deleteMountTargets_poll B fsid fuel
        (deleteMountTargets_requests B fsid mts (B.DescribeMountTargets s fsid).2).st).log,
        hlen, deleteMountTargets_poll_isRead B fsid fuel _, ?_⟩
      rw [hlog5, hlog3]
      simp
  · rw [hd] at h
    simp at h

/-- The file-system delete requests of a teardown, whatever its outcome:
none, or the one for the file system torn down. -/
theorem deleteFileSystem_fileSystemDeletes_initial (fuel : Nat) (fsid : String) (s : σ) :
    fileSystemDeletes (deleteFileSystem B fuel fsid s).log <+: [fsid] := by
  have hmt : fileSystemDeletes (deleteMountTargets B fuel fsid s).log = [] :=
    fileSystemDeletes_eq_nil (deleteMountTargets_forall B fuel fsid s fileSystemDeletes_read
      (fun m r => by simp [fileSystemDeletes]))
  unfold deleteFileSystem
  simp only [Prog.bind_apply, Prog.call_apply]
  cases hout : (deleteMountTargets B fuel fsid s).out with
  | panic msg => simp [hmt]
  | timeout => simp [hmt]
  | ok u =>
    simp only
    rcases (B.DeleteFileSystem (deleteMountTargets B fuel fsid s).st fsid).1 with d | e <;>
      · simp only [Prog.pure_apply, Prog.panic_apply, List.append_nil]
        rw [fileSystemDeletes_append, hmt]
        simp [fileSystemDeletes]

theorem prune_fileSystemDeletes_initial (o : RangeOrder) (fuel : Nat) (desired : fileSystems) :
    ∀ (l : List (String × fileSystem)) (cur : fileSystems) (s : σ),
      fileSystemDeletes (ensureFileSystemState_prune B o fuel desired l cur s).log <+:
        (l.filter (fun x => !desired.has x.1)).map (fun x => x.2.fileSystemID) := by
  intro l
  induction l with
  | nil => intro cur s; simp [ensureFileSystemState_prune, fileSystemDeletes]
  | cons a rest ih =>
    intro cur s
    obtain ⟨fskey, currentfs⟩ := a
    unfold ensureFileSystemState_prune
    cases hd : GoMap.get? desired fskey with
    | some desiredfs =>
      simp only
      have hf : List.filter (fun x => !desired.has x.1) ((fskey, currentfs) :: rest) =
          List.filter (fun x => !desired.has x.1) rest := by
        simp [GoMap.has, hd]
      rw [hf]
      have hrm := fun s => fileSystemDeletes_eq_nil
        (removeAps_forall B currentfs.fileSystemID desiredfs.accessPoints
          (fun _ _ => by simp [fileSystemDeletes]) (o.currentAps currentfs.accessPoints) s)
      have had := fun s => fileSystemDeletes_eq_nil
        (addAps_forall B currentfs.fileSystemID (fun _ _ _ => by simp [fileSystemDeletes])
          (o.desiredAps desiredfs.accessPoints) currentfs.accessPoints s)
      refine Prog.bind_log_elim (P := fun lg => fileSystemDeletes lg <+:
        (List.filter (fun x => !desired.has x.1) rest).map (fun x => x.2.fileSystemID))
        _ _ s ?_ ?_
      · intro _
        rw [hrm]
        exact ⟨_, rfl⟩
      · intro _ _
        rw [fileSystemDeletes_append, hrm, List.nil_append]
        refine Prog.bind_log_elim (P := fun lg => fileSystemDeletes lg <+:
          (List.filter (fun x => !desired.has x.1) rest).map (fun x => x.2.fileSystemID))
          _ _ _ ?_ ?_
        · intro _
          rw [had]
          exact ⟨_, rfl⟩
        · intro aps _
          rw [fileSystemDeletes_append, had, List.nil_append]
          exact ih _ _
    | none =>
      simp only
      have hf : List.filter (fun x => !desired.has x.1) ((fskey, currentfs) :: rest) =
          (fskey, currentfs) :: List.filter (fun x => !desired.has x.1) rest := by
        simp [GoMap.has, hd]
      rw [hf]
      refine Prog.bind_log_elim (P := fun lg => fileSystemDeletes lg <+:
        ((fskey, currentfs) :: List.filter (fun x => !desired.has x.1) rest).map
          (fun x => x.2.fileSystemID)) _ _ s ?_ ?_
      · intro _
        exact (deleteFileSystem_fileSystemDeletes_initial B fuel _ s).trans ⟨_, rfl⟩
      · intro u hu
        cases u
        rw [fileSystemDeletes_append, deleteFileSystem_fileSystemDeletes B hu]
        exact (List.prefix_cons_inj _).mpr (ih _ _)

theorem reconcile_fileSystemDeletes_initial (o : RangeOrder) (fuel : Nat)
    (subnetIDs : List String) (sgid : String) (efsTag : Tag) (desired cur : fileSystems) (s : σ) :
    fileSystemDeletes
        (ensureFileSystemState_reconcile B o fuel subnetIDs sgid efsTag desired cur s).log <+:
      ((o.current cur).filter (fun x => !desired.has x.1)).map (fun x => x.2.fileSystemID) := by
  unfold ensureFileSystemState_reconcile
  refine Prog.bind_log_elim (P := fun lg => fileSystemDeletes lg <+:
    ((o.current cur).filter (fun x => !desired.has x.1)).map (fun x => x.2.fileSystemID))
    _ _ s ?_ ?_
  · intro _
    exact prune_fileSystemDeletes_initial B o fuel desired _ _ _
  · intro cur2 _
    have hprov : fileSystemDeletes (ensureFileSystemState_provision B o fuel subnetIDs sgid
        efsTag cur2 (o.desired desired)
        (ensureFileSystemState_prune B o fuel desired (o.current cur) cur s).st).log = [] := by
      apply fileSystemDeletes_eq_nil
      intro e he
      exact fileSystemDeletes_of_not_isDelete e
        (provision_no_delete B o fuel subnetIDs sgid efsTag cur2 _ _ e he)
    rw [fileSystemDeletes_append, hprov, List.append_nil]
    exact prune_fileSystemDeletes_initial B o fuel desired _ _ _

/-- A reconciliation that issued a provisioning request has finished
pruning. -/
theorem reconcile_prune_ok {o : RangeOrder} {fuel : Nat} {subnetIDs : List String}
    {sgid : String} {efsTag : Tag} {desired cur : fileSystems} {s : σ}
    (h : (ensureFileSystemState_reconcile B o fuel subnetIDs sgid efsTag desired cur s).out =
        .ok () ∨
      ∃ e ∈ (ensureFileSystemState_reconcile B o fuel subnetIDs sgid efsTag desired cur s).log,
        e.isProvision = true) :
    ∃ cur2, (ensureFileSystemState_prune B o fuel desired (o.current cur) cur s).out =
        .ok cur2 ∧
      (ensureFileSystemState_reconcile B o fuel subnetIDs sgid efsTag desired cur s).log =
        (ensureFileSystemState_prune B o fuel desired (o.current cur) cur s).log ++
          (ensureFileSystemState_provision B o fuel subnetIDs sgid efsTag cur2 (o.desired desired)
            (ensureFileSystemState_prune B o fuel desired (o.current cur) cur s).st).log := by
  unfold ensureFileSystemState_reconcile at h ⊢
  cases hp : (ensureFileSystemState_prune B o fuel desired (o.current cur) cur s).out with
  | ok cur2 =>
    refine ⟨cur2, rfl, ?_⟩
    rw [Prog.bind_apply, hp]
  | panic msg =>
    exfalso
    rw [Prog.bind_apply, hp] at h
    rcases h with h | ⟨e, he, hpr⟩
    · cases h
    · have := prune_no_provision B o fuel desired _ _ _ e he
      rw [hpr] at this
      cases this
  | timeout =>
    exfalso
    rw [Prog.bind_apply, hp] at h
    rcases h with h | ⟨e, he, hpr⟩
    · cases h
    · have := prune_no_provision B o fuel desired _ _ _ e he
      rw [hpr] at this
      cases this

/-- The mount-target deletes of a pruning that returns: for each file system
that is not desired, in iteration order, a listing of its mount targets
followed directly by one delete request for each mount target listed. -/
theorem prune_teardowns (o : RangeOrder) (fuel : Nat) (desired : fileSystems) :
    ∀ (l : List (String × fileSystem)) (cur : fileSystems) (s : σ) (cur2 : fileSystems),
      (ensureFileSystemState_prune B o fuel desired l cur s).out = .ok cur2 →
      ∃ firsts : List (List MountTargetDescription),
        firsts.length = (l.filter (fun x => !desired.has x.1)).length ∧
        mountTargetDeletes (ensureFileSystemState_prune B o fuel desired l cur s).log =
          ((l.filter (fun x => !desired.has x.1)).zip firsts).flatMap
            (fun p => p.2.map (fun mt => (p.1.2.fileSystemID, mt.MountTargetId))) ∧
        ∀ p ∈ (l.filter (fun x => !desired.has x.1)).zip firsts,
          ∃ replies : List (Reply Unit), replies.length = p.2.length ∧
            (Event.DescribeMountTargets p.1.2.fileSystemID (.ok p.2) ::
              List.zipWith
                (fun mt r => Event.DeleteMountTarget p.1.2.fileSystemID mt.MountTargetId r)
                p.2 replies) <:+:
              (ensureFileSystemState_prune B o fuel desired l cur s).log := by
  intro l
  induction l with
  | nil =>
    intro cur s cur2 _
    exact ⟨[], rfl, by simp [ensureFileSystemState_prune, mountTargetDeletes], by simp⟩
  | cons a rest ih =>
    intro cur s cur2 h
    obtain ⟨fskey, currentfs⟩ := a
    unfold ensureFileSystemState_prune at h ⊢
    cases hd : GoMap.get? desired fskey with
    | some desiredfs =>
      rw [hd] at h
      simp only at h ⊢
      have hf : List.filter (fun x => !desired.has x.1) ((fskey, currentfs) :: rest) =
          List.filter (fun x => !desired.has x.1) rest := by
        simp [GoMap.has, hd]
      rw [hf]
      obtain ⟨_, _, h2, hlog1, -⟩ := Prog.bind_ok_inv h
      obtain ⟨aps, _, h3, hlog2, -⟩ := Prog.bind_ok_inv h2
      obtain ⟨firsts, hlen, hmt, hinf⟩ := ih _ _ _ h3
      refine ⟨firsts, hlen, ?_, ?_⟩
      · rw [hlog1, hlog2, mountTargetDeletes_append, mountTargetDeletes_append, hmt,
          mountTargetDeletes_eq_nil (removeAps_forall B _ _
            (fun _ _ => by simp [mountTargetDeletes]) _ _),
          mountTargetDeletes_eq_nil (addAps_forall B _
            (fun _ _ _ => by simp [mountTargetDeletes]) _ _ _)]
        simp
      · intro p hp
        obtain ⟨replies, hrl, hin⟩ := hinf p hp
        refine ⟨replies, hrl, ?_⟩
        rw [hlog1, hlog2]
        exact hin.trans ((List.suffix_append _ _).isInfix.trans
          (List.suffix_append _ _).isInfix)
    | none =>
      rw [hd] at h
      simp only at h ⊢
      have hf : List.filter (fun x => !desired.has x.1) ((fskey, currentfs) :: rest) =
          (fskey, currentfs) :: List.filter (fun x => !desired.has x.1) rest := by
        simp [GoMap.has, hd]
      rw [hf]
      obtain ⟨_, h1, h2, hlog1, -⟩ := Prog.bind_ok_inv h
      obtain ⟨firsts, hlen, hmt, hinf⟩ := ih _ _ _ h2
      have hdel := deleteFileSystem_ok_log B h1
      have hmtok : (deleteMountTargets B fuel currentfs.fileSystemID s).out = .ok () := by
        unfold deleteFileSystem at h1
        obtain ⟨_, h5, -, -, -⟩ := Prog.bind_ok_inv h1
        exact h5
      obtain ⟨first, replies, tail, hrl, htail, hshape⟩ := deleteMountTargets_ok_shape B hmtok
      refine ⟨first :: firsts, by simp [hlen], ?_, ?_⟩
      · rw [hlog1, mountTargetDeletes_append, hmt, hdel, mountTargetDeletes_append, hshape]
        have hcons : Event.DescribeMountTargets currentfs.fileSystemID (.ok first) ::
            (List.zipWith
              (fun mt r => Event.DeleteMountTarget currentfs.fileSystemID mt.MountTargetId r)
              first replies ++ tail) =
            [Event.DescribeMountTargets currentfs.fileSystemID (.ok first)] ++
              (List.zipWith
                (fun mt r => Event.DeleteMountTarget currentfs.fileSystemID mt.MountTargetId r)
                first replies ++ tail) := rfl
        rw [hcons, mountTargetDeletes_append, mountTargetDeletes_append,
          mountTargetDeletes_zipWith _ _ _ hrl,
          mountTargetDeletes_eq_nil (fun e he => mountTargetDeletes_read e (htail e he))]
        simp [mountTargetDeletes]
      · intro p hp
        rw [List.zip_cons_cons] at hp
        rcases List.mem_cons.mp hp with hp1 | hp1
        · subst hp1
          refine ⟨replies, hrl, ?_⟩
          rw [hlog1, hdel, hshape]
          refine List.IsInfix.trans ?_ (List.prefix_append _ _).isInfix
          refine List.IsInfix.trans ?_ (List.prefix_append _ _).isInfix
          exact ⟨[], tail, by simp⟩
        · obtain ⟨replies2, hrl2, hin⟩ := hinf p hp1
          refine ⟨replies2, hrl2, ?_⟩
          rw [hlog1]
          exact hin.trans (List.suffix_append _ _).isInfix

end

section

variable {σ : Type} (B : Backend σ)

end

section

variable {σ : Type} (B : Backend σ)

/-- The request loop of deleteMountTargets returns when each of its delete
requests is answered with success or with "not found". -/
theorem deleteMountTargets_requests_returns (fsid : String) (mts : List MountTargetDescription)
    (s : σ) (h : ∀ e ∈ (deleteMountTargets_requests B fsid mts s).log, e.fatal = false) :
    (deleteMountTargets_requests B fsid mts s).out = .ok () := by
  have hex := deleteMountTargets_requests_explained B 1 fsid mts s
  have hnp : (deleteMountTargets_requests B fsid mts s).log.countP Event.pending = 0 := by
    rw [List.countP_eq_zero]
    exact deleteMountTargets_requests_forall B fsid (fun m r => by simp [Event.pending]) mts s
  cases hr : (deleteMountTargets_requests B fsid mts s).out with
  | ok u => rfl
  | panic msg =>
    obtain ⟨e, he, hfe⟩ := hex.1 msg hr
    have := h e he
    rw [hfe] at this
    cases this
  | timeout =>
    have := hex.2 hr
    omega

end

theorem accessPointCreates_filter_nil {l : List Event} {f : String}
    (h : ∀ e ∈ l, ∀ p ∈ accessPointCreates [e], p.2 ≠ f) :
    (accessPointCreates l).filter (fun p => p.2 = f) = [] := by
  rw [List.filter_eq_nil_iff]
  intro p hp
  unfold accessPointCreates at hp
  obtain ⟨e, he, hpe⟩ := List.mem_filterMap.mp hp
  have := h e he p (by
    unfold accessPointCreates
    simp only [List.filterMap_cons, List.filterMap_nil]
    rw [hpe]
    exact List.mem_singleton_self _)
  simpa using this

theorem accessPointDeletes_filter_nil {l : List Event} {f : String}
    (h : ∀ e ∈ l, ∀ p ∈ accessPointDeletes [e], p.1 ≠ f) :
    (accessPointDeletes l).filter (fun p => p.1 = f) = [] := by
  rw [List.filter_eq_nil_iff]
  intro p hp
  unfold accessPointDeletes at hp
  obtain ⟨e, he, hpe⟩ := List.mem_filterMap.mp hp
  have := h e he p (by
    unfold accessPointDeletes
    simp only [List.filterMap_cons, List.filterMap_nil]
    rw [hpe]
    exact List.mem_singleton_self _)
  simpa using this

theorem Prog.log_bind_initial {σ α β : Type} (m : Prog σ α) (f : α → Prog σ β) (s : σ) :
    (m s).log <+: ((m >>= f) s).log := by
  rw [Prog.bind_apply]
  cases (m s).out with
  | ok a => exact List.prefix_append _ _
  | panic msg => exact ⟨[], List.append_nil _⟩
  | timeout => exact ⟨[], List.append_nil _⟩

section

variable {σ : Type} (B : Backend σ)

theorem removeAps_accessPointDeletes_initial (fsid : String) (desiredAps : accessPoints) :
    ∀ (l : List (String × String)) (s : σ),
      accessPointDeletes (ensureFileSystemState_removeAps B fsid desiredAps l s).log <+:
        (l.filter (fun a => !desiredAps.has a.1)).map (fun a => (fsid, a.2)) := by
  intro l
  induction l with
  | nil => intro s; simp [ensureFileSystemState_removeAps, accessPointDeletes]
  | cons a rest ih =>
    intro s
    obtain ⟨apkey, currentap⟩ := a
    unfold ensureFileSystemState_removeAps
    by_cases hh : GoMap.has desiredAps apkey = true
    · simp only [hh, if_true]
      have hf : List.filter (fun a => !GoMap.has desiredAps a.1) ((apkey, currentap) :: rest) =
          List.filter (fun a => !GoMap.has desiredAps a.1) rest := by
        simp [hh]
      rw [hf]
      exact ih s
    · simp only [hh, Bool.false_eq_true, if_false]
      have hf : List.filter (fun a => !GoMap.has desiredAps a.1) ((apkey, currentap) :: rest) =
          (apkey, currentap) :: List.filter (fun a => !GoMap.has desiredAps a.1) rest := by
        simp [hh]
      rw [hf]
      have hone : ∀ s, accessPointDeletes (deleteAccessPoint B fsid currentap s).log =
          [(fsid, currentap)] := by
        intro s
        rw [deleteAccessPoint_log]
        simp [accessPointDeletes]
      refine Prog.bind_log_elim (P := fun lg => accessPointDeletes lg <+:
        ((apkey, currentap) :: List.filter (fun a => !GoMap.has desiredAps a.1) rest).map
          (fun a => (fsid, a.2))) _ _ s ?_ ?_
      · intro _
        rw [hone]
        exact ⟨_, rfl⟩
      · intro _ _
        rw [accessPointDeletes_append, hone]
        exact (List.prefix_cons_inj _).mpr (ih _)

theorem addAps_accessPointCreates_initial (fsid : String) :
    ∀ (l : List (String × String)) (aps : accessPoints) (s : σ),
      (l.map Prod.fst).Nodup →
      accessPointCreates (ensureFileSystemState_addAps B fsid l aps s).log <+:
        (l.filter (fun a => !aps.has a.1)).map
          (fun a => (sprintfToken apTokenMarker a.1, fsid)) := by
  intro l
  induction l with
  | nil => intro aps s _; simp [ensureFileSystemState_addAps, accessPointCreates]
  | cons x rest ih =>
    intro aps s hn
    obtain ⟨apkey, v⟩ := x
    simp only [List.map_cons, List.nodup_cons] at hn
    unfold ensureFileSystemState_addAps
    by_cases hh : GoMap.has aps apkey = true
    · simp only [hh, if_true]
      have hf : List.filter (fun a => !GoMap.has aps a.1) ((apkey, v) :: rest) =
          List.filter (fun a => !GoMap.has aps a.1) rest := by
        simp [hh]
      rw [hf]
      exact ih aps s hn.2
    · simp only [hh, Bool.false_eq_true, if_false]
      have hf : List.filter (fun a => !GoMap.has aps a.1) ((apkey, v) :: rest) =
          (apkey, v) :: List.filter (fun a => !GoMap.has aps a.1) rest := by
        simp [hh]
      rw [hf]
      have hone : ∀ s, accessPointCreates (newAccessPoint B fsid apkey s).log =
          [(sprintfToken apTokenMarker apkey, fsid)] := by
        intro s
        rw [newAccessPoint_log]
        simp [accessPointCreates]
      have hfilter : ∀ apid, rest.filter (fun a => !GoMap.has (GoMap.set aps apkey apid) a.1) =
          rest.filter (fun a => !GoMap.has aps a.1) := by
        intro apid
        apply List.filter_congr
        intro a ha
        have hne : apkey ≠ a.1 := by
          intro hc
          exact hn.1 (hc ▸ List.mem_map_of_mem Prod.fst ha)
        have := GoMap.has_set aps apkey a.1 apid
        cases h1 : GoMap.has (GoMap.set aps apkey apid) a.1 <;>
          cases h2 : GoMap.has aps a.1 <;> simp_all
      refine Prog.bind_log_elim (P := fun lg => accessPointCreates lg <+:
        ((apkey, v) :: List.filter (fun a => !GoMap.has aps a.1) rest).map
          (fun a => (sprintfToken apTokenMarker a.1, fsid))) _ _ s ?_ ?_
      · intro _
        rw [hone]
        exact ⟨_, rfl⟩
      · intro apid _
        rw [accessPointCreates_append, hone]
        have := ih (GoMap.set aps apkey apid) (newAccessPoint B fsid apkey s).st hn.2
        rw [hfilter] at this
        exact (List.prefix_cons_inj _).mpr this

end

theorem foreign_of_isRead (f : String) (e : Event) (h : e.isRead = true) :
    (∀ p ∈ accessPointDeletes [e], p.1 ≠ f) ∧ (∀ p ∈ accessPointCreates [e], p.2 ≠ f) := by
  rw [accessPointDeletes_read e h, accessPointCreates_read e h]
  simp

theorem foreign_of_ne {f fsid : String} (h : fsid ≠ f) :
    (∀ apid r, (∀ p ∈ accessPointDeletes [Event.DeleteAccessPoint fsid apid r], p.1 ≠ f) ∧
      (∀ p ∈ accessPointCreates [Event.DeleteAccessPoint fsid apid r], p.2 ≠ f)) ∧
    (∀ token path r,
      (∀ p ∈ accessPointDeletes [Event.CreateAccessPoint token fsid path r], p.1 ≠ f) ∧
      (∀ p ∈ accessPointCreates [Event.CreateAccessPoint token fsid path r], p.2 ≠ f)) := by
  constructor
  · intro apid r
    simp [accessPointDeletes, accessPointCreates, h]
  · intro token path r
    simp [accessPointDeletes, accessPointCreates, h]

section

variable {σ : Type} (B : Backend σ)

/-- The sequential pass over entries none of which has the id `f` issues no
access-point request for `f`. -/
theorem prune_foreign (o : RangeOrder) (fuel : Nat) (desired : fileSystems) (f : String) :
    ∀ (l : List (String × fileSystem)) (cur : fileSystems) (s : σ),
      (∀ x ∈ l, x.2.fileSystemID ≠ f) →
      ∀ e ∈ (ensureFileSystemState_prune B o fuel desired l cur s).log,
        (∀ p ∈ accessPointDeletes [e], p.1 ≠ f) ∧ (∀ p ∈ accessPointCreates [e], p.2 ≠ f) := by
  intro l
  induction l with
  | nil => intro cur s _; simp [ensureFileSystemState_prune]
  | cons a rest ih =>
    intro cur s hne
    obtain ⟨fskey, currentfs⟩ := a
    have hne1 : currentfs.fileSystemID ≠ f := hne (fskey, currentfs) (List.mem_cons_self _ _)
    have hner : ∀ x ∈ rest, x.2.fileSystemID ≠ f := fun x hx => hne x (List.mem_cons_of_mem _ hx)
    unfold ensureFileSystemState_prune
    cases hd : GoMap.get? desired fskey with
    | some desiredfs =>
      simp only
      apply Prog.forall_log_bind
      · exact removeAps_forall B _ _ (foreign_of_ne hne1).1 _ s
      intro _ s1
      apply Prog.forall_log_bind
      · exact addAps_forall B _ (foreign_of_ne hne1).2 _ _ s1
      intro aps s2
      exact ih _ s2 hner
    | none =>
      simp only
      apply Prog.forall_log_bind
      · exact deleteFileSystem_forall B fuel _ s (foreign_of_isRead f)
          (fun _ _ => by simp [accessPointDeletes, accessPointCreates])
          (fun _ => by simp [accessPointDeletes, accessPointCreates])
      intro _ s1
      exact ih _ s1 hner

theorem prune_foreign_filters (o : RangeOrder) (fuel : Nat) (desired : fileSystems) (f : String)
    (l : List (String × fileSystem)) (cur : fileSystems) (s : σ)
    (hne : ∀ x ∈ l, x.2.fileSystemID ≠ f) :
    (accessPointDeletes (ensureFileSystemState_prune B o fuel desired l cur s).log).filter
        (fun p => p.1 = f) = [] ∧
    (accessPointCreates (ensureFileSystemState_prune B o fuel desired l cur s).log).filter
        (fun p => p.2 = f) = [] :=
  ⟨accessPointDeletes_filter_nil (fun e he => (prune_foreign B o fuel desired f l cur s hne e
      he).1),
    accessPointCreates_filter_nil (fun e he => (prune_foreign B o fuel desired f l cur s hne e
      he).2)⟩

/-- The access-point requests that the sequential pass issues against the
file system id of one retained entry, when no other entry has that id,
whatever the outcome of the pass: initial segments of the deletes and of the
creates that the diff calls for. -/
theorem prune_ap_filter_initial (o : RangeOrder) (fuel : Nat) (desired : fileSystems) (k : String)
    (cfs dfs : fileSystem) (hd : desired.get? k = some dfs)
    (hnd : ((o.desiredAps dfs.accessPoints).map Prod.fst).Nodup) :
    ∀ (l : List (String × fileSystem)) (cur : fileSystems) (s : σ),
      (l.map Prod.fst).Nodup →
      (∀ x ∈ l, x.2.fileSystemID = cfs.fileSystemID → x.1 = k) →
      (k, cfs) ∈ l →
      (accessPointDeletes (ensureFileSystemState_prune B o fuel desired l cur s).log).filter
          (fun p => p.1 = cfs.fileSystemID) <+:
        ((o.currentAps cfs.accessPoints).filter (fun a => !dfs.accessPoints.has a.1)).map
          (fun a => (cfs.fileSystemID, a.2)) ∧
      (accessPointCreates (ensureFileSystemState_prune B o fuel desired l cur s).log).filter
          (fun p => p.2 = cfs.fileSystemID) <+:
        ((o.desiredAps dfs.accessPoints).filter (fun a => !cfs.accessPoints.has a.1)).map
          (fun a => (sprintfToken apTokenMarker a.1, cfs.fileSystemID)) := by
  intro l
  induction l with
  | nil => intro cur s _ _ hmem; cases hmem
  | cons x rest ih =>
    intro cur s hn hid hmem
    obtain ⟨fskey, currentfs⟩ := x
    simp only [List.map_cons, List.nodup_cons] at hn
    have hidr : ∀ x ∈ rest, x.2.fileSystemID = cfs.fileSystemID → x.1 = k :=
      fun x hx => hid x (List.mem_cons_of_mem _ hx)
    by_cases hk : fskey = k
    · subst hk
      have hcfs : cfs = currentfs := by
        rcases List.mem_cons.mp hmem with h5 | h5
        · cases h5; rfl
        · exact absurd (List.mem_map_of_mem Prod.fst h5) hn.1
      subst hcfs
      have hrest : ∀ x ∈ rest, x.2.fileSystemID ≠ cfs.fileSystemID := by
        intro x hx hc
        exact hn.1 (hidr x hx hc ▸ List.mem_map_of_mem Prod.fst hx)
      have hfD : ∀ (l : List (String × String)),
          (l.map (fun a => (cfs.fileSystemID, a.2))).filter
            (fun p => p.1 = cfs.fileSystemID) = l.map (fun a => (cfs.fileSystemID, a.2)) := by
        intro l
        rw [List.filter_eq_self]
        intro p hp
        obtain ⟨a, _, rfl⟩ := List.mem_map.mp hp
        simp
      have hfC : ∀ (l : List (String × String)),
          (l.map (fun a => (sprintfToken apTokenMarker a.1, cfs.fileSystemID))).filter
            (fun p => p.2 = cfs.fileSystemID) =
          l.map (fun a => (sprintfToken apTokenMarker a.1, cfs.fileSystemID)) :=
        fun l => filter_map_eq_self_of_eq _ _ _ (fun _ _ => rfl)
      have hrmC : ∀ s, accessPointCreates (ensureFileSystemState_removeAps B cfs.fileSystemID
          dfs.accessPoints (o.currentAps cfs.accessPoints) s).log = [] := fun s =>
        accessPointCreates_eq_nil (removeAps_forall B _ _
          (fun _ _ => by simp [accessPointCreates]) _ _)
      have hadD : ∀ s, accessPointDeletes (ensureFileSystemState_addAps B cfs.fileSystemID
          (o.desiredAps dfs.accessPoints) cfs.accessPoints s).log = [] := fun s =>
        accessPointDeletes_eq_nil (addAps_forall B _
          (fun _ _ _ => by simp [accessPointDeletes]) _ _ _)
      unfold ensureFileSystemState_prune
      rw [hd]
      simp only
      refine Prog.bind_log_elim (P := fun lg =>
        (accessPointDeletes lg).filter (fun p => p.1 = cfs.fileSystemID) <+:
          ((o.currentAps cfs.accessPoints).filter (fun a => !dfs.accessPoints.has a.1)).map
            (fun a => (cfs.fileSystemID, a.2)) ∧
        (accessPointCreates lg).filter (fun p => p.2 = cfs.fileSystemID) <+:
          ((o.desiredAps dfs.accessPoints).filter (fun a => !cfs.accessPoints.has a.1)).map
            (fun a => (sprintfToken apTokenMarker a.1, cfs.fileSystemID))) _ _ s ?_ ?_
      · intro _
        constructor
        · have := (removeAps_accessPointDeletes_initial B cfs.fileSystemID dfs.accessPoints
            (o.currentAps cfs.accessPoints) s).filter (fun p => p.1 = cfs.fileSystemID)
          rw [hfD] at this
          exact this
        · rw [hrmC]
          exact ⟨_, rfl⟩
      · intro u hrem
        cases u
        rw [accessPointDeletes_append, accessPointCreates_append, List.filter_append,
          List.filter_append, hrmC, removeAps_accessPointDeletes B _ _ _ _ hrem, hfD]
        simp only [List.filter_nil, List.nil_append]
        refine Prog.bind_log_elim (P := fun lg =>
          ((o.currentAps cfs.accessPoints).filter (fun a => !dfs.accessPoints.has a.1)).map
              (fun a => (cfs.fileSystemID, a.2)) ++
            (accessPointDeletes lg).filter (fun p => p.1 = cfs.fileSystemID) <+:
            ((o.currentAps cfs.accessPoints).filter (fun a => !dfs.accessPoints.has a.1)).map
              (fun a => (cfs.fileSystemID, a.2)) ∧
          (accessPointCreates lg).filter (fun p => p.2 = cfs.fileSystemID) <+:
            ((o.desiredAps dfs.accessPoints).filter (fun a => !cfs.accessPoints.has a.1)).map
              (fun a => (sprintfToken apTokenMarker a.1, cfs.fileSystemID))) _ _ _ ?_ ?_
        · intro _
          constructor
          · rw [hadD]
            simp
          · have := (addAps_accessPointCreates_initial B cfs.fileSystemID
              (o.desiredAps dfs.accessPoints) cfs.accessPoints
              (ensureFileSystemState_removeAps B cfs.fileSystemID dfs.accessPoints
                (o.currentAps cfs.accessPoints) s).st hnd).filter
              (fun p => p.2 = cfs.fileSystemID)
            rw [hfC] at this
            exact this
        · intro aps hadd
          obtain ⟨hrD, hrC⟩ := prune_foreign_filters B o fuel desired cfs.fileSystemID rest
            (GoMap.set cur fskey { cfs with accessPoints := aps })
            (ensureFileSystemState_addAps B cfs.fileSystemID (o.desiredAps dfs.accessPoints)
              cfs.accessPoints
              (ensureFileSystemState_removeAps B cfs.fileSystemID dfs.accessPoints
                (o.currentAps cfs.accessPoints) s).st).st hrest
          rw [accessPointDeletes_append, accessPointCreates_append, List.filter_append,
            List.filter_append, hadD, hrD, hrC,
            addAps_accessPointCreates B _ _ _ _ _ hadd hnd, hfC]
          simp
    · have hne : currentfs.fileSystemID ≠ cfs.fileSystemID :=
        fun hc => hk (hid (fskey, currentfs) (List.mem_cons_self _ _) hc)
      have hmemr : (k, cfs) ∈ rest := by
        rcases List.mem_cons.mp hmem with h5 | h5
        · cases h5
          exact absurd rfl hk
        · exact h5
      unfold ensureFileSystemState_prune
      cases hdk : GoMap.get? desired fskey with
      | some desiredfs =>
        simp only
        have hrm := fun s => removeAps_forall B (P := fun e => (∀ p ∈ accessPointDeletes [e], p.1 ≠ cfs.fileSystemID) ∧
            (∀ p ∈ accessPointCreates [e], p.2 ≠ cfs.fileSystemID))
          currentfs.fileSystemID desiredfs.accessPoints
          (foreign_of_ne hne).1 (o.currentAps currentfs.accessPoints) s
        have had := fun s => addAps_forall B (P := fun e => (∀ p ∈ accessPointDeletes [e], p.1 ≠ cfs.fileSystemID) ∧
            (∀ p ∈ accessPointCreates [e], p.2 ≠ cfs.fileSystemID))
          currentfs.fileSystemID (foreign_of_ne hne).2
          (o.desiredAps desiredfs.accessPoints) currentfs.accessPoints s
        refine Prog.bind_log_elim (P := fun lg =>
          (accessPointDeletes lg).filter (fun p => p.1 = cfs.fileSystemID) <+:
            ((o.currentAps cfs.accessPoints).filter (fun a => !dfs.accessPoints.has a.1)).map
              (fun a => (cfs.fileSystemID, a.2)) ∧
          (accessPointCreates lg).filter (fun p => p.2 = cfs.fileSystemID) <+:
            ((o.desiredAps dfs.accessPoints).filter (fun a => !cfs.accessPoints.has a.1)).map
              (fun a => (sprintfToken apTokenMarker a.1, cfs.fileSystemID))) _ _ s ?_ ?_
        · intro _
          rw [accessPointDeletes_filter_nil (fun e he => (hrm s e he).1),
            accessPointCreates_filter_nil (fun e he => (hrm s e he).2)]
          exact ⟨⟨_, rfl⟩, ⟨_, rfl⟩⟩
        · intro _ _
          rw [accessPointDeletes_append, accessPointCreates_append, List.filter_append,
            List.filter_append, accessPointDeletes_filter_nil (fun e he => (hrm s e he).1),
            accessPointCreates_filter_nil (fun e he => (hrm s e he).2)]
          simp only [List.nil_append]
          refine Prog.bind_log_elim (P := fun lg =>
            (accessPointDeletes lg).filter (fun p => p.1 = cfs.fileSystemID) <+:
              ((o.currentAps cfs.accessPoints).filter (fun a => !dfs.accessPoints.has a.1)).map
                (fun a => (cfs.fileSystemID, a.2)) ∧
            (accessPointCreates lg).filter (fun p => p.2 = cfs.fileSystemID) <+:
              ((o.desiredAps dfs.accessPoints).filter (fun a => !cfs.accessPoints.has a.1)).map
                (fun a => (sprintfToken apTokenMarker a.1, cfs.fileSystemID))) _ _ _ ?_ ?_
          · intro _
            rw [accessPointDeletes_filter_nil (fun e he => (had _ e he).1),
              accessPointCreates_filter_nil (fun e he => (had _ e he).2)]
            exact ⟨⟨_, rfl⟩, ⟨_, rfl⟩⟩
          · intro aps _
            rw [accessPointDeletes_append, accessPointCreates_append, List.filter_append,
              List.filter_append, accessPointDeletes_filter_nil (fun e he => (had _ e he).1),
              accessPointCreates_filter_nil (fun e he => (had _ e he).2)]
            simp only [List.nil_append]
            exact ih _ _ hn.2 hidr hmemr
      | none =>
        simp only
        have hdl := fun s => deleteFileSystem_forall B (P := fun e => (∀ p ∈ accessPointDeletes [e], p.1 ≠ cfs.fileSystemID) ∧
            (∀ p ∈ accessPointCreates [e], p.2 ≠ cfs.fileSystemID))
          fuel currentfs.fileSystemID s
          (foreign_of_isRead cfs.fileSystemID)
          (fun _ _ => by simp [accessPointDeletes, accessPointCreates])
          (fun _ => by simp [accessPointDeletes, accessPointCreates])
        refine Prog.bind_log_elim (P := fun lg =>
          (accessPointDeletes lg).filter (fun p => p.1 = cfs.fileSystemID) <+:
            ((o.currentAps cfs.accessPoints).filter (fun a => !dfs.accessPoints.has a.1)).map
              (fun a => (cfs.fileSystemID, a.2)) ∧
          (accessPointCreates lg).filter (fun p => p.2 = cfs.fileSystemID) <+:
            ((o.desiredAps dfs.accessPoints).filter (fun a => !cfs.accessPoints.has a.1)).map
              (fun a => (sprintfToken apTokenMarker a.1, cfs.fileSystemID))) _ _ s ?_ ?_
        · intro _
          rw [accessPointDeletes_filter_nil (fun e he => (hdl s e he).1),
            accessPointCreates_filter_nil (fun e he => (hdl s e he).2)]
          exact ⟨⟨_, rfl⟩, ⟨_, rfl⟩⟩
        · intro _ _
          rw [accessPointDeletes_append, accessPointCreates_append, List.filter_append,
            List.filter_append, accessPointDeletes_filter_nil (fun e he => (hdl s e he).1),
            accessPointCreates_filter_nil (fun e he => (hdl s e he).2)]
          simp only [List.nil_append]
          exact ih _ _ hn.2 hidr hmemr

end

section

variable {σ : Type} (B : Backend σ)

/-! ## The concurrent pass and the access points of a retained file system -/

/-- A unit that finds its file system with every desired access point, or
that creates its file system with an id other than `f`, issues no
CreateAccessPoint request targeting `f`, whatever its outcome. -/
theorem unit_ap_foreign (o : RangeOrder) (fuel : Nat) (subnetIDs : List String) (sgid : String)
    (efsTag : Tag) (cur : fileSystems) (fskey : String) (desiredfs : fileSystem) (s : σ)
    (f : String)
    (hcov : ∀ cfs2, cur.get? fskey = some cfs2 →
      ∀ a ∈ o.unitAps desiredfs.accessPoints, cfs2.accessPoints.has a.1 = true)
    (hnew : ∀ p ∈ fileSystemCreates
      (ensureFileSystemState_unit B o fuel subnetIDs sgid efsTag cur fskey desiredfs s).log,
      p.2 ≠ some f) :
    ∀ e ∈ (ensureFileSystemState_unit B o fuel subnetIDs sgid efsTag cur fskey desiredfs s).log,
      ∀ p ∈ accessPointCreates [e], p.2 ≠ f := by
  cases hget : GoMap.get? cur fskey with
  | some cfs2 =>
    exact unit_converged_forall B (P := fun e => ∀ p ∈ accessPointCreates [e], p.2 ≠ f)
      o fuel subnetIDs sgid efsTag cur fskey desiredfs cfs2 s hget (hcov cfs2 hget)
      (fun e he => by
        show ∀ p ∈ accessPointCreates [e], p.2 ≠ f
        rw [accessPointCreates_read e he]
        simp)
      (fun _ _ => by simp [accessPointCreates])
  | none =>
    unfold ensureFileSystemState_unit at hnew ⊢
    rw [hget] at hnew ⊢
    simp only at hnew ⊢
    apply Prog.forall_log_bind_ok
    · apply Prog.forall_log_bind
      · rw [newFileSystem_log]
        simp [accessPointCreates]
      · intro _ _
        simp
    · intro currentfs hok
      obtain ⟨fsid, hnf, hpure, hlog0, -⟩ := Prog.bind_ok_inv hok
      simp only [Prog.pure_apply, Outcome.ok.injEq] at hpure
      obtain ⟨dsc, hdsc, hdid⟩ := newFileSystem_ok B hnf
      have hne : currentfs.fileSystemID ≠ f := by
        intro hc
        obtain ⟨t, ht⟩ := Prog.log_bind_initial
          (newFileSystem B subnetIDs sgid efsTag fskey >>= fun fsid =>
            (pure { fileSystemID := fsid, lastLifeCycleState := "", accessPoints := [] } :
              Prog σ fileSystem))
          (fun currentfs => do
            waitForFSAvailable B fuel currentfs
            ensureMountTargets B fuel currentfs.fileSystemID subnetIDs sgid
            ensureFileSystemState_unitAps B currentfs.fileSystemID currentfs.accessPoints
              (o.unitAps desiredfs.accessPoints)
            waitForAccessPointsAvailable B currentfs.fileSystemID fuel) s
        have hmem := hnew (sprintfToken fsTokenMarker fskey, some fsid) (by
          rw [← ht, fileSystemCreates_append, hlog0, fileSystemCreates_append, newFileSystem_log,
            hdsc]
          simp [fileSystemCreates, hdid])
        apply hmem
        rw [← hc, ← hpure]
      apply Prog.forall_log_bind
      · intro e he p hp
        rw [accessPointCreates_read e (waitForFSAvailable_isRead B fuel currentfs _ e he)] at hp
        cases hp
      intro _ s2
      apply Prog.forall_log_bind
      · exact ensureMountTargets_forall B fuel _ subnetIDs sgid s2
          (fun e he => by
        show ∀ p ∈ accessPointCreates [e], p.2 ≠ f
        rw [accessPointCreates_read e he]
        simp)
          (fun _ _ => by simp [accessPointCreates])
      intro _ s3
      apply Prog.forall_log_bind
      · exact unitAps_forall B _ _ (fun _ _ _ => by simp [accessPointCreates, hne]) _ s3
      intro _ s4 e he p hp
      rw [accessPointCreates_read e (waitForAccessPointsAvailable_isRead B _ fuel s4 e he)] at hp
      cases hp

theorem provision_ap_foreign (o : RangeOrder) (fuel : Nat) (subnetIDs : List String)
    (sgid : String) (efsTag : Tag) (cur : fileSystems) (f : String) :
    ∀ (l : List (String × fileSystem)) (s : σ),
      (∀ x ∈ l, ∀ cfs, cur.get? x.1 = some cfs →
        ∀ a ∈ o.unitAps x.2.accessPoints, cfs.accessPoints.has a.1 = true) →
      (∀ p ∈ fileSystemCreates
        (ensureFileSystemState_provision B o fuel subnetIDs sgid efsTag cur l s).log,
        p.2 ≠ some f) →
      ∀ e ∈ (ensureFileSystemState_provision B o fuel subnetIDs sgid efsTag cur l s).log,
        ∀ p ∈ accessPointCreates [e], p.2 ≠ f := by
  intro l
  induction l with
  | nil => intro s _ _; simp [ensureFileSystemState_provision]
  | cons x rest ih =>
    intro s hcov hnew
    obtain ⟨fskey, desiredfs⟩ := x
    unfold ensureFileSystemState_provision at hnew ⊢
    apply Prog.forall_log_bind_ok
    · apply unit_ap_foreign B o fuel subnetIDs sgid efsTag cur fskey desiredfs s f
        (hcov (fskey, desiredfs) (List.mem_cons_self _ _))
      intro p hp
      obtain ⟨t, ht⟩ := Prog.log_bind_initial
        (ensureFileSystemState_unit B o fuel subnetIDs sgid efsTag cur fskey desiredfs)
        (fun _ => ensureFileSystemState_provision B o fuel subnetIDs sgid efsTag cur rest) s
      apply hnew p
      rw [← ht, fileSystemCreates_append]
      exact List.mem_append_left _ hp
    · intro u hu
      apply ih _ (fun x hx => hcov x (List.mem_cons_of_mem _ hx))
      intro p hp
      apply hnew p
      rw [Prog.bind_of_ok hu]
      simp only [fileSystemCreates_append]
      exact List.mem_append_right _ hp

/-! ## The ids of the discovered graph -/

theorem getFileSystems_loop_ids :
    ∀ (fslist : List FileSystemDescription) (fsmap : fileSystems) (s : σ) (g : fileSystems),
      (getFileSystems_loop B fslist fsmap s).out = .ok g →
      ∀ k fs, g.get? k = some fs → fsmap.get? k = some fs ∨
        ∃ fsd ∈ fslist, tokenKey fsTokenMarker fsd.CreationToken = some k ∧
          fs.fileSystemID = fsd.FileSystemId := by
  intro fslist
  induction fslist with
  | nil =>
    intro fsmap s g h k fs hfs
    simp [getFileSystems_loop] at h
    exact Or.inl (h ▸ hfs)
  | cons fsd rest ih =>
    intro fsmap s g h k fs hfs
    unfold getFileSystems_loop at h
    cases hk : tokenKey fsTokenMarker fsd.CreationToken with
    | none =>
      rw [hk] at h
      rcases ih fsmap s g h k fs hfs with h1 | ⟨d, hd, h1⟩
      · exact Or.inl h1
      · exact Or.inr ⟨d, List.mem_cons_of_mem _ hd, h1⟩
    | some fsKey =>
      rw [hk] at h
      simp only at h
      obtain ⟨r, _, h2, -, -⟩ := Prog.bind_ok_inv h
      rcases r with aplist | e
      · rcases ih _ _ g h2 k fs hfs with h1 | ⟨d, hd, h1⟩
        · rw [GoMap.get?_set] at h1
          by_cases hkk : fsKey = k
          · simp only [hkk, if_true, Option.some.injEq] at h1
            subst h1
            exact Or.inr ⟨fsd, List.mem_cons_self _ _, by rw [hk, hkk], rfl⟩
          · simp only [hkk, if_false] at h1
            exact Or.inl h1
        · exact Or.inr ⟨d, List.mem_cons_of_mem _ hd, h1⟩
      · simp at h2

/-- Every entry of the graph that discovery returns was built from a file
system of the listing, with the id listed for it. -/
theorem discover_graph_ids {s : σ} {d : Discovery}
    (hd : (ensureFileSystemState_discover B s).out = .ok d) :
    ∃ fslist, Event.DescribeFileSystems none (.ok fslist) ∈
        (ensureFileSystemState_discover B s).log ∧
      ∀ k fs, d.currentState.get? k = some fs →
        ∃ fsd ∈ fslist, tokenKey fsTokenMarker fsd.CreationToken = some k ∧
          fs.fileSystemID = fsd.FileSystemId := by
  unfold ensureFileSystemState_discover at hd ⊢
  obtain ⟨_, _, h1, hl1, -⟩ := Prog.bind_ok_inv hd
  obtain ⟨_, _, h2, hl2, -⟩ := Prog.bind_ok_inv h1
  obtain ⟨_, _, h3, hl3, -⟩ := Prog.bind_ok_inv h2
  obtain ⟨_, _, h4, hl4, -⟩ := Prog.bind_ok_inv h3
  obtain ⟨_, _, h5, hl5, -⟩ := Prog.bind_ok_inv h4
  obtain ⟨cur, hcur, h6, hl6, -⟩ := Prog.bind_ok_inv h5
  simp only [Prog.pure_apply, Outcome.ok.injEq] at h6
  subst h6
  simp only
  rw [hl1, hl2, hl3, hl4, hl5, hl6]
  unfold getFileSystems at hcur
  obtain ⟨r, hr, h7, hl7, -⟩ := Prog.bind_ok_inv hcur
  simp only [Prog.call_apply, Outcome.ok.injEq] at hr
  rcases r with fslist | e
  · refine ⟨fslist, ?_, ?_⟩
    · apply List.mem_append_right
      apply List.mem_append_right
      apply List.mem_append_right
      apply List.mem_append_right
      apply List.mem_append_right
      apply List.mem_append_left
      unfold getFileSystems
      rw [hl7]
      apply List.mem_append_left
      simp [Prog.call_apply, hr]
    · intro k fs hfs
      rcases getFileSystems_loop_ids B fslist [] _ cur h7 k fs hfs with h8 | h8
      · simp [GoMap.get?] at h8
      · exact h8
  · simp at h7

end

section

variable {σ : Type} (B : Backend σ)

/-- The access-point requests that a reconciliation issues for one file
system that is both current and desired, whatever its outcome: initial
segments of the deletes and of the creates that the diff calls for. -/
theorem reconcile_access_point_diff_initial (o : RangeOrder) (fuel : Nat)
    (subnetIDs : List String) (sgid : String) (efsTag : Tag) (desired current : fileSystems)
    (s : σ) (k : String) (cfs dfs : fileSystem)
    (hv : o.Valid) (hcurN : current.keys.Nodup) (hdesN : desired.keys.Nodup)
    (hk : current.get? k = some cfs) (hd : desired.get? k = some dfs)
    (hapN : dfs.accessPoints.keys.Nodup)
    (hid : ∀ k2 fs2, current.get? k2 = some fs2 → fs2.fileSystemID = cfs.fileSystemID → k2 = k)
    (hnew : ∀ p ∈ fileSystemCreates
      (ensureFileSystemState_reconcile B o fuel subnetIDs sgid efsTag desired current s).log,
      p.2 ≠ some cfs.fileSystemID) :
    (accessPointDeletes
        (ensureFileSystemState_reconcile B o fuel subnetIDs sgid efsTag desired current s).log).filter
        (fun p => p.1 = cfs.fileSystemID) <+:
      ((o.currentAps cfs.accessPoints).filter (fun a => !dfs.accessPoints.has a.1)).map
        (fun a => (cfs.fileSystemID, a.2)) ∧
    (accessPointCreates
        (ensureFileSystemState_reconcile B o fuel subnetIDs sgid efsTag desired current s).log).filter
        (fun p => p.2 = cfs.fileSystemID) <+:
      ((o.desiredAps dfs.accessPoints).filter (fun a => !cfs.accessPoints.has a.1)).map
        (fun a => (sprintfToken apTokenMarker a.1, cfs.fileSystemID)) := by
  obtain ⟨hv1, hv2, hv3, hv4, hv5⟩ := hv
  have hmem : (k, cfs) ∈ o.current current := (hv1 current).mem_iff.mpr (GoMap.mem_of_get? hk)
  have hlN : ((o.current current).map Prod.fst).Nodup :=
    ((hv1 current).map Prod.fst).nodup_iff.mpr hcurN
  have hndA : ((o.desiredAps dfs.accessPoints).map Prod.fst).Nodup :=
    ((hv3 dfs.accessPoints).map Prod.fst).nodup_iff.mpr hapN
  have hidl : ∀ x ∈ o.current current, x.2.fileSystemID = cfs.fileSystemID → x.1 = k := by
    intro x hx hxid
    have hx2 : (x.1, x.2) ∈ current := (hv1 current).mem_iff.mp hx
    exact hid x.1 x.2 (GoMap.get?_of_mem hcurN hx2) hxid
  have hpre := prune_ap_filter_initial B o fuel desired k cfs dfs hd hndA (o.current current)
    current s hlN hidl hmem
  unfold ensureFileSystemState_reconcile at hnew ⊢
  cases hp : (ensureFileSystemState_prune B o fuel desired (o.current current) current s).out with
  | panic msg =>
    rw [Prog.bind_apply, hp]
    exact hpre
  | timeout =>
    rw [Prog.bind_apply, hp]
    exact hpre
  | ok cur2 =>
    rw [Prog.bind_of_ok hp] at hnew ⊢
    simp only [fileSystemCreates_append] at hnew
    have hcov : ∀ x ∈ o.desired desired, ∀ fs2, cur2.get? x.1 = some fs2 →
        ∀ a ∈ o.unitAps x.2.accessPoints, fs2.accessPoints.has a.1 = true := by
      intro x hx fs2 hfs2 a ha
      have hx2 : (x.1, x.2) ∈ desired := (hv4 desired).mem_iff.mp hx
      have hdx : desired.get? x.1 = some x.2 := GoMap.get?_of_mem hdesN hx2
      have hkl : x.1 ∈ (o.current current).map Prod.fst := by
        rcases prune_has B o fuel desired _ _ _ _ hp x.1 (GoMap.has_of_get? hfs2) with h3 | h3
        · have : x.1 ∈ current.map Prod.fst := (GoMap.has_iff_mem_keys _ _).mp h3
          exact ((hv1 current).map Prod.fst).mem_iff.mpr this
        · exact h3
      have ha2 : a.1 ∈ (o.desiredAps x.2.accessPoints).map Prod.fst := by
        have : a ∈ x.2.accessPoints := (hv5 _).mem_iff.mp ha
        exact List.mem_map_of_mem Prod.fst ((hv3 _).mem_iff.mpr this)
      exact prune_covers B o fuel desired _ _ _ _ hp x.1 hkl x.2 hdx fs2 hfs2 a.1 ha2
    have hprovC := accessPointCreates_filter_nil (provision_ap_foreign B o fuel subnetIDs sgid
      efsTag cur2 cfs.fileSystemID (o.desired desired)
      (ensureFileSystemState_prune B o fuel desired (o.current current) current s).st hcov
      (fun p hp2 => hnew p (List.mem_append_right _ hp2)))
    have hprovD : accessPointDeletes (ensureFileSystemState_provision B o fuel subnetIDs sgid
        efsTag cur2 (o.desired desired)
        (ensureFileSystemState_prune B o fuel desired (o.current current) current s).st).log =
        [] := by
      apply accessPointDeletes_eq_nil
      intro e he
      exact accessPointDeletes_of_not_isDelete e
        (provision_no_delete B o fuel subnetIDs sgid efsTag cur2 _ _ e he)
    simp only [accessPointDeletes_append, accessPointCreates_append, List.filter_append]
    rw [hprovC, hprovD]
    simpa using hpre

/-- C4. Access-point diffing. Take a run of ensureFileSystemState with valid
iteration orders whose discovery returns a current graph, a desired graph with
unique keys, and a key present in both graphs; assume that the listing of the
file systems names no id twice and that no CreateFileSystem of the run returns
the id of the current file system of that key. Requests are attributed to a
file system by the id of the file system they are issued for. Whatever the
outcome of the run, the DeleteAccessPoint requests issued for that file system
are an initial segment of those for the ids of its current access point keys
that are not desired, and the CreateAccessPoint requests targeting it are an
initial segment of those for its desired keys that are not current, with
client token "<ap-marker>:<key>"; so no request is issued for a key in both
sets and none twice. When the run returns, over the whole run (the sequential
pass and the concurrent units together) the deletes are exactly the former and
the creates exactly the latter. And the run does return when no answer it gets
is fatal and fewer than `fuel` of its answers are pending. -/
theorem ensureFileSystemState_access_point_diff (o : RangeOrder) (fuel : Nat)
    (desired : fileSystems) (s : σ) (d : Discovery) (k : String) (cfs dfs : fileSystem)
    (hv : o.Valid) (hd : (ensureFileSystemState_discover B s).out = .ok d)
    (hdesN : desired.keys.Nodup)
    (hk : d.currentState.get? k = some cfs) (hdk : desired.get? k = some dfs)
    (hapN : dfs.accessPoints.keys.Nodup)
    (hids : ∀ l, Event.DescribeFileSystems none (.ok l) ∈
        (ensureFileSystemState B o fuel desired s).log →
      (l.map FileSystemDescription.FileSystemId).Nodup)
    (hnew : ∀ p ∈ fileSystemCreates (ensureFileSystemState B o fuel desired s).log,
      p.2 ≠ some cfs.fileSystemID) :
    ((accessPointDeletes (ensureFileSystemState B o fuel desired s).log).filter
        (fun p => p.1 = cfs.fileSystemID) <+:
      ((o.currentAps cfs.accessPoints).filter (fun a => !dfs.accessPoints.has a.1)).map
        (fun a => (cfs.fileSystemID, a.2))) ∧
    ((accessPointCreates (ensureFileSystemState B o fuel desired s).log).filter
        (fun p => p.2 = cfs.fileSystemID) <+:
      ((o.desiredAps dfs.accessPoints).filter (fun a => !cfs.accessPoints.has a.1)).map
        (fun a => (sprintfToken apTokenMarker a.1, cfs.fileSystemID))) ∧
    ((ensureFileSystemState B o fuel desired s).out = .ok () →
      (accessPointDeletes (ensureFileSystemState B o fuel desired s).log).filter
          (fun p => p.1 = cfs.fileSystemID) =
        ((o.currentAps cfs.accessPoints).filter (fun a => !dfs.accessPoints.has a.1)).map
          (fun a => (cfs.fileSystemID, a.2)) ∧
      (accessPointCreates (ensureFileSystemState B o fuel desired s).log).filter
          (fun p => p.2 = cfs.fileSystemID) =
        ((o.desiredAps dfs.accessPoints).filter (fun a => !cfs.accessPoints.has a.1)).map
          (fun a => (sprintfToken apTokenMarker a.1, cfs.fileSystemID))) ∧
    ((∀ e ∈ (ensureFileSystemState B o fuel desired s).log, e.fatal = false) →
      (ensureFileSystemState B o fuel desired s).log.countP Event.pending < fuel →
      (ensureFileSystemState B o fuel desired s).out = .ok ()) := by
  obtain ⟨hout, hlog⟩ := ensureFileSystemState_of_discover B o fuel desired hd
  obtain ⟨hfc, hac, -, -, had⟩ := ensureFileSystemState_views B o fuel desired hd
  have hcurN := discover_keys_nodup B hd
  obtain ⟨fslist, hmemL, hent⟩ := discover_graph_ids B hd
  have hN := hids fslist (by rw [hlog]; exact List.mem_append_left _ hmemL)
  have hid : ∀ k2 fs2, d.currentState.get? k2 = some fs2 →
      fs2.fileSystemID = cfs.fileSystemID → k2 = k := by
    intro k2 fs2 h1 h2
    obtain ⟨d1, hd1, ht1, hi1⟩ := hent k cfs hk
    obtain ⟨d2, hd2, ht2, hi2⟩ := hent k2 fs2 h1
    have heq : d2 = d1 := List.inj_on_of_nodup_map hN hd2 hd1 (by rw [← hi1, ← hi2, h2])
    rw [heq, ht1] at ht2
    exact (Option.some.inj ht2).symm
  rw [hfc] at hnew
  rw [had, hac]
  obtain ⟨hpD, hpC⟩ := reconcile_access_point_diff_initial B o fuel d.subnetIDs d.sgid d.efsTag
    desired d.currentState (ensureFileSystemState_discover B s).st k cfs dfs hv hcurN hdesN hk
    hdk hapN hid hnew
  refine ⟨hpD, hpC, ?_, ensureFileSystemState_returns B hd⟩
  intro hok
  rw [hout] at hok
  exact reconcile_access_point_diff B o fuel d.subnetIDs d.sgid d.efsTag desired d.currentState
    (ensureFileSystemState_discover B s).st k cfs dfs hv hcurN hdesN hk hdk hapN hid hok hnew

end

/-! ## The theorems at concrete inputs -/

theorem RangeOrder.stored_valid : RangeOrder.stored.Valid :=
  ⟨fun _ => List.Perm.refl _, fun _ => List.Perm.refl _, fun _ => List.Perm.refl _,
    fun _ => List.Perm.refl _, fun _ => List.Perm.refl _⟩

/-- A log in which every listing of the file systems names no id twice. -/
theorem listing_ids_nodup {log : List Event}
    (h : ∀ e ∈ log, (match e with
      | .DescribeFileSystems none (.ok l) =>
        decide ((l.map FileSystemDescription.FileSystemId).Nodup)
      | _ => true) = true) :
    ∀ l, Event.DescribeFileSystems none (.ok l) ∈ log →
      (l.map FileSystemDescription.FileSystemId).Nodup := by
  intro l hl
  have := h _ hl
  simpa using this

/-- Current `{ap1, ap2}` and desired `{ap2, ap3}` under `fsA`: the run
returns, `ap1` is deleted once, `ap3` is created once, `ap2` is left alone. -/
theorem ensureFileSystemState_access_point_diff_witness :
    (ensureFileSystemState_discover (refBackend false) refExample).out =
      .ok ⟨"sg-1", ["s1", "s1", "s2"], exampleTag, currentExample⟩ ∧
    (ensureFileSystemState (refBackend false) RangeOrder.stored 3 desiredExample
      refExample).out = .ok () ∧
    (accessPointDeletes (ensureFileSystemState (refBackend false) RangeOrder.stored 3
      desiredExample refExample).log).filter (fun p => p.1 = "fs-0") = [("fs-0", "fsap-1")] ∧
    (accessPointCreates (ensureFileSystemState (refBackend false) RangeOrder.stored 3
      desiredExample refExample).log).filter (fun p => p.2 = "fs-0") =
      [("2uasimojo/aws-efs-manage-ap:ap3", "fs-0")] := by
  have h := ensureFileSystemState_access_point_diff (refBackend false) RangeOrder.stored 3
    desiredExample refExample ⟨"sg-1", ["s1", "s1", "s2"], exampleTag, currentExample⟩ "fsA"
    ⟨"fs-0", "available", [("ap1", "fsap-1"), ("ap2", "fsap-2")]⟩ (desiredFS ["ap2", "ap3"])
    RangeOrder.stored_valid (by decide) (by decide) (by decide) (by decide) (by decide)
    (listing_ids_nodup (by decide)) (by decide)
  have hok := h.2.2.2 (by decide) (by decide)
  exact ⟨by decide, hok, (h.2.2.1 hok).1.trans (by decide), (h.2.2.1 hok).2.trans (by decide)⟩

/-- Subnets `[s1, s1, s2]`: two CreateMountTarget requests, never three. -/
theorem ensureMountTargets_one_per_subnet_witness :
    (ensureMountTargets (refBackend false) 1 "fs-1" ["s1", "s1", "s2"] "sg-1" refExample).out =
      .ok () ∧
    mountTargetCreates (ensureMountTargets (refBackend false) 1 "fs-1" ["s1", "s1", "s2"] "sg-1"
      refExample).log = [("fs-1", "s1"), ("fs-1", "s2")] ∧
    (mountTargetCreates (ensureMountTargets (refBackend false) 1 "fs-1" ["s1", "s1", "s2"] "sg-1"
      refExample).log).length = ["s1", "s1", "s2"].dedup.length ∧
    getSubnetIDs [worker "s1", worker "s1", worker "s2"] = .ok ["s1", "s1", "s2"] := by
  have hok : (ensureMountTargets (refBackend false) 1 "fs-1" ["s1", "s1", "s2"] "sg-1"
      refExample).out = .ok () := by decide
  have h := ensureMountTargets_one_per_subnet (refBackend false) 1 "fs-1" ["s1", "s1", "s2"]
    "sg-1" refExample (fun msg hc => by rw [hok] at hc; cases hc)
  exact ⟨hok, by decide, h.2.2.2, by decide⟩

/-- C9 as stated fails: with `fsA` retained and visited before the extraneous
`fsC`, the CreateAccessPoint request for `ap3` on `fsA` (call 6 of the run) is
issued before the mount-target deletes (calls 8 and 9) and the file-system
delete (call 11) of the teardown of `fsC`. -/
theorem ensureFileSystemState_create_before_teardown :
    (ensureFileSystemState (refBackend false) RangeOrder.stored 2 desiredExample refExample).out =
      .ok () ∧
    ((ensureFileSystemState (refBackend false) RangeOrder.stored 2 desiredExample
      refExample).log.get? 6).map Event.isCreate = some true ∧
    (ensureFileSystemState (refBackend false) RangeOrder.stored 2 desiredExample
      refExample).log.get? 8 = some (Event.DeleteMountTarget "fs-1" "fsmt-4" (.ok ())) ∧
    (ensureFileSystemState (refBackend false) RangeOrder.stored 2 desiredExample
      refExample).log.get? 9 = some (Event.DeleteMountTarget "fs-1" "fsmt-5" (.ok ())) ∧
    (ensureFileSystemState (refBackend false) RangeOrder.stored 2 desiredExample
      refExample).log.get? 11 = some (Event.DeleteFileSystem "fs-1" (.ok ())) ∧
    accessPointCreates ((ensureFileSystemState (refBackend false) RangeOrder.stored 2
      desiredExample refExample).log.take 7) = [("2uasimojo/aws-efs-manage-ap:ap3", "fs-0")] := by
  decide

/-- In the run with `desiredExample` from `refExample` the file-system delete
of `fsC` (call 11) precedes the first CreateMountTarget request (call 12). -/
theorem ensureFileSystemState_teardown_before_provision_witness :
    (ensureFileSystemState (refBackend false) RangeOrder.stored 2 desiredExample
      refExample).log.get? 11 = some (Event.DeleteFileSystem "fs-1" (.ok ())) ∧
    (ensureFileSystemState (refBackend false) RangeOrder.stored 2 desiredExample
      refExample).log.get? 12 =
      some (Event.CreateMountTarget "fs-0" "s1" "sg-1" (.err .MountTargetConflict)) ∧
    11 < 12 :=
  ⟨by decide, by decide,
    (ensureFileSystemState_teardown_before_provision (refBackend false) RangeOrder.stored 2
      desiredExample refExample).2 11 12 (Event.DeleteFileSystem "fs-1" (.ok ()))
      (Event.CreateMountTarget "fs-0" "s1" "sg-1" (.err .MountTargetConflict))
      (by decide) (by decide) rfl rfl⟩

/-- With keys that hold no colon the second run changes nothing: a first run
with `desiredTwo` from a backend without file systems ends in `refConverged`,
and a second run from there returns, leaves the backend state as it was,
issues no delete, and gets "already exists" for every create it issues. -/
theorem ensureFileSystemState_second_run_example :
    (ensureFileSystemState (refBackend false) RangeOrder.stored 2 desiredTwo
      (refInit [worker "s1", worker "s1", worker "s2"])).out = .ok () ∧
    (ensureFileSystemState (refBackend false) RangeOrder.stored 2 desiredTwo
      (refInit [worker "s1", worker "s1", worker "s2"])).st = refConverged ∧
    (ensureFileSystemState (refBackend false) RangeOrder.stored 2 desiredTwo refConverged).out =
      .ok () ∧
    (ensureFileSystemState (refBackend false) RangeOrder.stored 2 desiredTwo refConverged).st =
      refConverged ∧
    ∀ e ∈ (ensureFileSystemState (refBackend false) RangeOrder.stored 2 desiredTwo
      refConverged).log, e.isDelete = false ∧ (e.isCreate = true → e.failed = true) := by
  decide

/-- C2 at the desired graph with the single key "a:b", starting from a
backend without file systems. The first run returns and leaves one file
system. The second run with the same desired graph does not find it; on a
backend that accepts a reused creation token it returns after creating a
second file system with the same token, and on one that refuses a reused
token it panics in newFileSystem. -/
theorem ensureFileSystemState_colon_key_second_run :
    (ensureFileSystemState (refBackend false) RangeOrder.stored 2 [("a:b", desiredFS [])]
      (refInit [worker "s1"])).out = .ok () ∧
    (ensureFileSystemState (refBackend false) RangeOrder.stored 2 [("a:b", desiredFS [])]
      (refInit [worker "s1"])).st.fss.map RefFs.token = ["2uasimojo/aws-efs-manage-fs:a:b"] ∧
    (getFileSystems (refBackend false)
      (ensureFileSystemState (refBackend false) RangeOrder.stored 2 [("a:b", desiredFS [])]
        (refInit [worker "s1"])).st).out = .ok [] ∧
    (ensureFileSystemState (refBackend false) RangeOrder.stored 2 [("a:b", desiredFS [])]
      (ensureFileSystemState (refBackend false) RangeOrder.stored 2 [("a:b", desiredFS [])]
        (refInit [worker "s1"])).st).out = .ok () ∧
    fileSystemCreates (ensureFileSystemState (refBackend false) RangeOrder.stored 2
      [("a:b", desiredFS [])]
      (ensureFileSystemState (refBackend false) RangeOrder.stored 2 [("a:b", desiredFS [])]
        (refInit [worker "s1"])).st).log = [("2uasimojo/aws-efs-manage-fs:a:b", some "fs-2")] ∧
    (ensureFileSystemState (refBackend false) RangeOrder.stored 2 [("a:b", desiredFS [])]
      (ensureFileSystemState (refBackend false) RangeOrder.stored 2 [("a:b", desiredFS [])]
        (refInit [worker "s1"])).st).st.fss.map RefFs.token =
      ["2uasimojo/aws-efs-manage-fs:a:b", "2uasimojo/aws-efs-manage-fs:a:b"] ∧
    (ensureFileSystemState (refBackend true) RangeOrder.stored 2 [("a:b", desiredFS [])]
      (refInit [worker "s1"])).out = .ok () ∧
    (ensureFileSystemState (refBackend true) RangeOrder.stored 2 [("a:b", desiredFS [])]
      (ensureFileSystemState (refBackend true) RangeOrder.stored 2 [("a:b", desiredFS [])]
        (refInit [worker "s1"])).st).out = .panic "CreateFileSystem" := by
  decide

end EfsManage
